import Mathlib

/-!
The reconciliation engine of icebreaker-exporter.

A shallow embedding of `pkg/models`, `pkg/config` and `pkg/exporter/parser.go`,
followed by theorems about the embedded functions.

Conventions of the embedding

* A Go `string` is a Lean `String` (a sequence of Unicode code points; Go strings
  obtained from JSON decoding are valid UTF-8, for which Go's bytewise `<` and
  Lean's code-point-wise `<` agree).
* `int`, `int32`, `int64` are `Int`; `float64` and `float32` are given by their
  IEEE 754 fields.
* A Go `map[string]V` is an association list with the list order standing for
  one iteration order of the map.
* Behaviour of the Go runtime that the repository does not fix (Unicode case
  tables, RFC 3339 parsing, out-of-range float to integer conversion) is a
  parameter `rt : GoRuntime` of the functions that depend on it.
-/

namespace Icebreaker

/-! ## Go runtime and standard library -/

/-- An IEEE 754 binary64 value given by its sign bit, biased exponent (11 bits)
and fraction (52 bits). -/
structure Float64 where
  sign : Bool
  exp : Nat
  frac : Nat
  deriving DecidableEq, Repr

/-- An IEEE 754 binary32 value given by its sign bit, biased exponent (8 bits)
and fraction (23 bits). -/
structure Float32 where
  sign : Bool
  exp : Nat
  frac : Nat
  deriving DecidableEq, Repr

/-- The function `math.IsNaN`: exponent all ones and a non-zero fraction. -/
def IsNaN (f : Float64) : Bool := f.exp == 2047 && f.frac != 0

/-- The parts of the Go runtime and standard library left open by the embedding. -/
structure GoRuntime where
  /-- The rune mapping `unicode.ToUpper` on runes outside ASCII. -/
  upperRune : Char → Char
  /-- The call `time.Parse(time.RFC3339, s)` followed by `Unix()`; `none` is a parse error. -/
  parseRFC3339 : String → Option Int
  /-- The implementation-dependent result of `int64(f)` when `f` is NaN, infinite or
  out of the range of `int64`. -/
  convOverflow : Float64 → Int
  /-- The result of `strconv.ParseFloat(s, 64)` on a string that is not a plain decimal
  numeral (hexadecimal mantissa, underscores between digits, `Inf`, `NaN`, or no number at
  all); `none` is a non-nil error. -/
  parseFloatOther : String → Option Float64

/-- The predicate `unicode.IsSpace`. -/
def isSpace (c : Char) : Bool :=
  let n := c.toNat
  n == 0x09 || n == 0x0A || n == 0x0B || n == 0x0C || n == 0x0D || n == 0x20 ||
  n == 0x85 || n == 0xA0 || n == 0x1680 || (0x2000 ≤ n && n ≤ 0x200A) ||
  n == 0x2028 || n == 0x2029 || n == 0x202F || n == 0x205F || n == 0x3000

/-- The function `strings.TrimSpace`: leading and trailing white space removed. -/
def TrimSpace (s : String) : String :=
  String.mk ((s.data.dropWhile isSpace).rdropWhile isSpace)

/-- The rune mapping `unicode.ToUpper`: ASCII letters by arithmetic, other runes by table. -/
def toUpperRune (rt : GoRuntime) (c : Char) : Char :=
  if c.toNat < 128 then
    (if 97 ≤ c.toNat ∧ c.toNat ≤ 122 then Char.ofNat (c.toNat - 32) else c)
  else rt.upperRune c

/-- The function `strings.ToUpper`. -/
def ToUpper (rt : GoRuntime) (s : String) : String :=
  String.mk (s.data.map (toUpperRune rt))

/-- The comparison `a < b` of Go strings (lexicographic). -/
def strLess (a b : String) : Bool := decide (a.data < b.data)

/-! ### strconv and numeric conversions -/

/-- The test `'0' <= c && c <= '9'`. -/
def isDigit (c : Char) : Bool := decide (48 ≤ c.toNat) && decide (c.toNat ≤ 57)

/-- The value `c - '0'` of a decimal digit. -/
def digitVal (c : Char) : Nat := c.toNat - 48

/-- The number denoted by a sequence of decimal digits, continuing from `acc`. -/
def digitsVal (acc : Nat) : List Char → Nat
  | [] => acc
  | c :: cs => digitsVal (acc * 10 + digitVal c) cs

/-- An optional leading sign: whether it is `-`, and the rest. -/
def splitSign : List Char → Bool × List Char
  | [] => (false, [])
  | c :: cs => if c = '-' then (true, cs) else if c = '+' then (false, cs) else (false, c :: cs)

/-- The function `strconv.ParseInt(s, 10, 64)`; `none` is a non-nil error (syntax or
range). -/
def ParseInt (s : String) : Option Int :=
  let sd := splitSign s.data
  if sd.2 = [] ∨ sd.2.all isDigit = false then none
  else
    let n := digitsVal 0 sd.2
    if sd.1 then (if n ≤ 9223372036854775808 then some (-(n : Int)) else none)
    else (if n < 9223372036854775808 then some (n : Int) else none)

/-- The functions `strconv.FormatInt(i, 10)` and `strconv.Itoa`. -/
def FormatInt (i : Int) : String :=
  if i < 0 then String.mk ('-' :: Nat.toDigits 10 i.natAbs) else String.mk (Nat.toDigits 10 i.toNat)

/-- The floor of the binary logarithm, by halving (`fuel` bounds the number of halvings). -/
def ilog2 : Nat → Nat → Nat
  | 0, _ => 0
  | fuel + 1, n => if n < 2 then 0 else ilog2 fuel (n / 2) + 1

/-- The test `2 ^ e ≤ a / b` for positive `a`, `b`. -/
def ratGE (a b : Nat) (e : Int) : Bool :=
  if 0 ≤ e then decide (b * 2 ^ e.toNat ≤ a) else decide (b ≤ a * 2 ^ (-e).toNat)

/-- The float64 nearest to `± a / b` for positive `a`, `b`, ties to even; `none` when the
rounded value exceeds the largest finite float64.  With `2 ^ e ≤ a / b < 2 ^ (e + 1)` the
quotient is scaled by `2 ^ q`, `q = max e (-1022) - 52`, and rounded to the integer `M`. -/
def roundReduced (neg : Bool) (a b : Nat) : Option Float64 :=
  let e0 : Int := (ilog2 a a : Int) - (ilog2 b b : Int)
  let e : Int := if ratGE a b e0 then e0 else e0 - 1
  let q : Int := max e (-1022) - 52
  let N : Nat := if 0 ≤ q then a else a * 2 ^ (-q).toNat
  let D : Nat := if 0 ≤ q then b * 2 ^ q.toNat else b
  let M0 := N / D
  let r := N % D
  let M1 := if D < 2 * r ∨ (2 * r = D ∧ M0 % 2 = 1) then M0 + 1 else M0
  let M := if M1 = 2 ^ 53 then 2 ^ 52 else M1
  let q1 : Int := if M1 = 2 ^ 53 then q + 1 else q
  if M < 2 ^ 52 then some { sign := neg, exp := 0, frac := M }
  else if 2047 ≤ q1 + 1075 then none
  else some { sign := neg, exp := (q1 + 1075).toNat, frac := M - 2 ^ 52 }

/-- The float64 nearest to `± num / den`, ties to even (IEEE 754 round to nearest even);
`none` when the rounded value exceeds the largest finite float64. -/
def roundToFloat64 (neg : Bool) (num den : Nat) : Option Float64 :=
  if num = 0 ∨ den = 0 then some { sign := neg, exp := 0, frac := 0 }
  else roundReduced neg (num / Nat.gcd num den) (den / Nat.gcd num den)

/-- A plain decimal numeral: sign, the digits of the mantissa read as one number, and the
power of ten that scales it. -/
structure Decimal where
  neg : Bool
  mant : Nat
  exp10 : Int
  deriving DecidableEq, Repr

/-- The exponent part of a decimal numeral (`e` or `E`, optional sign, digits); as in
`strconv`, the exponent stops growing once it has reached 10000. -/
def parseExponent : List Char → Option Int
  | [] => some 0
  | c :: cs =>
    if c = 'e' ∨ c = 'E' then
      let sd := splitSign cs
      if sd.2 = [] ∨ sd.2.all isDigit = false then none
      else
        let e : Nat := sd.2.foldl (fun e d => if e < 10000 then e * 10 + digitVal d else e) 0
        some (if sd.1 then -(e : Int) else (e : Int))
    else none

/-- The plain decimal numerals: optional sign, digits with an optional point (at least one
digit), optional exponent. -/
def parseDecimal (s : List Char) : Option Decimal :=
  let sd := splitSign s
  let ip := sd.2.takeWhile isDigit
  let r1 := sd.2.dropWhile isDigit
  let fr : List Char × List Char :=
    match r1 with
    | [] => ([], [])
    | c :: r => if c = '.' then (r.takeWhile isDigit, r.dropWhile isDigit) else ([], c :: r)
  if ip = [] ∧ fr.1 = [] then none
  else
    match parseExponent fr.2 with
    | none => none
    | some e =>
      some { neg := sd.1, mant := digitsVal 0 (ip ++ fr.1), exp10 := e - (fr.1.length : Int) }

/-- The float64 nearest to a decimal numeral; `none` on overflow (`strconv.ErrRange`). -/
def decimalToFloat64 (d : Decimal) : Option Float64 :=
  if 0 ≤ d.exp10 then roundToFloat64 d.neg (d.mant * 10 ^ d.exp10.toNat) 1
  else roundToFloat64 d.neg d.mant (10 ^ (-d.exp10).toNat)

/-- The function `strconv.ParseFloat(s, 64)`; `none` is a non-nil error.  A plain decimal
numeral gives the nearest float64; every other string is left to the runtime. -/
def ParseFloat (rt : GoRuntime) (s : String) : Option Float64 :=
  match parseDecimal s.data with
  | some d => decimalToFloat64 d
  | none => rt.parseFloatOther s

/-- The value of an integer as an `int64` (wrap-around modulo 2^64). -/
def wrapInt64 (i : Int) : Int :=
  (i + 9223372036854775808) % 18446744073709551616 - 9223372036854775808

/-- The conversion `int64(f)` of a float64: truncation toward zero; the result for NaN,
infinities and values out of range is the runtime's. -/
def float64ToInt64 (rt : GoRuntime) (f : Float64) : Int :=
  if 2047 ≤ f.exp then wrapInt64 (rt.convOverflow f)
  else
    let m : Nat := if f.exp = 0 then f.frac else 2 ^ 52 + f.frac
    let e : Nat := if f.exp = 0 then 1 else f.exp
    let mag : Nat := if 1075 ≤ e then m * 2 ^ (e - 1075) else m / 2 ^ (1075 - e)
    let v : Int := if f.sign then -(mag : Int) else (mag : Int)
    if -9223372036854775808 ≤ v ∧ v < 9223372036854775808 then v
    else wrapInt64 (rt.convOverflow f)

/-- The conversion `float64(i)` of an integer: the nearest float64. -/
def intToFloat64 (i : Int) : Float64 :=
  (roundToFloat64 (decide (i < 0)) i.natAbs 1).getD { sign := false, exp := 2047, frac := 0 }

/-- The conversion `float64(f)` of a float32 (exact). -/
def float32ToFloat64 (f : Float32) : Float64 :=
  if 255 ≤ f.exp then { sign := f.sign, exp := 2047, frac := f.frac * 2 ^ 29 }
  else
    let m : Nat := if f.exp = 0 then f.frac else 2 ^ 23 + f.frac
    let e : Nat := if f.exp = 0 then 1 else f.exp
    (roundToFloat64 f.sign (m * 2 ^ e) (2 ^ 150)).getD { sign := f.sign, exp := 2047, frac := 0 }

/-- The test `strings.Contains(v, ".")`. -/
def containsDot (v : String) : Bool := decide ('.' ∈ v.data)

/-! ## Go maps with string keys -/

/-- A Go `map[string]V`. -/
abbrev GoMap (V : Type) := List (String × V)

namespace GoMap

/-- The lookup `v, ok := m[k]`. -/
def get {V : Type} : GoMap V → String → Option V
  | [], _ => none
  | (k', v) :: rest, k => if k' = k then some v else get rest k

/-- The assignment `m[k] = v`. -/
def set {V : Type} : GoMap V → String → V → GoMap V
  | [], k, v => [(k, v)]
  | (k', v') :: rest, k, v => if k' = k then (k, v) :: rest else (k', v') :: set rest k v

/-- The keys in iteration order. -/
def keys {V : Type} (m : GoMap V) : List String := m.map Prod.fst

/-- The values in iteration order (`for _, v := range m`). -/
def values {V : Type} (m : GoMap V) : List V := m.map Prod.snd

end GoMap

/-- The function `sort.Slice` with comparison `less`: an insertion sort.  The order of
elements that `less` does not separate is not fixed by Go; see `sortSlice_unique`. -/
def sortSlice {α : Type} (less : α → α → Bool) (l : List α) : List α :=
  l.insertionSort (fun a b => less b a = false)

/-! ## pkg/models -/

/-- The struct `models.VesselMetadata`; `Updated` is the instant in Unix nanoseconds,
never assigned by the code (zero value). -/
structure VesselMetadata where
  MMSI : String
  Name : String
  Country : String
  Updated : Int := 0
  deriving DecidableEq, Repr

/-- The struct `models.LocationRecord`. -/
structure LocationRecord where
  Name : String
  MMSI : String
  Latitude : Float64
  Longitude : Float64
  Timestamp : Int
  deriving DecidableEq, Repr

/-- The struct `models.IcebreakerPosition`. -/
structure IcebreakerPosition where
  Name : String
  MMSI : String
  Country : String
  Latitude : Float64
  Longitude : Float64
  Timestamp : Int
  deriving DecidableEq, Repr

/-! ## pkg/config -/

/-- The function `config.NormalizeName`. -/
def NormalizeName (rt : GoRuntime) (name : String) : String :=
  ToUpper rt (TrimSpace name)

/-- The call `strings.Split(value, sep)` for a separator of one character: the pieces between
the occurrences of the separator (one more piece than occurrences). -/
def splitOnChar (sep : Char) : List Char → List (List Char)
  | [] => [[]]
  | c :: cs =>
    if c = sep then [] :: splitOnChar sep cs
    else
      match splitOnChar sep cs with
      | [] => [[c]]
      | piece :: pieces => (c :: piece) :: pieces

/-- The call `strings.Split(value, ",")`. -/
def Split (value : String) : List String := (splitOnChar ',' value.data).map String.mk

/-- The assignment `out[k] = struct{}{}` on a set given by its list of keys. -/
def setAdd (out : List String) (k : String) : List String :=
  if k ∈ out then out else out ++ [k]

/-- The function `config.ParseTargetNames`; the resulting `map[string]struct{}` is given by
its list of keys. -/
def ParseTargetNames (rt : GoRuntime) (value : String) : List String :=
  (Split value).foldl
    (fun out item =>
      let norm := NormalizeName rt item
      if norm = "" then out else setAdd out norm)
    []

/-! ## pkg/exporter/parser.go: dynamically typed values -/

/-- A Go value of type `any` as the parser meets it: the JSON values produced by the decoder
(with numbers as `json.Number`) and the numeric Go types that the coercions also accept.  A
nil map is the empty map. -/
inductive Any where
  | null
  | bool (b : Bool)
  | str (s : String)
  | number (n : String)
  | float64 (f : Float64)
  | float32 (f : Float32)
  | int (i : Int)
  | int64 (i : Int)
  | int32 (i : Int)
  | arr (items : List Any)
  | obj (fields : List (String × Any))

/-- The function `toMMSI`. -/
def toMMSI (rt : GoRuntime) : Any → String
  | .str v =>
    let v := TrimSpace v
    if v = "" then ""
    else if containsDot v then
      match ParseFloat rt v with
      | some f => FormatInt (float64ToInt64 rt f)
      | none => v
    else v
  | .number v =>
    match ParseInt v with
    | some i => FormatInt i
    | none =>
      match ParseFloat rt v with
      | some f => FormatInt (float64ToInt64 rt f)
      | none => ""
  | .float64 v => FormatInt (float64ToInt64 rt v)
  | .float32 v => FormatInt (float64ToInt64 rt (float32ToFloat64 v))
  | .int v => FormatInt v
  | .int64 v => FormatInt v
  | .int32 v => FormatInt v
  | _ => ""

/-- The function `normalizeTimestamp`. -/
def normalizeTimestamp (ts : Int) : Int :=
  if ts > 1000000000000000 then Int.tdiv ts 1000000
  else if ts > 1000000000000 then Int.tdiv ts 1000
  else ts

/-- The function `toTimestamp`. -/
def toTimestamp (rt : GoRuntime) : Any → Int
  | .number v =>
    match ParseInt v with
    | some i => normalizeTimestamp i
    | none =>
      match ParseFloat rt v with
      | some f => normalizeTimestamp (float64ToInt64 rt f)
      | none => 0
  | .float64 v => normalizeTimestamp (float64ToInt64 rt v)
  | .float32 v => normalizeTimestamp (float64ToInt64 rt (float32ToFloat64 v))
  | .int v => normalizeTimestamp v
  | .int64 v => normalizeTimestamp v
  | .int32 v => normalizeTimestamp v
  | .str v =>
    let s := TrimSpace v
    if s = "" then 0
    else
      match ParseInt s with
      | some parsed => normalizeTimestamp parsed
      | none =>
        match rt.parseRFC3339 s with
        | some unix => unix
        | none => 0
  | _ => 0

/-- The function `toFloat64`; `none` stands for the result `ok == false`. -/
def toFloat64 (rt : GoRuntime) : Any → Option Float64
  | .number v => ParseFloat rt v
  | .float64 v => some v
  | .float32 v => some (float32ToFloat64 v)
  | .int v => some (intToFloat64 v)
  | .int64 v => some (intToFloat64 v)
  | .int32 v => some (intToFloat64 v)
  | .str v => ParseFloat rt (TrimSpace v)
  | _ => none

/-- The function `getString`. -/
def getString (item : GoMap Any) : List String → String
  | [] => ""
  | key :: keys =>
    match item.get key with
    | some (.str value) => if TrimSpace value ≠ "" then value else getString item keys
    | _ => getString item keys

/-- The function `getNumber`; `none` stands for the result `(0, false)`. -/
def getNumber (rt : GoRuntime) (item : GoMap Any) : List String → Option Float64
  | [] => none
  | key :: keys =>
    match item.get key with
    | none => getNumber rt item keys
    | some .null => getNumber rt item keys
    | some raw =>
      match toFloat64 rt raw with
      | some value => some value
      | none => getNumber rt item keys

/-- The function `getMMSI`. -/
def getMMSI (rt : GoRuntime) (item : GoMap Any) : List String → String
  | [] => ""
  | key :: keys =>
    match item.get key with
    | none => getMMSI rt item keys
    | some .null => getMMSI rt item keys
    | some raw => if toMMSI rt raw ≠ "" then toMMSI rt raw else getMMSI rt item keys

/-- The function `getTimestamp`. -/
def getTimestamp (rt : GoRuntime) (item : GoMap Any) : List String → Int
  | [] => 0
  | key :: keys =>
    match item.get key with
    | none => getTimestamp rt item keys
    | some .null => getTimestamp rt item keys
    | some raw => if toTimestamp rt raw > 0 then toTimestamp rt raw else getTimestamp rt item keys

mutual
/-- The function `walkJSON`, given by the sequence of objects on which it invokes the visitor
`fn`, in the order of the invocations.  The fields of an object are visited in the order of
its association list. -/
def walkJSON : Any → List (GoMap Any)
  | .obj value => value :: walkFields value
  | .arr value => walkItems value
  | _ => []
/-- The loop `for _, child := range value` of `walkJSON` over the elements of an array. -/
def walkItems : List Any → List (GoMap Any)
  | [] => []
  | child :: rest => walkJSON child ++ walkItems rest
/-- The loop `for _, child := range value` of `walkJSON` over the fields of an object. -/
def walkFields : List (String × Any) → List (GoMap Any)
  | [] => []
  | (_, child) :: rest => walkJSON child ++ walkFields rest
end

/-- The length `len(s)` of a Go string in bytes (UTF-8). -/
def byteLen (s : String) : Nat := (s.data.map Char.utf8Size).sum

/-- The country inferred from the MID, the first three digits of the MMSI, in
`ExtractVesselMetadata`. -/
def inferCountry (mmsi : String) : String :=
  if byteLen mmsi ≥ 3 then
    let mid := String.mk (mmsi.data.take 3)
    if mid = "230" then "FI"
    else if mid = "265" ∨ mid = "266" then "SE"
    else if mid = "257" ∨ mid = "258" ∨ mid = "259" then "NO"
    else if mid = "219" ∨ mid = "220" then "DK"
    else "Unknown"
  else "Unknown"

/-- The visitor of `ExtractVesselMetadata`. -/
def metadataVisit (rt : GoRuntime) (byMMSI : GoMap VesselMetadata) (item : GoMap Any) :
    GoMap VesselMetadata :=
  let mmsi := getMMSI rt item ["mmsi"]
  if mmsi = "" then byMMSI
  else
    let name := getString item ["name", "vesselName"]
    if name = "" then byMMSI
    else byMMSI.set mmsi { Name := TrimSpace name, MMSI := mmsi, Country := inferCountry mmsi }

/-- The function `ExtractVesselMetadata`.  The records come in one iteration order of
`byMMSI`. -/
def ExtractVesselMetadata (rt : GoRuntime) (payload : Any) : List VesselMetadata :=
  ((walkJSON payload).foldl (metadataVisit rt) []).values

/-- The function `parseGeoJSONLocation`; `none` stands for the result `ok == false`. -/
def parseGeoJSONLocation (rt : GoRuntime) (item : GoMap Any) : Option LocationRecord :=
  match item.get "geometry" with
  | some (.obj geometry) =>
    match GoMap.get geometry "coordinates" with
    | some (.arr (c0 :: c1 :: _)) =>
      match toFloat64 rt c0, toFloat64 rt c1 with
      | some lon, some lat =>
        let properties : GoMap Any :=
          match item.get "properties" with
          | some (.obj properties) => properties
          | _ => []
        let mmsi0 := getMMSI rt properties ["mmsi"]
        let mmsi := if mmsi0 = "" then getMMSI rt item ["mmsi"] else mmsi0
        if mmsi = "" then none
        else
          let name0 := getString properties ["name", "vesselName"]
          let name := if name0 = "" then getString item ["name", "vesselName"] else name0
          let ts0 := getTimestamp rt properties ["timestamp", "time", "locUpdateTimestamp"]
          let ts :=
            if ts0 = 0 then getTimestamp rt item ["timestamp", "time", "locUpdateTimestamp"]
            else ts0
          some { Name := TrimSpace name, MMSI := mmsi, Latitude := lat, Longitude := lon,
                 Timestamp := ts }
      | _, _ => none
    | _ => none
  | _ => none

/-- The function `parseFlatLocation`; `none` stands for the result `ok == false`. -/
def parseFlatLocation (rt : GoRuntime) (item : GoMap Any) : Option LocationRecord :=
  match getNumber rt item ["lat", "latitude"],
        getNumber rt item ["lon", "lng", "longitude", "long"] with
  | some lat, some lon =>
    let mmsi := getMMSI rt item ["mmsi"]
    if mmsi = "" then none
    else
      let ts := getTimestamp rt item ["timestamp", "time", "locUpdateTimestamp"]
      some { Name := TrimSpace (getString item ["name", "vesselName"]), MMSI := mmsi,
             Latitude := lat, Longitude := lon, Timestamp := ts }
  | _, _ => none

/-- The visitor of `ExtractLocations`: the observation appended for one object, if any. -/
def locationVisit (rt : GoRuntime) (item : GoMap Any) : Option LocationRecord :=
  match parseGeoJSONLocation rt item with
  | some loc => some loc
  | none => parseFlatLocation rt item

/-- The function `ExtractLocations`. -/
def ExtractLocations (rt : GoRuntime) (payload : Any) : List LocationRecord :=
  (walkJSON payload).filterMap (locationVisit rt)

/-! ## pkg/exporter/parser.go: reconciliation -/

/-- The first loop of `SelectIcebreakerPositions`: the allow-listed metadata indexed by MMSI.
The allow-list `map[string]struct{}` is given by its list of keys. -/
def selectVessels (rt : GoRuntime) (targets : List String) (vessels : List VesselMetadata) :
    GoMap VesselMetadata :=
  vessels.foldl
    (fun selectedByMMSI vessel =>
      if NormalizeName rt vessel.Name ∈ targets then selectedByMMSI.set vessel.MMSI vessel
      else selectedByMMSI)
    []

/-- The two maps updated by the second loop of `SelectIcebreakerPositions`. -/
structure SelectState where
  selectedByMMSI : GoMap VesselMetadata
  bestByMMSI : GoMap IcebreakerPosition
  deriving DecidableEq, Repr

/-- The struct literal `candidate := models.IcebreakerPosition{...}` of the second loop. -/
def mkCandidate (vessel : VesselMetadata) (loc : LocationRecord) : IcebreakerPosition :=
  { Name := vessel.Name, MMSI := loc.MMSI, Country := vessel.Country,
    Latitude := loc.Latitude, Longitude := loc.Longitude, Timestamp := loc.Timestamp }

/-- The tail of the second loop body: build the candidate and keep it when the identity has
no position yet or the candidate is strictly newer. -/
def recordCandidate (st : SelectState) (vessel : VesselMetadata) (loc : LocationRecord) :
    SelectState :=
  let candidate := mkCandidate vessel loc
  match st.bestByMMSI.get loc.MMSI with
  | none => { st with bestByMMSI := st.bestByMMSI.set loc.MMSI candidate }
  | some current =>
    if candidate.Timestamp > current.Timestamp then
      { st with bestByMMSI := st.bestByMMSI.set loc.MMSI candidate }
    else st

/-- One iteration of the second loop of `SelectIcebreakerPositions`. -/
def selectStep (rt : GoRuntime) (targets : List String) (st : SelectState)
    (loc : LocationRecord) : SelectState :=
  if loc.MMSI = "" then st
  else if IsNaN loc.Latitude || IsNaN loc.Longitude then st
  else
    match st.selectedByMMSI.get loc.MMSI with
    | some vessel => recordCandidate st vessel loc
    | none =>
      let locName := TrimSpace loc.Name
      if NormalizeName rt locName ∈ targets then
        let vessel : VesselMetadata := { Name := locName, MMSI := loc.MMSI, Country := "Unknown" }
        recordCandidate { st with selectedByMMSI := st.selectedByMMSI.set loc.MMSI vessel }
          vessel loc
      else st

/-- The comparison passed to `sort.Slice` in `SelectIcebreakerPositions`. -/
def positionLess (a b : IcebreakerPosition) : Bool :=
  if a.Name = b.Name then strLess a.MMSI b.MMSI else strLess a.Name b.Name

/-- The state after the second loop of `SelectIcebreakerPositions`. -/
def selectLoop (rt : GoRuntime) (vessels : List VesselMetadata)
    (locations : List LocationRecord) (targets : List String) : SelectState :=
  locations.foldl (selectStep rt targets)
    { selectedByMMSI := selectVessels rt targets vessels, bestByMMSI := [] }

/-- The function `SelectIcebreakerPositions`. -/
def SelectIcebreakerPositions (rt : GoRuntime) (vessels : List VesselMetadata)
    (locations : List LocationRecord) (targets : List String) : List IcebreakerPosition :=
  sortSlice positionLess (selectLoop rt vessels locations targets).bestByMMSI.values

/-- The function `fetchPositions`, given the outcomes of the two calls of `fetchJSON` (the
second call is not made when the first fails). -/
def fetchPositions (rt : GoRuntime) (vesselsFetch locationsFetch : Except String Any)
    (targets : List String) : Except String (List IcebreakerPosition) :=
  match vesselsFetch with
  | .error err => .error ("fetch vessels: " ++ err)
  | .ok vesselsPayload =>
    match locationsFetch with
    | .error err => .error ("fetch locations: " ++ err)
    | .ok locationsPayload =>
      let vessels := ExtractVesselMetadata rt vesselsPayload
      let locations := ExtractLocations rt locationsPayload
      let positions := SelectIcebreakerPositions rt vessels locations targets
      if positions.length = 0 then .error "no positions found for configured icebreakers"
      else .ok positions

/-! ## pkg/exporter/exporter.go -/

/-- The struct `models.Snapshot`.  `LastRefresh` is the instant as the time elapsed since the
zero `time.Time` (so `IsZero` is the test for 0), `RefreshDuration` a `time.Duration`. -/
structure Snapshot where
  Positions : List IcebreakerPosition
  LastRefresh : Int
  RefreshDuration : Int
  LastRefreshError : String
  deriving DecidableEq, Repr

/-- The zero value of `models.Snapshot`, the snapshot of a new `Exporter`. -/
def zeroSnapshot : Snapshot :=
  { Positions := [], LastRefresh := 0, RefreshDuration := 0, LastRefreshError := "" }

/-- The method `Exporter.Refresh` as a transition on the snapshot: `outcome` is what
`fetchPositions` returned, `now` the value of `time.Now()` when the snapshot is built and
`duration` the measured duration of the fetch.  Locking and logging are left out. -/
def Refresh (snapshot : Snapshot) (outcome : Except String (List IcebreakerPosition))
    (now : Int) (duration : Int) : Snapshot :=
  match outcome with
  | .error err =>
    { Positions := snapshot.Positions, LastRefresh := now, RefreshDuration := duration,
      LastRefreshError := err }
  | .ok positions =>
    { Positions := positions, LastRefresh := now, RefreshDuration := duration,
      LastRefreshError := "" }

/-- The method `Exporter.HealthHandler` on the current snapshot: the status code and the
body written. -/
def HealthHandler (s : Snapshot) : Nat × String :=
  if s.LastRefresh = 0 ∨ s.LastRefreshError ≠ "" then (503, "not ready\n") else (200, "ok\n")

/-- The value `up` computed by `Exporter.MetricsHandler` and written as `icebreaker_up`. -/
def metricsUp (s : Snapshot) : Nat :=
  if s.LastRefreshError ≠ "" then 0 else 1

/-- The backslash character. -/
def backslash : Char := Char.ofNat 92

/-- The double-quote character. -/
def dquote : Char := Char.ofNat 34

/-- The line-feed character. -/
def lineFeed : Char := Char.ofNat 10

/-- The call `strings.ReplaceAll(value, old, new)` for a pattern `old` of one character. -/
def replaceAllChar (old : Char) (new : List Char) (value : List Char) : List Char :=
  value.flatMap (fun c => if c = old then new else [c])

/-- The function `EscapeLabel`: backslash to two backslashes, line feed to backslash and
`n`, double quote to backslash and double quote, in this order. -/
def EscapeLabel (value : String) : String :=
  let v1 := replaceAllChar backslash [backslash, backslash] value.data
  let v2 := replaceAllChar lineFeed [backslash, 'n'] v1
  let v3 := replaceAllChar dquote [backslash, dquote] v2
  String.mk v3

/-! ## Notions used in the statements -/

/-- The snapshots that an `Exporter` with allow-list `targets` can hold: the zero snapshot of
`New`, and the result of `Refresh` on a reachable snapshot with any outcome of
`fetchPositions`, at any time and with any duration. -/
inductive Reachable (rt : GoRuntime) (targets : List String) : Snapshot → Prop
  | zero : Reachable rt targets zeroSnapshot
  | refresh (s : Snapshot) (vesselsFetch locationsFetch : Except String Any)
      (now duration : Int) :
      Reachable rt targets s →
      Reachable rt targets
        (Refresh s (fetchPositions rt vesselsFetch locationsFetch targets) now duration)

/-- The three timestamp fields in the order in which `parseGeoJSONLocation` and
`parseFlatLocation` pass them to `getTimestamp`. -/
def timestampKeys : List String := ["timestamp", "time", "locUpdateTimestamp"]


/-- The children of a JSON node: the values of the fields of an object, the elements of an
array. -/
def children : Any → List Any
  | .obj fields => fields.map Prod.snd
  | .arr items => items
  | _ => []

/-- The node reached from `v` along a path of child indices. -/
def nodeAt : List Nat → Any → Option Any
  | [], v => some v
  | i :: p, v =>
    match (children v).get? i with
    | some c => nodeAt p c
    | none => none

/-- The object node of `v` at path `p`, if there is one. -/
def objectAt (v : Any) (p : List Nat) : Option (GoMap Any) :=
  match nodeAt p v with
  | some (.obj fields) => some fields
  | _ => none

/-- The object node at path `p` below a list of children (the first index selects the
child). -/
def objectAtList (cs : List Any) : List Nat → Option (GoMap Any)
  | [] => none
  | i :: p =>
    match cs.get? i with
    | some c => objectAt c p
    | none => none

/-- The first index of a path moved one child to the right. -/
def shiftPath : List Nat → List Nat
  | [] => []
  | i :: p => (i + 1) :: p

/-- What the statement of the traversal says of a list `paths` of paths into `v`: no path
twice, exactly the paths of the object nodes, the visits are the nodes at these paths in this
order, and no path comes after a path that it is a prefix of. -/
def WalkSpec (v : Any) (paths : List (List Nat)) : Prop :=
  paths.Nodup ∧ (∀ p, p ∈ paths ↔ (objectAt v p).isSome = true) ∧
  walkJSON v = paths.filterMap (objectAt v) ∧
  paths.Pairwise (fun p q => ¬ q <+: p)

/-- The statement of `WalkSpec` for the traversal of a list of children. -/
def WalkListSpec (cs : List Any) (paths : List (List Nat)) : Prop :=
  paths.Nodup ∧ (∀ p, p ∈ paths ↔ (objectAtList cs p).isSome = true) ∧
  walkItems cs = paths.filterMap (objectAtList cs) ∧
  paths.Pairwise (fun p q => ¬ q <+: p)

/-- Well-formedness of the map `byMMSI` of `ExtractVesselMetadata`: distinct keys, every
record stored under its own non-empty MMSI, with the country inferred from that MMSI. -/
def MetaWF (byMMSI : GoMap VesselMetadata) : Prop :=
  byMMSI.keys.Nodup ∧
  ∀ kv ∈ byMMSI, kv.2.MMSI = kv.1 ∧ kv.1 ≠ "" ∧ kv.2.Country = inferCountry kv.1

/-- The value is not an array and not an object (it has no nested nodes). -/
def isScalar : Any → Bool
  | .arr _ => false
  | .obj _ => false
  | _ => true

/-- The length of the run of backslashes at the end of a string. -/
def trailingBackslashes (l : List Char) : Nat :=
  (l.reverse.takeWhile (fun c => c == backslash)).length

/-! ## Per-identity view of the reconciliation loop -/

/-- What the two maps of `SelectState` hold for one identity. -/
structure KeyState where
  vessel : Option VesselMetadata
  best : Option IcebreakerPosition
  deriving DecidableEq, Repr

/-- The entries of both maps at identity `m`. -/
def keyView (st : SelectState) (m : String) : KeyState :=
  { vessel := st.selectedByMMSI.get m, best := st.bestByMMSI.get m }

/-- The effect of `recordCandidate` on the entries of the observation's identity. -/
def keyRecord (ks : KeyState) (vessel : VesselMetadata) (loc : LocationRecord) : KeyState :=
  let candidate := mkCandidate vessel loc
  match ks.best with
  | none => { ks with best := some candidate }
  | some current =>
    if candidate.Timestamp > current.Timestamp then { ks with best := some candidate } else ks

/-- The effect of `selectStep` on the entries of the observation's (non-empty) identity. -/
def keyStep (rt : GoRuntime) (targets : List String) (ks : KeyState) (loc : LocationRecord) :
    KeyState :=
  if IsNaN loc.Latitude || IsNaN loc.Longitude then ks
  else
    match ks.vessel with
    | some vessel => keyRecord ks vessel loc
    | none =>
      let locName := TrimSpace loc.Name
      if NormalizeName rt locName ∈ targets then
        let vessel : VesselMetadata := { Name := locName, MMSI := loc.MMSI, Country := "Unknown" }
        keyRecord { ks with vessel := some vessel } vessel loc
      else ks

/-- The order that `positionLess` sorts into: name ascending, then MMSI ascending. -/
def positionLE (a b : IcebreakerPosition) : Prop :=
  a.Name < b.Name ∨ (a.Name = b.Name ∧ a.MMSI ≤ b.MMSI)

/-- Neither coordinate of the observation is NaN (the observation passes the test
`math.IsNaN(loc.Latitude) || math.IsNaN(loc.Longitude)`). -/
def validCoords (loc : LocationRecord) : Prop :=
  IsNaN loc.Latitude = false ∧ IsNaN loc.Longitude = false

instance (loc : LocationRecord) : Decidable (validCoords loc) := by
  unfold validCoords
  infer_instance

/-- The vessel context built from an observation whose own name is allow-listed. -/
def fallbackVessel (loc : LocationRecord) : VesselMetadata :=
  { Name := TrimSpace loc.Name, MMSI := loc.MMSI, Country := "Unknown" }

/-- Every vessel context and position held for one identity comes from a vessel with
property `P`. -/
def KeyAll (P : VesselMetadata → Prop) (ks : KeyState) : Prop :=
  (∀ v, ks.vessel = some v → P v) ∧
  (∀ p, ks.best = some p → ∃ v loc, P v ∧ p = mkCandidate v loc)

/-- The conditions on a location list under which its order does not matter: among the
observations with non-NaN coordinates and a common MMSI, equal timestamps come with equal
coordinates, and, when no allow-listed metadata record carries the MMSI, the trimmed names
are equal. -/
def OrderFree (rt : GoRuntime) (vessels : List VesselMetadata) (targets : List String)
    (locations : List LocationRecord) : Prop :=
  ∀ a ∈ locations, ∀ b ∈ locations, a.MMSI = b.MMSI → validCoords a → validCoords b →
    (a.Timestamp = b.Timestamp → a.Latitude = b.Latitude ∧ a.Longitude = b.Longitude) ∧
    ((∀ v ∈ vessels, NormalizeName rt v.Name ∈ targets → v.MMSI ≠ a.MMSI) →
      TrimSpace a.Name = TrimSpace b.Name)

/-- The three replacements of `EscapeLabel` on one character. -/
def escapeChar (c : Char) : List Char :=
  if c = backslash then [backslash, backslash]
  else if c = lineFeed then [backslash, 'n']
  else if c = dquote then [backslash, dquote]
  else [c]
/-- The property of a label value: no line feed, and every double quote directly after a run
of backslashes of odd length. -/
def Escaped (l : List Char) : Prop :=
  lineFeed ∉ l ∧ ∀ pre post, l = pre ++ dquote :: post → trailingBackslashes pre % 2 = 1

/-- The accepted observations of identity `m`: the observations with MMSI `m` and non-NaN
coordinates, all of them when an allow-listed metadata record carries `m`, otherwise those
from the first one on whose own name is allow-listed. -/
def acceptedObs (rt : GoRuntime) (vessels : List VesselMetadata)
    (locations : List LocationRecord) (targets : List String) (m : String) :
    List LocationRecord :=
  let obs := locations.filter (fun loc => decide (loc.MMSI = m) && decide (validCoords loc))
  match (selectVessels rt targets vessels).get m with
  | some _ => obs
  | none => obs.dropWhile (fun loc => decide (NormalizeName rt (TrimSpace loc.Name) ∉ targets))

/-- The observation `o` is the first of the list `A` that attains the greatest timestamp of
`A`: it occurs in `A`, everything before it is strictly older and nothing after it is
newer. -/
def FirstLatest (A : List LocationRecord) (o : LocationRecord) : Prop :=
  ∃ pre post, A = pre ++ o :: post ∧ (∀ a ∈ pre, a.Timestamp < o.Timestamp) ∧
    (∀ a ∈ post, a.Timestamp ≤ o.Timestamp)

/-- Well-formedness of `bestByMMSI`: distinct keys, and every position is stored under its
own MMSI. -/
def BestWF (best : GoMap IcebreakerPosition) : Prop :=
  best.keys.Nodup ∧ ∀ kp ∈ best, kp.2.MMSI = kp.1

/-! ## Test data -/

/-- A runtime instance for evaluation: identity case table outside ASCII, no RFC 3339
support, overflowing conversions give the smallest `int64` (as on amd64), and only plain
decimal numerals parse as floats. -/
def testRuntime : GoRuntime :=
  { upperRune := fun c => c, parseRFC3339 := fun _ => none,
    convOverflow := fun _ => -9223372036854775808, parseFloatOther := fun _ => none }

/-- The float64 value 60.0 (any finite value serves as a coordinate in the examples). -/
def f60 : Float64 := { sign := false, exp := 1028, frac := 3940649673949184 }

/-- The float64 value 25.0. -/
def f25 : Float64 := { sign := false, exp := 1027, frac := 2533274790395904 }

/-- The payload of `TestExtractVesselMetadata`. -/
def testVesselsPayload : Any :=
  .obj [("vessels", .arr [
    .obj [("name", .str "Otso"), ("mmsi", .int 230124000)],
    .obj [("name", .str "Kontio"), ("mmsi", .str "230123000")]])]

/-- The payload of `TestExtractLocations` (24.91, 60.17, 61.3 and 21.4 as float64). -/
def testLocationsPayload : Any :=
  .obj [("features", .arr [
    .obj [("properties", .obj [("mmsi", .int 230124000), ("name", .str "Otso"),
                                ("timestamp", .int 1700000000)]),
          ("geometry", .obj [("coordinates", .arr [
            .float64 { sign := false, exp := 1027, frac := 2507942042491945 },
            .float64 { sign := false, exp := 1028, frac := 3964575046969590 }])])],
    .obj [("mmsi", .str "230123000"), ("name", .str "Kontio"),
          ("lat", .float64 { sign := false, exp := 1028, frac := 4123608408811110 }),
          ("lon", .float64 { sign := false, exp := 1027, frac := 1519964874237542 }),
          ("timestamp", .int 1700000001)]])]

/-- The float64 value 24.91, the longitude of `TestExtractLocations`. -/
def f2491 : Float64 := { sign := false, exp := 1027, frac := 2507942042491945 }

/-- The float64 value 60.17, the latitude of `TestExtractLocations`. -/
def f6017 : Float64 := { sign := false, exp := 1028, frac := 3964575046969590 }

/-- An object whose `timestamp` does not parse and whose `time` does. -/
def mixedTimestamps : GoMap Any :=
  [("mmsi", .str "230124000"), ("lat", .float64 f6017), ("lon", .float64 f2491),
   ("timestamp", .str "abc"), ("time", .int 1700000000)]

/-- The GeoJSON feature of `TestExtractLocations`: the timestamp is a field of `properties`. -/
def testFeature : GoMap Any :=
  [("properties", .obj [("mmsi", .int 230124000), ("name", .str "Otso"),
                        ("timestamp", .int 1700000000)]),
   ("geometry", .obj [("coordinates", .arr [.float64 f2491, .float64 f6017])])]

/-- A GeoJSON feature without `properties`, its fields on the feature itself. -/
def bareFeature : GoMap Any :=
  [("mmsi", .int 230124000), ("time", .int 1700000005),
   ("geometry", .obj [("coordinates", .arr [.float64 f2491, .float64 f6017])])]

/-- Two Otso observations with the same timestamp and different coordinates. -/
def tieLocations : List LocationRecord :=
  [ { Name := "Otso", MMSI := "230124000", Latitude := f60, Longitude := f25, Timestamp := 100 },
    { Name := "Otso", MMSI := "230124000", Latitude := f25, Longitude := f60, Timestamp := 100 } ]

/-- The metadata of `TestSelectIcebreakerPositions`. -/
def testMetas : List VesselMetadata :=
  [ { Name := "Otso", MMSI := "230124000", Country := "" },
    { Name := "Kontio", MMSI := "230123000", Country := "" },
    { Name := "Random", MMSI := "111111111", Country := "" } ]

/-- The locations of `TestSelectIcebreakerPositions` (coordinates replaced by 60 and 25). -/
def testLocations : List LocationRecord :=
  [ { Name := "Otso", MMSI := "230124000", Latitude := f60, Longitude := f25, Timestamp := 100 },
    { Name := "Otso", MMSI := "230124000", Latitude := f25, Longitude := f60, Timestamp := 200 },
    { Name := "Kontio", MMSI := "230123000", Latitude := f60, Longitude := f60, Timestamp := 150 },
    { Name := "Random", MMSI := "111111111", Latitude := f25, Longitude := f25, Timestamp := 100 } ]

/-! ## Lemmas: strings -/

theorem strLess_iff (a b : String) : strLess a b = true ↔ a < b := by
  unfold strLess
  rw [decide_eq_true_iff]
  exact String.lt_iff_toList_lt.symm

theorem strLess_eq_false_iff (a b : String) : strLess a b = false ↔ b ≤ a := by
  rw [← Bool.not_eq_true, strLess_iff, not_lt]

theorem TrimSpace_idem (s : String) : TrimSpace (TrimSpace s) = TrimSpace s := by
  unfold TrimSpace
  congr 1
  show List.rdropWhile isSpace (List.dropWhile isSpace
      (List.rdropWhile isSpace (List.dropWhile isSpace s.data))) = _
  have key : ∀ l : List Char, (∀ h : l ≠ [], isSpace (l.head h) = false) →
      List.dropWhile isSpace (List.rdropWhile isSpace l) = List.rdropWhile isSpace l := by
    intro l hl
    rcases hr : List.rdropWhile isSpace l with _ | ⟨c, t⟩
    · rfl
    · have hpre : (c :: t) <+: l := hr ▸ List.rdropWhile_prefix isSpace l
      obtain ⟨u, hu⟩ := hpre
      have hne : l ≠ [] := by rw [← hu]; simp
      have hc := hl hne
      have : l.head hne = c := by subst hu; rfl
      rw [this] at hc
      simp [List.dropWhile, hc]
  rw [key, List.rdropWhile_idempotent]
  intro h
  have := List.head_dropWhile_not isSpace s.data h
  simpa using this

theorem NormalizeName_TrimSpace (rt : GoRuntime) (s : String) :
    NormalizeName rt (TrimSpace s) = NormalizeName rt s := by
  unfold NormalizeName
  rw [TrimSpace_idem]

/-! ## Lemmas: Go maps -/

namespace GoMap

variable {V : Type}

theorem get_set_self (m : GoMap V) (k : String) (v : V) : (m.set k v).get k = some v := by
  induction m with
  | nil => simp [set, get]
  | cons kv rest ih =>
    obtain ⟨k', v'⟩ := kv
    by_cases h : k' = k <;> simp [set, get, h, ih]

theorem get_set_ne (m : GoMap V) {k k' : String} (v : V) (h : k ≠ k') :
    (m.set k v).get k' = m.get k' := by
  induction m with
  | nil => simp [set, get, h]
  | cons kv rest ih =>
    obtain ⟨k0, v0⟩ := kv
    by_cases h0 : k0 = k
    · subst h0
      simp [set, get, h]
    · by_cases h1 : k0 = k'
      · subst h1
        simp [set, get, h0]
      · simp [set, get, h0, h1, ih]

theorem get_eq_none_iff (m : GoMap V) (k : String) : m.get k = none ↔ k ∉ m.keys := by
  induction m with
  | nil => simp [get, keys]
  | cons kv rest ih =>
    obtain ⟨k0, v0⟩ := kv
    by_cases h0 : k0 = k
    · simp [get, keys, h0]
    · have h1 : ¬ k = k0 := fun h => h0 h.symm
      simpa [get, keys, h0, h1] using ih

theorem mem_of_get (m : GoMap V) {k : String} {v : V} (h : m.get k = some v) : (k, v) ∈ m := by
  induction m with
  | nil => simp [get] at h
  | cons kv rest ih =>
    obtain ⟨k0, v0⟩ := kv
    by_cases h0 : k0 = k
    · simp [get, h0] at h
      simp [h0, h]
    · simp [get, h0] at h
      exact List.mem_cons_of_mem _ (ih h)

theorem get_of_mem (m : GoMap V) (hnd : m.keys.Nodup) {k : String} {v : V} (h : (k, v) ∈ m) :
    m.get k = some v := by
  induction m with
  | nil => simp at h
  | cons kv rest ih =>
    obtain ⟨k0, v0⟩ := kv
    simp only [keys, List.map_cons, List.nodup_cons] at hnd
    rcases List.mem_cons.1 h with h1 | h1
    · cases h1
      simp [get]
    · have hk : k ∈ rest.map Prod.fst := List.mem_map.2 ⟨(k, v), h1, rfl⟩
      have h0 : k0 ≠ k := fun e => hnd.1 (e ▸ hk)
      simp [get, h0]
      exact ih hnd.2 h1

theorem keys_set (m : GoMap V) (k : String) (v : V) :
    (m.set k v).keys = if k ∈ m.keys then m.keys else m.keys ++ [k] := by
  induction m with
  | nil => simp [set, keys]
  | cons kv rest ih =>
    obtain ⟨k0, v0⟩ := kv
    by_cases h0 : k0 = k
    · simp [set, keys, h0]
    · have h1 : ¬ k = k0 := fun h => h0 h.symm
      simp only [keys] at ih
      by_cases hk : k ∈ rest.map Prod.fst <;> simp [set, keys, h0, h1, ih, hk]

theorem nodup_keys_set (m : GoMap V) (k : String) (v : V) (h : m.keys.Nodup) :
    (m.set k v).keys.Nodup := by
  rw [keys_set]
  split
  · exact h
  · rename_i hk
    exact List.Nodup.append h (List.nodup_singleton k) (by simpa using hk)

theorem mem_set (m : GoMap V) (k : String) (v : V) {kv : String × V} (h : kv ∈ m.set k v) :
    kv = (k, v) ∨ kv ∈ m := by
  induction m with
  | nil => simpa [set] using h
  | cons kv0 rest ih =>
    obtain ⟨k0, v0⟩ := kv0
    by_cases h0 : k0 = k
    · simp [set, h0] at h
      rcases h with h | h
      · exact Or.inl h
      · exact Or.inr (List.mem_cons_of_mem _ h)
    · simp [set, h0] at h
      rcases h with h | h
      · exact Or.inr (h ▸ List.mem_cons_self _ _)
      · rcases ih h with h | h
        · exact Or.inl h
        · exact Or.inr (List.mem_cons_of_mem _ h)

end GoMap

/-! ## Lemmas: sorting -/

theorem positionLess_eq_false_iff (a b : IcebreakerPosition) :
    positionLess b a = false ↔ positionLE a b := by
  unfold positionLess positionLE
  by_cases h : b.Name = a.Name
  · rw [if_pos h, strLess_eq_false_iff]
    constructor
    · intro hle
      exact Or.inr ⟨h.symm, hle⟩
    · rintro (hlt | ⟨_, hle⟩)
      · exact absurd hlt (h ▸ lt_irrefl _)
      · exact hle
  · rw [if_neg h, strLess_eq_false_iff]
    constructor
    · intro hle
      exact Or.inl (lt_of_le_of_ne hle (fun e => h e.symm))
    · rintro (hlt | ⟨he, _⟩)
      · exact le_of_lt hlt
      · exact absurd he.symm h

theorem positionLE_total (a b : IcebreakerPosition) : positionLE a b ∨ positionLE b a := by
  unfold positionLE
  rcases lt_trichotomy a.Name b.Name with h | h | h
  · exact Or.inl (Or.inl h)
  · rcases le_total a.MMSI b.MMSI with h1 | h1
    · exact Or.inl (Or.inr ⟨h, h1⟩)
    · exact Or.inr (Or.inr ⟨h.symm, h1⟩)
  · exact Or.inr (Or.inl h)

theorem positionLE_trans {a b c : IcebreakerPosition} (hab : positionLE a b)
    (hbc : positionLE b c) : positionLE a c := by
  unfold positionLE at *
  rcases hab with h1 | ⟨h1, h2⟩
  · rcases hbc with h3 | ⟨h3, _⟩
    · exact Or.inl (lt_trans h1 h3)
    · exact Or.inl (h3 ▸ h1)
  · rcases hbc with h3 | ⟨h3, h4⟩
    · exact Or.inl (h1 ▸ h3)
    · exact Or.inr ⟨h1.trans h3, le_trans h2 h4⟩

theorem sortSlice_perm {α : Type} (less : α → α → Bool) (l : List α) :
    (sortSlice less l).Perm l :=
  List.perm_insertionSort _ l

theorem mem_sortSlice {α : Type} (less : α → α → Bool) (l : List α) (a : α) :
    a ∈ sortSlice less l ↔ a ∈ l :=
  (sortSlice_perm less l).mem_iff

theorem sortSlice_positions_sorted (l : List IcebreakerPosition) :
    (sortSlice positionLess l).Pairwise positionLE := by
  have total : IsTotal IcebreakerPosition (fun a b => positionLess b a = false) :=
    ⟨fun a b => by
      simp only [positionLess_eq_false_iff]
      exact positionLE_total a b⟩
  have trans : IsTrans IcebreakerPosition (fun a b => positionLess b a = false) :=
    ⟨fun a b c hab hbc => by
      simp only [positionLess_eq_false_iff] at *
      exact positionLE_trans hab hbc⟩
  have h := List.sorted_insertionSort (fun a b => positionLess b a = false) l
  unfold sortSlice
  exact List.Pairwise.imp (fun {a b} hab => (positionLess_eq_false_iff a b).1 hab) h

/-- Two lists of positions with pairwise distinct MMSIs that are sorted by `positionLE` and
are permutations of one another are equal: on such data every correct sorting algorithm
returns the list that `sortSlice` returns. -/
theorem sorted_positions_unique {l₁ l₂ : List IcebreakerPosition} (hp : l₁.Perm l₂)
    (hs₁ : l₁.Pairwise positionLE) (hs₂ : l₂.Pairwise positionLE)
    (hn : (l₁.map IcebreakerPosition.MMSI).Nodup) : l₁ = l₂ := by
  have hn₁ : l₁.Pairwise (fun a b => a.MMSI ≠ b.MMSI) := List.pairwise_map.1 hn
  have hn₂ : l₂.Pairwise (fun a b => a.MMSI ≠ b.MMSI) :=
    List.pairwise_map.1 ((hp.map IcebreakerPosition.MMSI).nodup_iff.1 hn)
  have anti : IsAntisymm IcebreakerPosition
      (fun a b => positionLE a b ∧ a.MMSI ≠ b.MMSI) :=
    ⟨fun a b hab hba => by
      exfalso
      rcases hab.1 with h1 | ⟨h1, h2⟩
      · rcases hba.1 with h3 | ⟨h3, _⟩
        · exact lt_asymm h1 h3
        · exact absurd h1 (h3 ▸ lt_irrefl _)
      · rcases hba.1 with h3 | ⟨_, h4⟩
        · exact absurd h3 (h1 ▸ lt_irrefl _)
        · exact hab.2 (le_antisymm h2 h4)⟩
  exact List.eq_of_perm_of_sorted hp (hs₁.and hn₁) (hs₂.and hn₂)

/-- The model of `sort.Slice` is canonical on the data it is applied to: any sorted
permutation of a list of positions with distinct MMSIs is `sortSlice` of that list. -/
theorem sortSlice_unique (l out : List IcebreakerPosition) (hp : out.Perm l)
    (hs : out.Pairwise positionLE) (hn : (l.map IcebreakerPosition.MMSI).Nodup) :
    out = sortSlice positionLess l :=
  sorted_positions_unique (hp.trans (sortSlice_perm positionLess l).symm) hs
    (sortSlice_positions_sorted l) ((hp.map IcebreakerPosition.MMSI).nodup_iff.2 hn)

/-! ## Lemmas: the reconciliation loop -/

theorem BestWF_set {best : GoMap IcebreakerPosition} (h : BestWF best)
    (c : IcebreakerPosition) : BestWF (best.set c.MMSI c) := by
  refine ⟨GoMap.nodup_keys_set best _ _ h.1, ?_⟩
  intro kp hkp
  rcases GoMap.mem_set best _ _ hkp with h1 | h1
  · rw [h1]
  · exact h.2 kp h1

theorem recordCandidate_selected (st : SelectState) (v : VesselMetadata) (loc : LocationRecord) :
    (recordCandidate st v loc).selectedByMMSI = st.selectedByMMSI := by
  unfold recordCandidate
  dsimp only
  split
  · rfl
  · split <;> rfl

theorem recordCandidate_WF (st : SelectState) (v : VesselMetadata) (loc : LocationRecord)
    (h : BestWF st.bestByMMSI) : BestWF (recordCandidate st v loc).bestByMMSI := by
  unfold recordCandidate
  dsimp only
  split
  · exact BestWF_set h (mkCandidate v loc)
  · split
    · exact BestWF_set h (mkCandidate v loc)
    · exact h

theorem selectStep_WF (rt : GoRuntime) (targets : List String) (st : SelectState)
    (loc : LocationRecord) (h : BestWF st.bestByMMSI) :
    BestWF (selectStep rt targets st loc).bestByMMSI := by
  unfold selectStep
  split
  · exact h
  · split
    · exact h
    · split
      · exact recordCandidate_WF _ _ _ h
      · dsimp only
        split
        · exact recordCandidate_WF _ _ _ h
        · exact h

theorem foldl_selectStep_WF (rt : GoRuntime) (targets : List String)
    (locations : List LocationRecord) (st : SelectState) (h : BestWF st.bestByMMSI) :
    BestWF (locations.foldl (selectStep rt targets) st).bestByMMSI := by
  induction locations generalizing st with
  | nil => exact h
  | cons loc rest ih => exact ih _ (selectStep_WF rt targets st loc h)

theorem selectLoop_WF (rt : GoRuntime) (vessels : List VesselMetadata)
    (locations : List LocationRecord) (targets : List String) :
    BestWF (selectLoop rt vessels locations targets).bestByMMSI :=
  foldl_selectStep_WF rt targets locations _ ⟨List.nodup_nil, fun _ h => by cases h⟩

theorem keyView_recordCandidate_self (st : SelectState) (v : VesselMetadata)
    (loc : LocationRecord) :
    keyView (recordCandidate st v loc) loc.MMSI = keyRecord (keyView st loc.MMSI) v loc := by
  unfold recordCandidate keyRecord keyView
  dsimp only
  rcases hb : st.bestByMMSI.get loc.MMSI with _ | cur
  · simp [GoMap.get_set_self]
  · dsimp only
    split
    · simp [GoMap.get_set_self]
    · simp [hb]

theorem keyView_recordCandidate_ne (st : SelectState) (v : VesselMetadata)
    (loc : LocationRecord) {m : String} (h : loc.MMSI ≠ m) :
    keyView (recordCandidate st v loc) m = keyView st m := by
  unfold recordCandidate keyView
  dsimp only
  split
  · simp [GoMap.get_set_ne _ _ h]
  · split
    · simp [GoMap.get_set_ne _ _ h]
    · rfl

theorem keyView_selectStep_self (rt : GoRuntime) (targets : List String) (st : SelectState)
    (loc : LocationRecord) (hne : loc.MMSI ≠ "") :
    keyView (selectStep rt targets st loc) loc.MMSI
      = keyStep rt targets (keyView st loc.MMSI) loc := by
  unfold selectStep keyStep
  rw [if_neg hne]
  split
  · rfl
  · rcases hv : st.selectedByMMSI.get loc.MMSI with _ | v
    · have hk : (keyView st loc.MMSI).vessel = none := hv
      simp only [hk]
      split
      · rw [keyView_recordCandidate_self]
        congr 1
        simp [keyView, GoMap.get_set_self]
      · rfl
    · have hk : (keyView st loc.MMSI).vessel = some v := hv
      simp only [hk]
      exact keyView_recordCandidate_self st v loc

theorem keyView_selectStep_ne (rt : GoRuntime) (targets : List String) (st : SelectState)
    (loc : LocationRecord) {m : String} (h : loc.MMSI ≠ m) :
    keyView (selectStep rt targets st loc) m = keyView st m := by
  unfold selectStep
  split
  · rfl
  · split
    · rfl
    · split
      · exact keyView_recordCandidate_ne st _ loc h
      · dsimp only
        split
        · rw [keyView_recordCandidate_ne _ _ loc h]
          simp [keyView, GoMap.get_set_ne _ _ h]
        · rfl

/-- The entries of identity `m` after the loop are obtained by running the per-identity
step over the observations that carry `m`. -/
theorem keyView_foldl (rt : GoRuntime) (targets : List String) (m : String) (hm : m ≠ "")
    (locations : List LocationRecord) (st : SelectState) :
    keyView (locations.foldl (selectStep rt targets) st) m
      = (locations.filter (fun loc => loc.MMSI = m)).foldl (keyStep rt targets)
          (keyView st m) := by
  induction locations generalizing st with
  | nil => rfl
  | cons loc rest ih =>
    rw [List.foldl_cons, ih]
    by_cases h : loc.MMSI = m
    · have hne : loc.MMSI ≠ "" := h ▸ hm
      rw [List.filter_cons_of_pos (by simpa using h), List.foldl_cons]
      rw [← h, keyView_selectStep_self rt targets st loc hne]
    · rw [List.filter_cons_of_neg (by simpa using h), keyView_selectStep_ne rt targets st loc h]

theorem best_get_empty (rt : GoRuntime) (targets : List String)
    (locations : List LocationRecord) (st : SelectState) :
    (locations.foldl (selectStep rt targets) st).bestByMMSI.get ""
      = st.bestByMMSI.get "" := by
  induction locations generalizing st with
  | nil => rfl
  | cons loc rest ih =>
    rw [List.foldl_cons, ih]
    by_cases h : loc.MMSI = ""
    · simp [selectStep, h]
    · exact congrArg KeyState.best (keyView_selectStep_ne rt targets st loc h)

/-- A position is returned exactly when `bestByMMSI` holds it under its MMSI. -/
theorem mem_Select_iff (rt : GoRuntime) (vessels : List VesselMetadata)
    (locations : List LocationRecord) (targets : List String) (p : IcebreakerPosition) :
    p ∈ SelectIcebreakerPositions rt vessels locations targets
      ↔ (selectLoop rt vessels locations targets).bestByMMSI.get p.MMSI = some p := by
  have wf := selectLoop_WF rt vessels locations targets
  unfold SelectIcebreakerPositions
  rw [mem_sortSlice]
  constructor
  · intro h
    obtain ⟨kp, hkp, rfl⟩ := List.mem_map.1 h
    have hk := wf.2 kp hkp
    rw [hk]
    exact GoMap.get_of_mem _ wf.1 hkp
  · intro h
    exact List.mem_map.2 ⟨(p.MMSI, p), GoMap.mem_of_get _ h, rfl⟩

theorem Select_MMSI_nodup (rt : GoRuntime) (vessels : List VesselMetadata)
    (locations : List LocationRecord) (targets : List String) :
    ((SelectIcebreakerPositions rt vessels locations targets).map
      IcebreakerPosition.MMSI).Nodup := by
  have wf := selectLoop_WF rt vessels locations targets
  have hp := (sortSlice_perm positionLess
    (selectLoop rt vessels locations targets).bestByMMSI.values).map IcebreakerPosition.MMSI
  unfold SelectIcebreakerPositions
  rw [hp.nodup_iff]
  have : (selectLoop rt vessels locations targets).bestByMMSI.values.map IcebreakerPosition.MMSI
      = (selectLoop rt vessels locations targets).bestByMMSI.keys := by
    unfold GoMap.values GoMap.keys
    rw [List.map_map]
    exact List.map_congr_left (fun kp hkp => wf.2 kp hkp)
  rw [this]
  exact wf.1

/-! ## Lemmas: the allow-listed metadata index -/

theorem selectVessels_snoc (rt : GoRuntime) (targets : List String)
    (vs : List VesselMetadata) (v : VesselMetadata) :
    selectVessels rt targets (vs ++ [v])
      = if NormalizeName rt v.Name ∈ targets then (selectVessels rt targets vs).set v.MMSI v
        else selectVessels rt targets vs := by
  simp [selectVessels, List.foldl_append]

theorem selectVessels_get_some (rt : GoRuntime) (targets : List String)
    (vs : List VesselMetadata) (m : String) (v : VesselMetadata)
    (h : (selectVessels rt targets vs).get m = some v) :
    v ∈ vs ∧ NormalizeName rt v.Name ∈ targets ∧ v.MMSI = m := by
  induction vs using List.reverseRecOn generalizing v with
  | nil => simp [selectVessels, GoMap.get] at h
  | append_singleton vs w ih =>
    rw [selectVessels_snoc] at h
    by_cases hw : NormalizeName rt w.Name ∈ targets
    · rw [if_pos hw] at h
      by_cases hm : w.MMSI = m
      · rw [← hm, GoMap.get_set_self] at h
        cases h
        exact ⟨by simp, hw, hm⟩
      · rw [GoMap.get_set_ne _ _ hm] at h
        obtain ⟨h1, h2, h3⟩ := ih v h
        exact ⟨by simp [h1], h2, h3⟩
    · rw [if_neg hw] at h
      obtain ⟨h1, h2, h3⟩ := ih v h
      exact ⟨by simp [h1], h2, h3⟩

theorem selectVessels_get_isSome (rt : GoRuntime) (targets : List String)
    (vs : List VesselMetadata) (v : VesselMetadata) (hv : v ∈ vs)
    (ht : NormalizeName rt v.Name ∈ targets) :
    ∃ w, (selectVessels rt targets vs).get v.MMSI = some w := by
  induction vs using List.reverseRecOn with
  | nil => cases hv
  | append_singleton vs w ih =>
    rw [selectVessels_snoc]
    by_cases hw : NormalizeName rt w.Name ∈ targets
    · rw [if_pos hw]
      by_cases hm : w.MMSI = v.MMSI
      · rw [← hm, GoMap.get_set_self]
        exact ⟨w, rfl⟩
      · rw [GoMap.get_set_ne _ _ hm]
        rcases List.mem_append.1 hv with h1 | h1
        · exact ih h1
        · simp at h1
          exact absurd (h1 ▸ rfl) hm
    · rw [if_neg hw]
      rcases List.mem_append.1 hv with h1 | h1
      · exact ih h1
      · simp at h1
        exact absurd (h1 ▸ ht) hw

theorem selectVessels_get_none (rt : GoRuntime) (targets : List String)
    (vs : List VesselMetadata) (m : String)
    (h : ∀ v ∈ vs, NormalizeName rt v.Name ∈ targets → v.MMSI ≠ m) :
    (selectVessels rt targets vs).get m = none := by
  rcases hg : (selectVessels rt targets vs).get m with _ | v
  · rfl
  · obtain ⟨h1, h2, h3⟩ := selectVessels_get_some rt targets vs m v hg
    exact absurd h3 (h v h1 h2)

/-! ## Lemmas: the per-identity step -/

theorem validCoords_iff (loc : LocationRecord) :
    validCoords loc ↔ (IsNaN loc.Latitude || IsNaN loc.Longitude) = false := by
  unfold validCoords
  rw [Bool.or_eq_false_iff]

theorem keyStep_invalid (rt : GoRuntime) (targets : List String) (ks : KeyState)
    (loc : LocationRecord) (h : ¬ validCoords loc) : keyStep rt targets ks loc = ks := by
  rw [validCoords_iff, Bool.not_eq_false] at h
  unfold keyStep
  rw [if_pos h]

theorem keyStep_some (rt : GoRuntime) (targets : List String) (ks : KeyState)
    (loc : LocationRecord) (v : VesselMetadata) (h : validCoords loc)
    (hv : ks.vessel = some v) : keyStep rt targets ks loc = keyRecord ks v loc := by
  rw [validCoords_iff] at h
  unfold keyStep
  rw [if_neg (by simp [h])]
  simp only [hv]

theorem keyStep_none_allowed (rt : GoRuntime) (targets : List String) (ks : KeyState)
    (loc : LocationRecord) (h : validCoords loc) (hv : ks.vessel = none)
    (ht : NormalizeName rt (TrimSpace loc.Name) ∈ targets) :
    keyStep rt targets ks loc
      = keyRecord { ks with vessel := some (fallbackVessel loc) } (fallbackVessel loc) loc := by
  rw [validCoords_iff] at h
  unfold keyStep
  rw [if_neg (by simp [h])]
  simp only [hv]
  rw [if_pos ht]
  rfl

theorem keyStep_none_rejected (rt : GoRuntime) (targets : List String) (ks : KeyState)
    (loc : LocationRecord) (hv : ks.vessel = none)
    (ht : NormalizeName rt (TrimSpace loc.Name) ∉ targets) :
    keyStep rt targets ks loc = ks := by
  unfold keyStep
  split
  · rfl
  · simp only [hv]
    rw [if_neg ht]

theorem keyRecord_vessel (ks : KeyState) (v : VesselMetadata) (loc : LocationRecord) :
    (keyRecord ks v loc).vessel = ks.vessel := by
  unfold keyRecord
  dsimp only
  split
  · rfl
  · split <;> rfl

/-- After `keyRecord` the identity has a position that is at least as new as the candidate
and as the position held before; it is the candidate or the position held before. -/
theorem keyRecord_best (ks : KeyState) (v : VesselMetadata) (loc : LocationRecord) :
    ∃ p, (keyRecord ks v loc).best = some p ∧ loc.Timestamp ≤ p.Timestamp ∧
      (∀ p0, ks.best = some p0 → p0.Timestamp ≤ p.Timestamp) ∧
      (p = mkCandidate v loc ∨ ks.best = some p) := by
  unfold keyRecord
  dsimp only
  rcases hb : ks.best with _ | cur
  · exact ⟨mkCandidate v loc, rfl, le_refl _, fun p0 h => Option.noConfusion h, Or.inl rfl⟩
  · dsimp only
    by_cases hgt : (mkCandidate v loc).Timestamp > cur.Timestamp
    · rw [if_pos hgt]
      refine ⟨mkCandidate v loc, rfl, le_refl _, ?_, Or.inl rfl⟩
      intro p0 h
      cases h
      exact le_of_lt hgt
    · rw [if_neg hgt]
      refine ⟨cur, hb, ?_, ?_, Or.inr rfl⟩
      · exact not_lt.1 hgt
      · intro p0 h
        cases h
        exact le_refl _

/-- A once known vessel stays: the loop never overwrites an entry of `selectedByMMSI`. -/
theorem keyStep_vessel_some (rt : GoRuntime) (targets : List String) (ks : KeyState)
    (loc : LocationRecord) (v : VesselMetadata) (hv : ks.vessel = some v) :
    (keyStep rt targets ks loc).vessel = some v := by
  by_cases h : validCoords loc
  · rw [keyStep_some rt targets ks loc v h hv, keyRecord_vessel, hv]
  · rw [keyStep_invalid rt targets ks loc h, hv]

/-- The position of an identity never gets older and never disappears. -/
theorem keyStep_best_mono (rt : GoRuntime) (targets : List String) (ks : KeyState)
    (loc : LocationRecord) (p0 : IcebreakerPosition) (h0 : ks.best = some p0) :
    ∃ p, (keyStep rt targets ks loc).best = some p ∧ p0.Timestamp ≤ p.Timestamp := by
  by_cases h : validCoords loc
  · rcases hv : ks.vessel with _ | v
    · by_cases ht : NormalizeName rt (TrimSpace loc.Name) ∈ targets
      · rw [keyStep_none_allowed rt targets ks loc h hv ht]
        obtain ⟨p, hp, _, hmono, _⟩ := keyRecord_best
          { ks with vessel := some (fallbackVessel loc) } (fallbackVessel loc) loc
        exact ⟨p, hp, hmono p0 h0⟩
      · rw [keyStep_none_rejected rt targets ks loc hv ht]
        exact ⟨p0, h0, le_refl _⟩
    · rw [keyStep_some rt targets ks loc v h hv]
      obtain ⟨p, hp, _, hmono, _⟩ := keyRecord_best ks v loc
      exact ⟨p, hp, hmono p0 h0⟩
  · rw [keyStep_invalid rt targets ks loc h]
    exact ⟨p0, h0, le_refl _⟩

theorem foldl_keyStep_vessel_some (rt : GoRuntime) (targets : List String)
    (L : List LocationRecord) (ks : KeyState) (v : VesselMetadata) (hv : ks.vessel = some v) :
    (L.foldl (keyStep rt targets) ks).vessel = some v := by
  induction L generalizing ks with
  | nil => exact hv
  | cons loc rest ih => exact ih _ (keyStep_vessel_some rt targets ks loc v hv)

theorem foldl_keyStep_best_mono (rt : GoRuntime) (targets : List String)
    (L : List LocationRecord) (ks : KeyState) (p0 : IcebreakerPosition)
    (h0 : ks.best = some p0) :
    ∃ p, (L.foldl (keyStep rt targets) ks).best = some p ∧ p0.Timestamp ≤ p.Timestamp := by
  induction L generalizing ks p0 with
  | nil => exact ⟨p0, h0, le_refl _⟩
  | cons loc rest ih =>
    obtain ⟨p1, hp1, hle1⟩ := keyStep_best_mono rt targets ks loc p0 h0
    obtain ⟨p, hp, hle⟩ := ih _ p1 hp1
    exact ⟨p, hp, le_trans hle1 hle⟩

/-- With the vessel known, every observation with valid coordinates is a candidate: the
final position is at least as new as each of them. -/
theorem foldl_keyStep_ge (rt : GoRuntime) (targets : List String)
    (L : List LocationRecord) (ks : KeyState) (v : VesselMetadata) (hv : ks.vessel = some v)
    (loc : LocationRecord) (hloc : loc ∈ L) (hvalid : validCoords loc) :
    ∃ p, (L.foldl (keyStep rt targets) ks).best = some p ∧ loc.Timestamp ≤ p.Timestamp := by
  induction L generalizing ks with
  | nil => cases hloc
  | cons l rest ih =>
    rw [List.foldl_cons]
    rcases List.mem_cons.1 hloc with h | h
    · subst h
      obtain ⟨p1, hp1, hle1, _, _⟩ := keyRecord_best ks v loc
      rw [← keyStep_some rt targets ks loc v hvalid hv] at hp1
      obtain ⟨p, hp, hle⟩ := foldl_keyStep_best_mono rt targets rest _ p1 hp1
      exact ⟨p, hp, le_trans hle1 hle⟩
    · exact ih _ (keyStep_vessel_some rt targets ks l v hv) h

/-- With the vessel known, the final position is the one held at the start or the candidate
of an observation with valid coordinates. -/
theorem foldl_keyStep_origin (rt : GoRuntime) (targets : List String)
    (L : List LocationRecord) (ks : KeyState) (v : VesselMetadata) (hv : ks.vessel = some v)
    (p : IcebreakerPosition) (hp : (L.foldl (keyStep rt targets) ks).best = some p) :
    ks.best = some p ∨ ∃ loc ∈ L, validCoords loc ∧ p = mkCandidate v loc := by
  induction L generalizing ks with
  | nil => exact Or.inl hp
  | cons l rest ih =>
    rw [List.foldl_cons] at hp
    rcases ih _ (keyStep_vessel_some rt targets ks l v hv) hp with h | ⟨loc, h1, h2, h3⟩
    · by_cases hl : validCoords l
      · rw [keyStep_some rt targets ks l v hl hv] at h
        obtain ⟨q, hq, _, _, hor⟩ := keyRecord_best ks v l
        rw [hq] at h
        cases h
        rcases hor with e | e
        · exact Or.inr ⟨l, List.mem_cons_self _ _, hl, e⟩
        · exact Or.inl e
      · rw [keyStep_invalid rt targets ks l hl] at h
        exact Or.inl h
    · exact Or.inr ⟨loc, List.mem_cons_of_mem _ h1, h2, h3⟩

theorem keyStep_KeyAll (rt : GoRuntime) (targets : List String) (P : VesselMetadata → Prop)
    (hfb : ∀ loc : LocationRecord, NormalizeName rt (TrimSpace loc.Name) ∈ targets →
      P (fallbackVessel loc))
    (ks : KeyState) (loc : LocationRecord) (h : KeyAll P ks) :
    KeyAll P (keyStep rt targets ks loc) := by
  have record : ∀ (ks1 : KeyState) (v : VesselMetadata), P v → KeyAll P ks1 →
      KeyAll P (keyRecord ks1 v loc) := by
    intro ks1 v hPv h1
    refine ⟨fun w hw => h1.1 w (by rw [← keyRecord_vessel ks1 v loc]; exact hw), ?_⟩
    intro p hp
    obtain ⟨q, hq, _, _, hor⟩ := keyRecord_best ks1 v loc
    rw [hq] at hp
    rw [← Option.some.inj hp]
    rcases hor with e | e
    · exact ⟨v, loc, hPv, e⟩
    · exact h1.2 q e
  by_cases hval : validCoords loc
  · rcases hv : ks.vessel with _ | v
    · by_cases ht : NormalizeName rt (TrimSpace loc.Name) ∈ targets
      · rw [keyStep_none_allowed rt targets ks loc hval hv ht]
        refine record _ _ (hfb loc ht) ⟨?_, h.2⟩
        intro w hw
        cases hw
        exact hfb loc ht
      · rw [keyStep_none_rejected rt targets ks loc hv ht]
        exact h
    · rw [keyStep_some rt targets ks loc v hval hv]
      exact record ks v (h.1 v hv) h
  · rw [keyStep_invalid rt targets ks loc hval]
    exact h

theorem foldl_keyStep_KeyAll (rt : GoRuntime) (targets : List String)
    (P : VesselMetadata → Prop)
    (hfb : ∀ loc : LocationRecord, NormalizeName rt (TrimSpace loc.Name) ∈ targets →
      P (fallbackVessel loc))
    (L : List LocationRecord) (ks : KeyState) (h : KeyAll P ks) :
    KeyAll P (L.foldl (keyStep rt targets) ks) := by
  induction L generalizing ks with
  | nil => exact h
  | cons loc rest ih => exact ih _ (keyStep_KeyAll rt targets P hfb ks loc h)

/-- An observation with valid coordinates whose own name is allow-listed always leaves a
position for its identity. -/
theorem foldl_keyStep_best_of_allowed (rt : GoRuntime) (targets : List String)
    (L : List LocationRecord) (ks : KeyState) (loc : LocationRecord) (hloc : loc ∈ L)
    (hval : validCoords loc) (ht : NormalizeName rt (TrimSpace loc.Name) ∈ targets) :
    ∃ p, (L.foldl (keyStep rt targets) ks).best = some p := by
  induction L generalizing ks with
  | nil => cases hloc
  | cons l rest ih =>
    rw [List.foldl_cons]
    rcases List.mem_cons.1 hloc with h | h
    · subst h
      have hstep : ∃ p1, (keyStep rt targets ks loc).best = some p1 := by
        rcases hv : ks.vessel with _ | v
        · rw [keyStep_none_allowed rt targets ks loc hval hv ht]
          obtain ⟨p1, hp1, _⟩ := keyRecord_best
            { ks with vessel := some (fallbackVessel loc) } (fallbackVessel loc) loc
          exact ⟨p1, hp1⟩
        · rw [keyStep_some rt targets ks loc v hval hv]
          obtain ⟨p1, hp1, _⟩ := keyRecord_best ks v loc
          exact ⟨p1, hp1⟩
      obtain ⟨p1, hp1⟩ := hstep
      obtain ⟨p, hp, _⟩ := foldl_keyStep_best_mono rt targets rest _ p1 hp1
      exact ⟨p, hp⟩
    · exact ih _ h

/-! ## Lemmas: from the loop to the returned sequence -/

/-- The per-identity state at the start of the second loop. -/
theorem keyView_init (rt : GoRuntime) (targets : List String) (vessels : List VesselMetadata)
    (m : String) :
    keyView { selectedByMMSI := selectVessels rt targets vessels, bestByMMSI := [] } m
      = { vessel := (selectVessels rt targets vessels).get m, best := none } := rfl

/-- The per-identity state after the second loop. -/
theorem keyView_selectLoop (rt : GoRuntime) (vessels : List VesselMetadata)
    (locations : List LocationRecord) (targets : List String) (m : String) (hm : m ≠ "") :
    keyView (selectLoop rt vessels locations targets) m
      = (locations.filter (fun loc => loc.MMSI = m)).foldl (keyStep rt targets)
          { vessel := (selectVessels rt targets vessels).get m, best := none } := by
  unfold selectLoop
  rw [keyView_foldl rt targets m hm, keyView_init]

theorem selectLoop_best_MMSI (rt : GoRuntime) (vessels : List VesselMetadata)
    (locations : List LocationRecord) (targets : List String) (m : String)
    (p : IcebreakerPosition)
    (h : (selectLoop rt vessels locations targets).bestByMMSI.get m = some p) : p.MMSI = m :=
  (selectLoop_WF rt vessels locations targets).2 (m, p) (GoMap.mem_of_get _ h)

theorem selectLoop_best_empty (rt : GoRuntime) (vessels : List VesselMetadata)
    (locations : List LocationRecord) (targets : List String) :
    (selectLoop rt vessels locations targets).bestByMMSI.get "" = none := by
  unfold selectLoop
  rw [best_get_empty]
  rfl

/-- A returned position is the final per-identity position of its (non-empty) MMSI. -/
theorem Select_mem_key (rt : GoRuntime) (vessels : List VesselMetadata)
    (locations : List LocationRecord) (targets : List String) (p : IcebreakerPosition)
    (h : p ∈ SelectIcebreakerPositions rt vessels locations targets) :
    p.MMSI ≠ "" ∧
    ((locations.filter (fun loc => loc.MMSI = p.MMSI)).foldl (keyStep rt targets)
      { vessel := (selectVessels rt targets vessels).get p.MMSI, best := none }).best
      = some p := by
  rw [mem_Select_iff] at h
  have hne : p.MMSI ≠ "" := by
    intro e
    rw [e, selectLoop_best_empty] at h
    cases h
  refine ⟨hne, ?_⟩
  rw [← keyView_selectLoop rt vessels locations targets p.MMSI hne]
  exact h

/-- The final per-identity position of a non-empty identity is returned. -/
theorem Select_of_key (rt : GoRuntime) (vessels : List VesselMetadata)
    (locations : List LocationRecord) (targets : List String) (m : String) (hm : m ≠ "")
    (p : IcebreakerPosition)
    (h : ((locations.filter (fun loc => loc.MMSI = m)).foldl (keyStep rt targets)
      { vessel := (selectVessels rt targets vessels).get m, best := none }).best = some p) :
    p ∈ SelectIcebreakerPositions rt vessels locations targets ∧ p.MMSI = m := by
  rw [← keyView_selectLoop rt vessels locations targets m hm] at h
  have hk : (selectLoop rt vessels locations targets).bestByMMSI.get m = some p := h
  have hm2 := selectLoop_best_MMSI rt vessels locations targets m p hk
  refine ⟨?_, hm2⟩
  rw [mem_Select_iff, hm2]
  exact hk

theorem filter_eq_singleton_of_nodup {α β : Type} [DecidableEq β] (f : α → β) (l : List α)
    (hn : (l.map f).Nodup) (a : α) (ha : a ∈ l) :
    l.filter (fun x => f x = f a) = [a] := by
  induction l with
  | nil => cases ha
  | cons b rest ih =>
    rw [List.map_cons, List.nodup_cons] at hn
    rcases List.mem_cons.1 ha with h | h
    · subst h
      rw [List.filter_cons_of_pos (by simp)]
      congr 1
      rw [List.filter_eq_nil_iff]
      intro x hx
      have : f x ≠ f a := fun e => hn.1 (e ▸ List.mem_map_of_mem f hx)
      simpa using this
    · have : f b ≠ f a := fun e => hn.1 (e ▸ List.mem_map_of_mem f h)
      rw [List.filter_cons_of_neg (by simpa using this)]
      exact ih hn.2 h

/-! ## Reconciliation: the returned sequence -/

/-- C1: when some metadata record with non-empty identity `m` has an allow-listed normalized
name and some observation with MMSI `m` has non-NaN coordinates, the result of
`SelectIcebreakerPositions` holds exactly one position with MMSI `m`, and its timestamp is the
maximum timestamp over the observations with MMSI `m` and non-NaN coordinates. -/
theorem select_latest_of_listed (rt : GoRuntime) (vessels : List VesselMetadata)
    (locations : List LocationRecord) (targets : List String) (m : String) (hm : m ≠ "")
    (hmeta : ∃ v ∈ vessels, v.MMSI = m ∧ NormalizeName rt v.Name ∈ targets)
    (hloc : ∃ loc ∈ locations, loc.MMSI = m ∧ validCoords loc) :
    ∃ p, (SelectIcebreakerPositions rt vessels locations targets).filter
          (fun q => q.MMSI = m) = [p] ∧
      (∃ loc ∈ locations, loc.MMSI = m ∧ validCoords loc ∧ loc.Timestamp = p.Timestamp) ∧
      (∀ loc ∈ locations, loc.MMSI = m → validCoords loc → loc.Timestamp ≤ p.Timestamp) := by
  obtain ⟨v0, hv0, hv0m, hv0t⟩ := hmeta
  obtain ⟨w, hw⟩ := selectVessels_get_isSome rt targets vessels v0 hv0 hv0t
  rw [hv0m] at hw
  obtain ⟨l0, hl0, hl0m, hl0v⟩ := hloc
  have hl0f : l0 ∈ locations.filter (fun loc => loc.MMSI = m) :=
    List.mem_filter.2 ⟨hl0, by simpa using hl0m⟩
  obtain ⟨p, hp, _⟩ := foldl_keyStep_ge rt targets _
    { vessel := (selectVessels rt targets vessels).get m, best := none } w hw l0 hl0f hl0v
  obtain ⟨hmem, hpm⟩ := Select_of_key rt vessels locations targets m hm p hp
  refine ⟨p, ?_, ?_, ?_⟩
  · have := filter_eq_singleton_of_nodup IcebreakerPosition.MMSI _
      (Select_MMSI_nodup rt vessels locations targets) p hmem
    rw [hpm] at this
    exact this
  · rcases foldl_keyStep_origin rt targets _ _ w hw p hp with h | ⟨loc, h1, h2, h3⟩
    · cases h
    · obtain ⟨h4, h5⟩ := List.mem_filter.1 h1
      exact ⟨loc, h4, by simpa using h5, h2, by rw [h3]; rfl⟩
  · intro loc h1 h2 h3
    have hf : loc ∈ locations.filter (fun loc => loc.MMSI = m) :=
      List.mem_filter.2 ⟨h1, by simpa using h2⟩
    obtain ⟨q, hq, hle⟩ := foldl_keyStep_ge rt targets _
      { vessel := (selectVessels rt targets vessels).get m, best := none } w hw loc hf h3
    rw [hp] at hq
    rw [Option.some.inj hq]
    exact hle

/-- Witness of C1: the Otso observations at 100 and 200 of `TestSelectIcebreakerPositions`
give one Otso position, with timestamp 200. -/
theorem select_latest_of_listed_witness :
    (SelectIcebreakerPositions testRuntime testMetas testLocations ["OTSO"]).map
        (fun p => (p.MMSI, p.Timestamp)) = [("230124000", 200)] ∧
    ∃ p, (SelectIcebreakerPositions testRuntime testMetas testLocations ["OTSO"]).filter
          (fun q => q.MMSI = "230124000") = [p] ∧
      (∃ loc ∈ testLocations, loc.MMSI = "230124000" ∧ validCoords loc ∧
        loc.Timestamp = p.Timestamp) ∧
      (∀ loc ∈ testLocations, loc.MMSI = "230124000" → validCoords loc →
        loc.Timestamp ≤ p.Timestamp) :=
  ⟨by decide,
   select_latest_of_listed testRuntime testMetas testLocations ["OTSO"] "230124000"
    (by decide) (by decide) (by decide)⟩

/-- C2: the sequence returned by `SelectIcebreakerPositions` holds at most one position per
identity: no two of its positions have the same MMSI. -/
theorem select_one_per_identity (rt : GoRuntime) (vessels : List VesselMetadata)
    (locations : List LocationRecord) (targets : List String) :
    (SelectIcebreakerPositions rt vessels locations targets).Pairwise
      (fun p q => p.MMSI ≠ q.MMSI) :=
  List.pairwise_map.1 (Select_MMSI_nodup rt vessels locations targets)

/-- C3: the sequence returned by `SelectIcebreakerPositions` is sorted ascending by name with
the MMSI ascending as tiebreak: of two positions, the earlier one has the smaller name, or the
same name and an MMSI that is not greater. -/
theorem select_sorted (rt : GoRuntime) (vessels : List VesselMetadata)
    (locations : List LocationRecord) (targets : List String) :
    (SelectIcebreakerPositions rt vessels locations targets).Pairwise
      (fun a b => a.Name < b.Name ∨ (a.Name = b.Name ∧ a.MMSI ≤ b.MMSI)) :=
  sortSlice_positions_sorted _

/-- C4: every position returned by `SelectIcebreakerPositions` is allow-listed: the
normalized form of its name is a member of the allow-list. -/
theorem select_allow_listed (rt : GoRuntime) (vessels : List VesselMetadata)
    (locations : List LocationRecord) (targets : List String) (p : IcebreakerPosition)
    (hp : p ∈ SelectIcebreakerPositions rt vessels locations targets) :
    NormalizeName rt p.Name ∈ targets := by
  obtain ⟨_, hbest⟩ := Select_mem_key rt vessels locations targets p hp
  have hinv := foldl_keyStep_KeyAll rt targets (fun v => NormalizeName rt v.Name ∈ targets)
    (fun loc ht => ht) (locations.filter (fun loc => loc.MMSI = p.MMSI))
    { vessel := (selectVessels rt targets vessels).get p.MMSI, best := none }
    ⟨fun v hv => (selectVessels_get_some rt targets vessels p.MMSI v hv).2.1,
     fun q hq => Option.noConfusion hq⟩
  obtain ⟨v, loc, hv, hpe⟩ := hinv.2 p hbest
  rw [hpe]
  exact hv

/-- Witness of C4: in `TestSelectIcebreakerPositions` the exported Kontio position is
allow-listed, and the vessel "Random", present in both payloads, is not exported. -/
theorem select_allow_listed_witness :
    (SelectIcebreakerPositions testRuntime testMetas testLocations ["OTSO", "KONTIO"]).map
        IcebreakerPosition.Name = ["Kontio", "Otso"] ∧
    NormalizeName testRuntime "Kontio" ∈ ["OTSO", "KONTIO"] :=
  ⟨by decide,
   select_allow_listed testRuntime testMetas testLocations ["OTSO", "KONTIO"]
    { Name := "Kontio", MMSI := "230123000", Country := "", Latitude := f60,
      Longitude := f60, Timestamp := 150 } (by decide)⟩

/-- C5: when no metadata record carries identity `m` and some observation has the non-empty
MMSI `m`, non-NaN coordinates and an own name whose normalized form is allow-listed, then
`SelectIcebreakerPositions` returns a position with MMSI `m` whose country is "Unknown". -/
theorem select_fallback_unknown (rt : GoRuntime) (vessels : List VesselMetadata)
    (locations : List LocationRecord) (targets : List String) (m : String) (hm : m ≠ "")
    (hmeta : ∀ v ∈ vessels, v.MMSI ≠ m)
    (hloc : ∃ loc ∈ locations, loc.MMSI = m ∧ validCoords loc ∧
      NormalizeName rt loc.Name ∈ targets) :
    ∃ p ∈ SelectIcebreakerPositions rt vessels locations targets,
      p.MMSI = m ∧ p.Country = "Unknown" := by
  obtain ⟨l0, hl0, hl0m, hl0v, hl0t⟩ := hloc
  have hl0f : l0 ∈ locations.filter (fun loc => loc.MMSI = m) :=
    List.mem_filter.2 ⟨hl0, by simpa using hl0m⟩
  rw [← NormalizeName_TrimSpace] at hl0t
  obtain ⟨p, hp⟩ := foldl_keyStep_best_of_allowed rt targets _
    { vessel := (selectVessels rt targets vessels).get m, best := none } l0 hl0f hl0v hl0t
  obtain ⟨hmem, hpm⟩ := Select_of_key rt vessels locations targets m hm p hp
  have hnone := selectVessels_get_none rt targets vessels m (fun v hv _ => hmeta v hv)
  have hinv := foldl_keyStep_KeyAll rt targets (fun v => v.Country = "Unknown")
    (fun loc _ => rfl) (locations.filter (fun loc => loc.MMSI = m))
    { vessel := (selectVessels rt targets vessels).get m, best := none }
    ⟨fun v hv => Option.noConfusion (hnone ▸ hv : none = some v),
     fun q hq => Option.noConfusion hq⟩
  obtain ⟨v, loc, hv, hpe⟩ := hinv.2 p hp
  refine ⟨p, hmem, hpm, ?_⟩
  rw [hpe]
  exact hv

/-- Witness of C5: an Otso observation without any metadata is exported with country
"Unknown". -/
theorem select_fallback_unknown_witness :
    (SelectIcebreakerPositions testRuntime [] testLocations ["OTSO"]).map
        (fun p => (p.MMSI, p.Country)) = [("230124000", "Unknown")] ∧
    ∃ p ∈ SelectIcebreakerPositions testRuntime [] testLocations ["OTSO"],
      p.MMSI = "230124000" ∧ p.Country = "Unknown" :=
  ⟨by decide,
   select_fallback_unknown testRuntime [] testLocations ["OTSO"] "230124000"
    (by decide) (by decide) (by decide)⟩

/-! ## Reconciliation: observations that leave no trace -/

theorem selectStep_rejected (rt : GoRuntime) (targets : List String) (st : SelectState)
    (loc : LocationRecord) (hv : st.selectedByMMSI.get loc.MMSI = none)
    (ht : NormalizeName rt (TrimSpace loc.Name) ∉ targets) :
    selectStep rt targets st loc = st := by
  unfold selectStep
  split
  · rfl
  · split
    · rfl
    · simp only [hv]
      rw [if_neg ht]

theorem foldl_keyStep_rejected (rt : GoRuntime) (targets : List String)
    (L : List LocationRecord) (ks : KeyState) (hv : ks.vessel = none)
    (hL : ∀ loc ∈ L, validCoords loc → NormalizeName rt (TrimSpace loc.Name) ∉ targets) :
    L.foldl (keyStep rt targets) ks = ks := by
  induction L with
  | nil => rfl
  | cons l rest ih =>
    rw [List.foldl_cons]
    have hstep : keyStep rt targets ks l = ks := by
      by_cases hval : validCoords l
      · exact keyStep_none_rejected rt targets ks l hv (hL l (List.mem_cons_self _ _) hval)
      · exact keyStep_invalid rt targets ks l hval
    rw [hstep]
    exact ih (fun loc hloc => hL loc (List.mem_cons_of_mem _ hloc))

/-- Counterexample to C8 as stated: with no metadata, the observation named "Random" with
MMSI 230124000 has an identity carried by no metadata record and a name outside the
allow-list, yet it is exported (timestamp 300) because an earlier observation named "Otso"
registered its MMSI; without it the exported timestamp is 100. -/
theorem select_drop_unresolved_counterexample :
    (∀ v ∈ ([] : List VesselMetadata),
        NormalizeName testRuntime v.Name ∈ ["OTSO"] → v.MMSI ≠ "230124000") ∧
    NormalizeName testRuntime "Random" ∉ ["OTSO"] ∧
    SelectIcebreakerPositions testRuntime []
        [ { Name := "Otso", MMSI := "230124000", Latitude := f60, Longitude := f25,
            Timestamp := 100 },
          { Name := "Random", MMSI := "230124000", Latitude := f25, Longitude := f60,
            Timestamp := 300 } ] ["OTSO"]
      ≠ SelectIcebreakerPositions testRuntime []
        [ { Name := "Otso", MMSI := "230124000", Latitude := f60, Longitude := f25,
            Timestamp := 100 } ] ["OTSO"] := by
  decide

/-- C8 (amended): an observation whose MMSI is not the identity of any metadata record with
an allow-listed normalized name, whose own normalized name is not in the allow-list, and
before which no observation of the same MMSI with non-NaN coordinates carries an allow-listed
own name, contributes nothing: `SelectIcebreakerPositions` returns the same sequence with
that observation removed from the location list. -/
theorem select_drop_unresolved (rt : GoRuntime) (vessels : List VesselMetadata)
    (before after : List LocationRecord) (x : LocationRecord) (targets : List String)
    (hmeta : ∀ v ∈ vessels, NormalizeName rt v.Name ∈ targets → v.MMSI ≠ x.MMSI)
    (hname : NormalizeName rt x.Name ∉ targets)
    (hbefore : ∀ loc ∈ before, loc.MMSI = x.MMSI → validCoords loc →
      NormalizeName rt loc.Name ∉ targets) :
    SelectIcebreakerPositions rt vessels (before ++ x :: after) targets
      = SelectIcebreakerPositions rt vessels (before ++ after) targets := by
  have hstep : selectStep rt targets (selectLoop rt vessels before targets) x
      = selectLoop rt vessels before targets := by
    by_cases hx : x.MMSI = ""
    · simp [selectStep, hx]
    · apply selectStep_rejected
      · have hk := keyView_selectLoop rt vessels before targets x.MMSI hx
        rw [foldl_keyStep_rejected] at hk
        · exact congrArg KeyState.vessel hk |>.trans
            (selectVessels_get_none rt targets vessels x.MMSI hmeta)
        · exact selectVessels_get_none rt targets vessels x.MMSI hmeta
        · intro loc hloc hval
          obtain ⟨h1, h2⟩ := List.mem_filter.1 hloc
          rw [NormalizeName_TrimSpace]
          exact hbefore loc h1 (by simpa using h2) hval
      · rw [NormalizeName_TrimSpace]
        exact hname
  unfold SelectIcebreakerPositions
  congr 2
  unfold selectLoop at hstep ⊢
  rw [List.foldl_append, List.foldl_cons, hstep, List.foldl_append]

/-- Witness of C8 (amended): the "Random" observation of `TestSelectIcebreakerPositions`,
which is the last of the list, can be removed without changing the result. -/
theorem select_drop_unresolved_witness :
    SelectIcebreakerPositions testRuntime testMetas
        (testLocations.take 3 ++
          { Name := "Random", MMSI := "111111111", Latitude := f25, Longitude := f25,
            Timestamp := 100 } :: []) ["OTSO", "KONTIO"]
      = SelectIcebreakerPositions testRuntime testMetas (testLocations.take 3 ++ [])
          ["OTSO", "KONTIO"] :=
  select_drop_unresolved testRuntime testMetas (testLocations.take 3) []
    { Name := "Random", MMSI := "111111111", Latitude := f25, Longitude := f25,
      Timestamp := 100 } ["OTSO", "KONTIO"] (by decide) (by decide) (by decide)

/-! ## Reconciliation: the order of the observations -/

theorem mkCandidate_congr (v : VesselMetadata) (a b : LocationRecord) (hm : a.MMSI = b.MMSI)
    (ht : a.Timestamp = b.Timestamp) (hlat : a.Latitude = b.Latitude)
    (hlon : a.Longitude = b.Longitude) : mkCandidate v a = mkCandidate v b := by
  unfold mkCandidate
  rw [hm, ht, hlat, hlon]

/-- With the vessel known and no position held, the final position for one identity is
carried over to any reordering of the observations, provided observations with equal
timestamps agree on the coordinates. -/
theorem foldl_keyStep_known_perm (rt : GoRuntime) (targets : List String) (m : String)
    (F₁ F₂ : List LocationRecord) (hperm : F₁.Perm F₂) (hm : ∀ a ∈ F₁, a.MMSI = m)
    (htie : ∀ a ∈ F₁, ∀ b ∈ F₁, validCoords a → validCoords b →
      a.Timestamp = b.Timestamp → a.Latitude = b.Latitude ∧ a.Longitude = b.Longitude)
    (ks : KeyState) (v : VesselMetadata) (hv : ks.vessel = some v) (hb : ks.best = none)
    (p : IcebreakerPosition) (hp : (F₁.foldl (keyStep rt targets) ks).best = some p) :
    (F₂.foldl (keyStep rt targets) ks).best = some p := by
  rcases foldl_keyStep_origin rt targets F₁ ks v hv p hp with h | ⟨a, ha, hav, hpa⟩
  · rw [hb] at h
    cases h
  · obtain ⟨q, hq, hle⟩ := foldl_keyStep_ge rt targets F₂ ks v hv a (hperm.mem_iff.1 ha) hav
    rcases foldl_keyStep_origin rt targets F₂ ks v hv q hq with h | ⟨b, hb2, hbv, hqb⟩
    · rw [hb] at h
      cases h
    · have hb1 : b ∈ F₁ := hperm.mem_iff.2 hb2
      obtain ⟨p', hp', hle'⟩ := foldl_keyStep_ge rt targets F₁ ks v hv b hb1 hbv
      rw [hp] at hp'
      rw [← Option.some.inj hp'] at hle'
      have hpt : p.Timestamp = a.Timestamp := by rw [hpa]; rfl
      have hqt : q.Timestamp = b.Timestamp := by rw [hqb]; rfl
      have hts : a.Timestamp = b.Timestamp := by
        rw [hqt] at hle
        rw [hpt] at hle'
        exact le_antisymm hle hle'
      obtain ⟨hlat, hlon⟩ := htie a ha b hb1 hav hbv hts
      rw [hq, hqb, hpa]
      exact congrArg some
        (mkCandidate_congr v b a ((hm b hb1).trans (hm a ha).symm) hts.symm hlat.symm hlon.symm)

/-- When every observation with valid coordinates would build the same fallback vessel and
passes the name check, the position found without a vessel is the one found with that
vessel known from the start. -/
theorem foldl_keyStep_fallback_best (rt : GoRuntime) (targets : List String)
    (fv : VesselMetadata) (F : List LocationRecord)
    (hF : ∀ a ∈ F, validCoords a →
      NormalizeName rt (TrimSpace a.Name) ∈ targets ∧ fallbackVessel a = fv)
    (ks : KeyState) (hv : ks.vessel = none) :
    (F.foldl (keyStep rt targets) ks).best
      = (F.foldl (keyStep rt targets) { ks with vessel := some fv }).best := by
  induction F generalizing ks with
  | nil => rfl
  | cons l rest ih =>
    rw [List.foldl_cons, List.foldl_cons]
    have hrest : ∀ a ∈ rest, validCoords a →
        NormalizeName rt (TrimSpace a.Name) ∈ targets ∧ fallbackVessel a = fv :=
      fun a ha => hF a (List.mem_cons_of_mem _ ha)
    by_cases hval : validCoords l
    · obtain ⟨ht, hfv⟩ := hF l (List.mem_cons_self _ _) hval
      rw [keyStep_none_allowed rt targets ks l hval hv ht,
        keyStep_some rt targets { ks with vessel := some fv } l fv hval rfl, hfv]
    · rw [keyStep_invalid rt targets ks l hval,
        keyStep_invalid rt targets { ks with vessel := some fv } l hval]
      exact ih hrest ks hv

theorem key_best_perm_imp (rt : GoRuntime) (vessels : List VesselMetadata)
    (targets : List String) (L₁ L₂ : List LocationRecord) (hperm : L₁.Perm L₂)
    (hfree : OrderFree rt vessels targets L₁) (m : String) (p : IcebreakerPosition)
    (hp : ((L₁.filter (fun loc => loc.MMSI = m)).foldl (keyStep rt targets)
      { vessel := (selectVessels rt targets vessels).get m, best := none }).best = some p) :
    ((L₂.filter (fun loc => loc.MMSI = m)).foldl (keyStep rt targets)
      { vessel := (selectVessels rt targets vessels).get m, best := none }).best = some p := by
  have hpermF := hperm.filter (fun loc => decide (loc.MMSI = m))
  have hmF : ∀ a ∈ L₁.filter (fun loc => loc.MMSI = m), a.MMSI = m :=
    fun a ha => by simpa using (List.mem_filter.1 ha).2
  have htie : ∀ a ∈ L₁.filter (fun loc => loc.MMSI = m),
      ∀ b ∈ L₁.filter (fun loc => loc.MMSI = m), validCoords a → validCoords b →
      a.Timestamp = b.Timestamp → a.Latitude = b.Latitude ∧ a.Longitude = b.Longitude :=
    fun a ha b hb hav hbv hts =>
      (hfree a (List.mem_filter.1 ha).1 b (List.mem_filter.1 hb).1
        ((hmF a ha).trans (hmF b hb).symm) hav hbv).1 hts
  rcases hsel : (selectVessels rt targets vessels).get m with _ | v
  · rw [hsel] at hp
    have hnometa : ∀ v ∈ vessels, NormalizeName rt v.Name ∈ targets → v.MMSI ≠ m := by
      intro v hv hvt hvm
      obtain ⟨w, hw⟩ := selectVessels_get_isSome rt targets vessels v hv hvt
      rw [hvm, hsel] at hw
      cases hw
    by_cases hex : ∃ a ∈ L₁.filter (fun loc => loc.MMSI = m), validCoords a ∧
        NormalizeName rt (TrimSpace a.Name) ∈ targets
    · obtain ⟨a, ha, hav, hat⟩ := hex
      have hall : ∀ F : List LocationRecord, (∀ b, b ∈ F → b ∈ L₁.filter (fun loc => loc.MMSI = m)) →
          ∀ b ∈ F, validCoords b →
          NormalizeName rt (TrimSpace b.Name) ∈ targets ∧ fallbackVessel b = fallbackVessel a := by
        intro F hsub b hbF hbv
        have hb := hsub b hbF
        have hmab : a.MMSI = b.MMSI := (hmF a ha).trans (hmF b hb).symm
        have hname := (hfree a (List.mem_filter.1 ha).1 b (List.mem_filter.1 hb).1
          hmab hav hbv).2 (fun v hv hvt => (hmF a ha).symm ▸ hnometa v hv hvt)
        refine ⟨hname ▸ hat, ?_⟩
        unfold fallbackVessel
        rw [hname, hmab]
      rw [foldl_keyStep_fallback_best rt targets (fallbackVessel a) _
        (hall _ (fun b hb => hb)) _ rfl] at hp
      rw [foldl_keyStep_fallback_best rt targets (fallbackVessel a) _
        (hall _ (fun b hb => hpermF.mem_iff.2 hb)) _ rfl]
      exact foldl_keyStep_known_perm rt targets m _ _ hpermF hmF htie _ (fallbackVessel a)
        rfl rfl p hp
    · rw [foldl_keyStep_rejected rt targets _ _ rfl
        (fun loc hloc hval ht => hex ⟨loc, hloc, hval, ht⟩)] at hp
      cases hp
  · rw [hsel] at hp
    exact foldl_keyStep_known_perm rt targets m _ _ hpermF hmF htie _ v rfl rfl p hp

theorem OrderFree_perm (rt : GoRuntime) (vessels : List VesselMetadata) (targets : List String)
    (L₁ L₂ : List LocationRecord) (hperm : L₁.Perm L₂)
    (hfree : OrderFree rt vessels targets L₁) : OrderFree rt vessels targets L₂ :=
  fun a ha b hb => hfree a (hperm.mem_iff.2 ha) b (hperm.mem_iff.2 hb)

theorem Select_mem_perm (rt : GoRuntime) (vessels : List VesselMetadata)
    (targets : List String) (L₁ L₂ : List LocationRecord) (hperm : L₁.Perm L₂)
    (hfree : OrderFree rt vessels targets L₁) (p : IcebreakerPosition)
    (hp : p ∈ SelectIcebreakerPositions rt vessels L₁ targets) :
    p ∈ SelectIcebreakerPositions rt vessels L₂ targets := by
  obtain ⟨hne, hbest⟩ := Select_mem_key rt vessels L₁ targets p hp
  exact (Select_of_key rt vessels L₂ targets p.MMSI hne p
    (key_best_perm_imp rt vessels targets L₁ L₂ hperm hfree p.MMSI p hbest)).1

/-- Counterexample to C7 as stated: two Otso observations with the same timestamp and
different coordinates; the observation that comes first in the list is exported, so swapping
the two changes the result. -/
theorem select_perm_counterexample :
    List.Perm
      [ ({ Name := "Otso", MMSI := "230124000", Latitude := f60, Longitude := f25,
           Timestamp := 100 } : LocationRecord),
        { Name := "Otso", MMSI := "230124000", Latitude := f25, Longitude := f60,
          Timestamp := 100 } ]
      [ { Name := "Otso", MMSI := "230124000", Latitude := f25, Longitude := f60,
          Timestamp := 100 },
        { Name := "Otso", MMSI := "230124000", Latitude := f60, Longitude := f25,
          Timestamp := 100 } ] ∧
    SelectIcebreakerPositions testRuntime testMetas
        [ { Name := "Otso", MMSI := "230124000", Latitude := f60, Longitude := f25,
            Timestamp := 100 },
          { Name := "Otso", MMSI := "230124000", Latitude := f25, Longitude := f60,
            Timestamp := 100 } ] ["OTSO"]
      ≠ SelectIcebreakerPositions testRuntime testMetas
        [ { Name := "Otso", MMSI := "230124000", Latitude := f25, Longitude := f60,
            Timestamp := 100 },
          { Name := "Otso", MMSI := "230124000", Latitude := f60, Longitude := f25,
            Timestamp := 100 } ] ["OTSO"] :=
  ⟨List.Perm.swap _ _ _, by decide⟩

/-- C7 (amended): for two location lists that are permutations of one another,
`SelectIcebreakerPositions` returns the identical sequence, provided that among the
observations with non-NaN coordinates and a common MMSI equal timestamps come with equal
coordinates and, when no allow-listed metadata record carries the MMSI, the trimmed names
are equal. -/
theorem select_perm (rt : GoRuntime) (vessels : List VesselMetadata) (targets : List String)
    (L₁ L₂ : List LocationRecord) (hperm : L₁.Perm L₂)
    (hfree : ∀ a ∈ L₁, ∀ b ∈ L₁, a.MMSI = b.MMSI → validCoords a → validCoords b →
      (a.Timestamp = b.Timestamp → a.Latitude = b.Latitude ∧ a.Longitude = b.Longitude) ∧
      ((∀ v ∈ vessels, NormalizeName rt v.Name ∈ targets → v.MMSI ≠ a.MMSI) →
        TrimSpace a.Name = TrimSpace b.Name)) :
    SelectIcebreakerPositions rt vessels L₁ targets
      = SelectIcebreakerPositions rt vessels L₂ targets := by
  have hfree₂ := OrderFree_perm rt vessels targets L₁ L₂ hperm hfree
  have hn₁ := Select_MMSI_nodup rt vessels L₁ targets
  have hn₂ := Select_MMSI_nodup rt vessels L₂ targets
  have hp : (SelectIcebreakerPositions rt vessels L₁ targets).Perm
      (SelectIcebreakerPositions rt vessels L₂ targets) := by
    rw [List.perm_ext_iff_of_nodup (List.Nodup.of_map _ hn₁) (List.Nodup.of_map _ hn₂)]
    intro p
    exact ⟨Select_mem_perm rt vessels targets L₁ L₂ hperm hfree p,
      Select_mem_perm rt vessels targets L₂ L₁ hperm.symm hfree₂ p⟩
  exact sorted_positions_unique hp (sortSlice_positions_sorted _)
    (sortSlice_positions_sorted _) hn₁

/-- Witness of C7 (amended): reversing the locations of `TestSelectIcebreakerPositions`
leaves the result unchanged. -/
theorem select_perm_witness :
    SelectIcebreakerPositions testRuntime testMetas testLocations ["OTSO", "KONTIO"]
      = SelectIcebreakerPositions testRuntime testMetas testLocations.reverse
          ["OTSO", "KONTIO"] :=
  select_perm testRuntime testMetas ["OTSO", "KONTIO"] testLocations testLocations.reverse
    (List.reverse_perm testLocations).symm (by decide)

/-! ## Reconciliation: the empty result -/

theorem foldl_selectStep_rejected (rt : GoRuntime) (targets : List String)
    (L : List LocationRecord) (st : SelectState)
    (hL : ∀ loc ∈ L, st.selectedByMMSI.get loc.MMSI = none ∧
      NormalizeName rt (TrimSpace loc.Name) ∉ targets) :
    L.foldl (selectStep rt targets) st = st := by
  induction L with
  | nil => rfl
  | cons l rest ih =>
    obtain ⟨h1, h2⟩ := hL l (List.mem_cons_self _ _)
    rw [List.foldl_cons, selectStep_rejected rt targets st l h1 h2]
    exact ih (fun loc hloc => hL loc (List.mem_cons_of_mem _ hloc))

/-- C6: when no observation has the MMSI of a metadata record with an allow-listed
normalized name and no observation has an allow-listed own normalized name, then
`SelectIcebreakerPositions` returns the empty sequence, and `fetchPositions`, both fetches
having succeeded with payloads that extract to these lists, fails with an error instead of
returning an empty position list. -/
theorem select_empty_fetch_fails (rt : GoRuntime) (vessels : List VesselMetadata)
    (locations : List LocationRecord) (targets : List String)
    (hid : ∀ loc ∈ locations, ∀ v ∈ vessels,
      NormalizeName rt v.Name ∈ targets → v.MMSI ≠ loc.MMSI)
    (hname : ∀ loc ∈ locations, NormalizeName rt loc.Name ∉ targets) :
    SelectIcebreakerPositions rt vessels locations targets = [] ∧
    ∀ vesselsPayload locationsPayload : Any,
      ExtractVesselMetadata rt vesselsPayload = vessels →
      ExtractLocations rt locationsPayload = locations →
      fetchPositions rt (.ok vesselsPayload) (.ok locationsPayload) targets
        = .error "no positions found for configured icebreakers" := by
  have hempty : SelectIcebreakerPositions rt vessels locations targets = [] := by
    unfold SelectIcebreakerPositions selectLoop
    rw [foldl_selectStep_rejected]
    · rfl
    · intro loc hloc
      refine ⟨selectVessels_get_none rt targets vessels loc.MMSI (hid loc hloc), ?_⟩
      rw [NormalizeName_TrimSpace]
      exact hname loc hloc
  refine ⟨hempty, ?_⟩
  intro vp lp hv hl
  unfold fetchPositions
  simp only [hv, hl, hempty, List.length_nil, if_true]

/-- Witness of C6: with the allow-list `URHO` the payloads of the extractor tests match
nothing, and the cycle fails. -/
theorem select_empty_fetch_fails_witness :
    SelectIcebreakerPositions testRuntime (ExtractVesselMetadata testRuntime testVesselsPayload)
        (ExtractLocations testRuntime testLocationsPayload) ["URHO"] = [] ∧
    fetchPositions testRuntime (.ok testVesselsPayload) (.ok testLocationsPayload) ["URHO"]
      = .error "no positions found for configured icebreakers" :=
  ⟨(select_empty_fetch_fails testRuntime (ExtractVesselMetadata testRuntime testVesselsPayload)
      (ExtractLocations testRuntime testLocationsPayload) ["URHO"]
      (by decide) (by decide)).1,
   (select_empty_fetch_fails testRuntime (ExtractVesselMetadata testRuntime testVesselsPayload)
      (ExtractLocations testRuntime testLocationsPayload) ["URHO"]
      (by decide) (by decide)).2 testVesselsPayload testLocationsPayload rfl rfl⟩

/-! ## Lemmas: decimal numerals -/

theorem digitChar_digit (d : Nat) (hd : d < 10) :
    isDigit (Nat.digitChar d) = true ∧ digitVal (Nat.digitChar d) = d := by
  interval_cases d <;> decide

theorem toDigitsCore_spec (fuel : Nat) : ∀ (n : Nat) (ds : List Char), n < fuel →
    (∀ c ∈ ds, isDigit c = true) →
    (∀ c ∈ Nat.toDigitsCore 10 fuel n ds, isDigit c = true) ∧
    digitsVal 0 (Nat.toDigitsCore 10 fuel n ds) = digitsVal n ds ∧
    Nat.toDigitsCore 10 fuel n ds ≠ [] := by
  induction fuel with
  | zero => intro n ds h; exact absurd h (Nat.not_lt_zero n)
  | succ fuel ih =>
    intro n ds hn hds
    have hd := digitChar_digit (n % 10) (Nat.mod_lt n (by decide))
    have hcons : ∀ c ∈ Nat.digitChar (n % 10) :: ds, isDigit c = true := by
      intro c hc
      rcases List.mem_cons.1 hc with h | h
      · rw [h]; exact hd.1
      · exact hds c h
    unfold Nat.toDigitsCore
    dsimp only
    by_cases h0 : n / 10 = 0
    · rw [if_pos h0]
      refine ⟨hcons, ?_, List.cons_ne_nil _ _⟩
      have hlt : n < 10 := by omega
      show digitsVal (0 * 10 + digitVal (Nat.digitChar (n % 10))) ds = digitsVal n ds
      rw [hd.2]
      congr 1
      omega
    · rw [if_neg h0]
      have hlt : n / 10 < fuel := by omega
      obtain ⟨h1, h2, h3⟩ := ih (n / 10) (Nat.digitChar (n % 10) :: ds) hlt hcons
      refine ⟨h1, ?_, h3⟩
      rw [h2]
      show digitsVal (n / 10 * 10 + digitVal (Nat.digitChar (n % 10))) ds = digitsVal n ds
      rw [hd.2]
      congr 1
      omega

/-- The decimal rendering of a natural number consists of digits, is not empty and denotes
the number. -/
theorem toDigits_spec (n : Nat) :
    (∀ c ∈ Nat.toDigits 10 n, isDigit c = true) ∧ digitsVal 0 (Nat.toDigits 10 n) = n ∧
    Nat.toDigits 10 n ≠ [] := by
  have h := toDigitsCore_spec (n + 1) n [] (Nat.lt_succ_self n) (fun c hc => by cases hc)
  exact h

theorem digitsVal_append (acc : Nat) (l₁ l₂ : List Char) :
    digitsVal acc (l₁ ++ l₂) = digitsVal (digitsVal acc l₁) l₂ := by
  induction l₁ generalizing acc with
  | nil => rfl
  | cons c cs ih => exact ih _

theorem isSpace_of_isDigit (c : Char) (h : isDigit c = true) : isSpace c = false := by
  unfold isDigit at h
  unfold isSpace
  simp only [Bool.and_eq_true, decide_eq_true_eq] at h
  simp only [Bool.or_eq_false_iff, Bool.and_eq_false_imp, beq_eq_false_iff_ne, ne_eq,
    decide_eq_true_eq, decide_eq_false_iff_not]
  omega

theorem TrimSpace_of_no_space (l : List Char) (h : ∀ c ∈ l, isSpace c = false) :
    TrimSpace (String.mk l) = String.mk l := by
  unfold TrimSpace
  congr 1
  show List.rdropWhile isSpace (List.dropWhile isSpace l) = l
  have h1 : List.dropWhile isSpace l = l := by
    cases l with
    | nil => rfl
    | cons c cs => simp [List.dropWhile, h c (List.mem_cons_self _ _)]
  rw [h1]
  unfold List.rdropWhile
  have h2 : List.dropWhile isSpace l.reverse = l.reverse := by
    rcases hr : l.reverse with _ | ⟨c, cs⟩
    · rfl
    · have hc : c ∈ l := by
        rw [← List.mem_reverse, hr]
        exact List.mem_cons_self _ _
      simp [List.dropWhile, h c hc]
  rw [h2, List.reverse_reverse]

theorem TrimSpace_blank (s : String) (h : ∀ c ∈ s.data, isSpace c = true) :
    TrimSpace s = "" := by
  unfold TrimSpace
  rw [List.dropWhile_eq_nil_iff.2 h]
  rfl

theorem FormatInt_ne_empty (i : Int) : FormatInt i ≠ "" := by
  unfold FormatInt
  split
  · intro h
    have := congrArg String.data h
    simp at this
  · intro h
    have := congrArg String.data h
    exact (toDigits_spec i.toNat).2.2 this

theorem FormatInt_nat (n : Nat) : FormatInt (n : Int) = String.mk (Nat.toDigits 10 n) := by
  unfold FormatInt
  rw [if_neg (by omega)]
  rfl

/-! ## Lemmas: rounding to float64 -/

theorem ilog2_spec (fuel : Nat) : ∀ n : Nat, 0 < n → n ≤ fuel →
    2 ^ ilog2 fuel n ≤ n ∧ n < 2 ^ (ilog2 fuel n + 1) := by
  induction fuel with
  | zero => intro n h1 h2; omega
  | succ fuel ih =>
    intro n h1 h2
    unfold ilog2
    by_cases h : n < 2
    · rw [if_pos h]
      simp
      omega
    · rw [if_neg h]
      obtain ⟨h3, h4⟩ := ih (n / 2) (by omega) (by omega)
      rw [pow_succ] at h4 ⊢
      rw [pow_succ]
      constructor <;> omega

/-- An integer with at most 53 significant bits is rounded to itself: exponent field
`k + 1023`, fraction the integer shifted to 53 bits without its leading bit. -/
theorem roundReduced_exact (neg : Bool) (a k : Nat) (hk : k ≤ 52) (h1 : 2 ^ k ≤ a)
    (h2 : a < 2 ^ (k + 1)) (hlog : ilog2 a a = k) :
    roundReduced neg a 1
      = some { sign := neg, exp := k + 1023, frac := a * 2 ^ (52 - k) - 2 ^ 52 } := by
  have hone : ilog2 1 1 = 0 := rfl
  have hpow : 2 ^ k * 2 ^ (52 - k) = 2 ^ 52 := by
    rw [← pow_add]; congr 1; omega
  have hpow1 : 2 ^ (k + 1) * 2 ^ (52 - k) = 2 ^ 53 := by
    rw [← pow_add]; congr 1; omega
  have hlo : 2 ^ 52 ≤ a * 2 ^ (52 - k) := by
    rw [← hpow]; exact Nat.mul_le_mul_right _ h1
  have hhi : a * 2 ^ (52 - k) < 2 ^ 53 := by
    rw [← hpow1]; exact Nat.mul_lt_mul_of_pos_right h2 (by positivity)
  have hge : ratGE a 1 (k : Int) = true := by
    unfold ratGE
    rw [if_pos (by omega)]
    simpa using h1
  unfold roundReduced
  simp only [hlog, hone, Nat.cast_zero, sub_zero, hge, if_true]
  have hmax : max (k : Int) (-1022) = k := max_eq_left (by omega)
  rw [hmax]
  by_cases hk52 : k = 52
  · subst hk52
    simp only [Nat.cast_ofNat, sub_self, le_refl, if_true, Int.toNat_zero, pow_zero, mul_one,
      Nat.div_one, Nat.mod_one] at hlo hhi ⊢
    simp only [Nat.sub_self, pow_zero, mul_one] at hlo hhi
    have hM : ¬ (1 < 2 * 0 ∨ 2 * 0 = 1 ∧ a % 2 = 1) := by omega
    rw [if_neg hM]
    have h53 : ¬ a = 2 ^ 53 := by omega
    simp only [if_neg h53]
    rw [if_neg (by omega), if_neg (by omega)]
    simp
  · have hq : ¬ (0 ≤ (k : Int) - 52) := by omega
    have hneg : (-((k : Int) - 52)).toNat = 52 - k := by omega
    simp only [if_neg hq, hneg, Nat.div_one, Nat.mod_one]
    have hM : ¬ (1 < 2 * 0 ∨ 2 * 0 = 1 ∧ a * 2 ^ (52 - k) % 2 = 1) := by omega
    rw [if_neg hM]
    have h53 : ¬ a * 2 ^ (52 - k) = 2 ^ 53 := by omega
    simp only [if_neg h53]
    rw [if_neg (by omega), if_neg (by omega)]
    congr 2
    omega

/-- Converting the float64 of `roundReduced_exact` back with `int64(f)` gives the integer. -/
theorem float64ToInt64_exact (rt : GoRuntime) (a k : Nat) (hk : k ≤ 52) (h1 : 2 ^ k ≤ a)
    (h2 : a < 2 ^ (k + 1)) :
    float64ToInt64 rt { sign := false, exp := k + 1023, frac := a * 2 ^ (52 - k) - 2 ^ 52 }
      = (a : Int) := by
  have hpow : 2 ^ k * 2 ^ (52 - k) = 2 ^ 52 := by
    rw [← pow_add]; congr 1; omega
  have hpow1 : 2 ^ (k + 1) * 2 ^ (52 - k) = 2 ^ 53 := by
    rw [← pow_add]; congr 1; omega
  have hlo : 2 ^ 52 ≤ a * 2 ^ (52 - k) := by
    rw [← hpow]; exact Nat.mul_le_mul_right _ h1
  have hhi : a * 2 ^ (52 - k) < 2 ^ 53 := by
    rw [← hpow1]; exact Nat.mul_lt_mul_of_pos_right h2 (by positivity)
  have hpos : 0 < 2 ^ (52 - k) := by positivity
  have ha : a < 2 ^ 53 := by
    calc a = a * 1 := (Nat.mul_one a).symm
      _ ≤ a * 2 ^ (52 - k) := Nat.mul_le_mul_left a hpos
      _ < 2 ^ 53 := hhi
  have e1 : ¬ (2047 ≤ k + 1023) := by omega
  have e2 : ¬ (k + 1023 = 0) := by omega
  have hm : 2 ^ 52 + (a * 2 ^ (52 - k) - 2 ^ 52) = a * 2 ^ (52 - k) := by omega
  unfold float64ToInt64
  simp only [e1, e2, if_false, hm]
  have hmag : (if 1075 ≤ k + 1023 then a * 2 ^ (52 - k) * 2 ^ (k + 1023 - 1075)
      else a * 2 ^ (52 - k) / 2 ^ (1075 - (k + 1023))) = a := by
    by_cases hk52 : k = 52
    · subst hk52
      simp
    · rw [if_neg (by omega)]
      have : 1075 - (k + 1023) = 52 - k := by omega
      rw [this]
      exact Nat.mul_div_cancel a hpos
  rw [hmag]
  simp only [Bool.false_eq_true, if_false]
  rw [if_pos (by omega)]

/-- The float64 nearest to an integer below 2^53, written with one decimal place, converts
back to that integer. -/
theorem round_tenths_exact (rt : GoRuntime) (n : Nat) (hn : n < 2 ^ 53) :
    ∃ f, roundToFloat64 false (n * 10) (10 ^ 1) = some f ∧ float64ToInt64 rt f = (n : Int) := by
  by_cases h0 : n = 0
  · subst h0
    refine ⟨{ sign := false, exp := 0, frac := 0 }, rfl, ?_⟩
    have z1 : ¬ (2047 ≤ 0) := by omega
    have z2 : ¬ (1075 ≤ 1) := by omega
    unfold float64ToInt64
    simp only [z1, z2, if_false, eq_self_iff_true, if_true, Nat.zero_div, Bool.false_eq_true,
      Nat.cast_zero]
    rw [if_pos (by omega)]
  · have hpos : 0 < n := Nat.pos_of_ne_zero h0
    obtain ⟨h1, h2⟩ := ilog2_spec n n hpos (le_refl n)
    have hk : ilog2 n n ≤ 52 := by
      by_contra hc
      have : 2 ^ 53 ≤ 2 ^ ilog2 n n := Nat.pow_le_pow_right (by decide) (by omega)
      omega
    refine ⟨_, ?_, float64ToInt64_exact rt n (ilog2 n n) hk h1 h2⟩
    unfold roundToFloat64
    rw [if_neg (by omega)]
    have hg : Nat.gcd (n * 10) (10 ^ 1) = 10 := Nat.gcd_eq_right (Dvd.intro_left n rfl)
    rw [hg]
    have hd : n * 10 / 10 = n := Nat.mul_div_cancel n (by decide)
    rw [hd]
    exact roundReduced_exact false n (ilog2 n n) hk h1 h2 rfl

/-! ## Lemmas: parsing the renderings of an integer -/

theorem splitSign_digit (c : Char) (l : List Char) (h : isDigit c = true) :
    splitSign (c :: l) = (false, c :: l) := by
  have h1 : c ≠ '-' := by
    intro e
    rw [e] at h
    exact absurd h (by decide)
  have h2 : c ≠ '+' := by
    intro e
    rw [e] at h
    exact absurd h (by decide)
  simp [splitSign, h1, h2]

theorem splitSign_digits (ds rest : List Char) (hne : ds ≠ [])
    (hall : ∀ c ∈ ds, isDigit c = true) : splitSign (ds ++ rest) = (false, ds ++ rest) := by
  cases ds with
  | nil => exact absurd rfl hne
  | cons c cs => exact splitSign_digit c (cs ++ rest) (hall c (List.mem_cons_self _ _))

theorem ParseInt_toDigits (n : Nat) (hn : n < 2 ^ 63) :
    ParseInt (String.mk (Nat.toDigits 10 n)) = some (n : Int) := by
  obtain ⟨hall, hval, hne⟩ := toDigits_spec n
  have hs := splitSign_digits (Nat.toDigits 10 n) [] hne hall
  rw [List.append_nil] at hs
  have hall2 : (Nat.toDigits 10 n).all isDigit = true := List.all_eq_true.2 hall
  unfold ParseInt
  simp only [hs, hall2, hne, hval, Bool.true_eq_false, or_self, if_false, Bool.false_eq_true]
  rw [if_pos (by omega)]

theorem parseDecimal_tenths (n : Nat) :
    parseDecimal (Nat.toDigits 10 n ++ ['.', '0'])
      = some { neg := false, mant := n * 10, exp10 := -1 } := by
  obtain ⟨hall, hval, hne⟩ := toDigits_spec n
  have hs := splitSign_digits (Nat.toDigits 10 n) ['.', '0'] hne hall
  have ht : List.takeWhile isDigit (Nat.toDigits 10 n ++ ['.', '0']) = Nat.toDigits 10 n := by
    rw [List.takeWhile_append_of_pos hall]
    have : List.takeWhile isDigit ['.', '0'] = [] := by decide
    rw [this, List.append_nil]
  have hd : List.dropWhile isDigit (Nat.toDigits 10 n ++ ['.', '0']) = ['.', '0'] := by
    rw [List.dropWhile_append_of_pos hall]
    decide
  have hf1 : List.takeWhile isDigit ['0'] = ['0'] := by decide
  have hf2 : List.dropWhile isDigit ['0'] = [] := by decide
  have hv : digitsVal 0 (Nat.toDigits 10 n ++ ['0']) = n * 10 := by
    rw [digitsVal_append, hval]
    rfl
  unfold parseDecimal
  simp only [hs, ht, hd, if_true, hf1, hf2, hne, false_and, if_false, parseExponent, hv]
  rfl

theorem ParseFloat_tenths (rt : GoRuntime) (n : Nat) :
    ParseFloat rt (String.mk (Nat.toDigits 10 n ++ ['.', '0']))
      = roundToFloat64 false (n * 10) (10 ^ 1) := by
  unfold ParseFloat
  simp only [parseDecimal_tenths]
  rfl

theorem digits_no_dot (n : Nat) : '.' ∉ Nat.toDigits 10 n := by
  intro h
  exact absurd ((toDigits_spec n).1 '.' h) (by decide)

theorem String_mk_ne_empty (l : List Char) (h : l ≠ []) : String.mk l ≠ "" := by
  intro e
  exact h (congrArg String.data e)

/-! ## Identity coercion -/

/-- Counterexample to C9 as stated: 2^53 + 1 is not a float64, so its rendering with a
trailing ".0" is read as 2^53, while the integer and the plain numeric string keep their
value. -/
theorem toMMSI_encodings_counterexample :
    toMMSI testRuntime (.str "9007199254740993.0") = "9007199254740992" ∧
    toMMSI testRuntime (.number "9007199254740993") = "9007199254740993" ∧
    toMMSI testRuntime (.int 9007199254740993) = "9007199254740993" ∧
    toMMSI testRuntime (.str "9007199254740993") = "9007199254740993" := by
  decide

/-- C9 (amended): for every non-negative integer `n` below 2^63, `toMMSI` returns the decimal
rendering of `n` for the integer `n` itself (`int` or `json.Number`) and for the numeric
string of `n`; for `n` up to 2^53 it returns the same string for the rendering of `n` with a
trailing ".0". -/
theorem toMMSI_encodings_agree (rt : GoRuntime) (n : Nat) (hn : n < 2 ^ 63) :
    toMMSI rt (.int n) = Nat.repr n ∧
    toMMSI rt (.number (Nat.repr n)) = Nat.repr n ∧
    toMMSI rt (.str (Nat.repr n)) = Nat.repr n ∧
    (n ≤ 2 ^ 53 → toMMSI rt (.str (Nat.repr n ++ ".0")) = Nat.repr n) := by
  obtain ⟨hall, hval, hne⟩ := toDigits_spec n
  have hrepr : Nat.repr n = String.mk (Nat.toDigits 10 n) := rfl
  have hnospace : ∀ c ∈ Nat.toDigits 10 n, isSpace c = false :=
    fun c hc => isSpace_of_isDigit c (hall c hc)
  refine ⟨?_, ?_, ?_, ?_⟩
  · rw [hrepr]
    exact FormatInt_nat n
  · rw [hrepr]
    unfold toMMSI
    simp only [ParseInt_toDigits n hn]
    exact FormatInt_nat n
  · rw [hrepr]
    unfold toMMSI
    simp only [TrimSpace_of_no_space _ hnospace, String_mk_ne_empty _ hne, if_false]
    have hdot : containsDot (String.mk (Nat.toDigits 10 n)) = false := by
      unfold containsDot
      exact decide_eq_false (digits_no_dot n)
    simp only [hdot, Bool.false_eq_true, if_false]
  · intro hle
    rcases Nat.eq_or_lt_of_le hle with h53 | h53
    · rw [h53]
      rfl
    have hdata : Nat.repr n ++ ".0" = String.mk (Nat.toDigits 10 n ++ ['.', '0']) := rfl
    have hnospace2 : ∀ c ∈ Nat.toDigits 10 n ++ ['.', '0'], isSpace c = false := by
      intro c hc
      have htail : ∀ c ∈ ['.', '0'], isSpace c = false := by decide
      rcases List.mem_append.1 hc with h | h
      · exact hnospace c h
      · exact htail c h
    have hne2 : Nat.toDigits 10 n ++ ['.', '0'] ≠ [] := by simp
    have hdot : containsDot (String.mk (Nat.toDigits 10 n ++ ['.', '0'])) = true := by
      unfold containsDot
      exact decide_eq_true (List.mem_append_right _ (List.mem_cons_self _ _))
    obtain ⟨f, hf, hconv⟩ := round_tenths_exact rt n h53
    rw [hdata, hrepr]
    unfold toMMSI
    simp only [TrimSpace_of_no_space _ hnospace2, String_mk_ne_empty _ hne2, if_false, hdot,
      if_true, ParseFloat_tenths, hf, hconv]
    exact FormatInt_nat n

/-- Witness of C9 (amended): the identity 230124000 of the tests in its four encodings. -/
theorem toMMSI_encodings_agree_witness :
    (230124000 : Nat) < 2 ^ 63 ∧
    toMMSI testRuntime (.int 230124000) = "230124000" ∧
    toMMSI testRuntime (.number "230124000") = "230124000" ∧
    toMMSI testRuntime (.str "230124000") = "230124000" ∧
    toMMSI testRuntime (.str "230124000.0") = "230124000" :=
  ⟨by decide,
   (toMMSI_encodings_agree testRuntime 230124000 (by decide)).1,
   (toMMSI_encodings_agree testRuntime 230124000 (by decide)).2.1,
   (toMMSI_encodings_agree testRuntime 230124000 (by decide)).2.2.1,
   (toMMSI_encodings_agree testRuntime 230124000 (by decide)).2.2.2 (by decide)⟩

/-- Counterexample to C10 as stated: the non-numeric string "abc" is returned unchanged, a
non-empty identity that is not a string of digits. -/
theorem toMMSI_absent_counterexample :
    toMMSI testRuntime (.str "abc") = "abc" ∧
    toMMSI testRuntime (.str "abc") ≠ "" ∧
    ¬ (∀ c ∈ (toMMSI testRuntime (.str "abc")).data, isDigit c = true) := by
  decide

/-- C10 (amended): `toMMSI` returns the empty string for every empty or whitespace-only
string and for every value of an unsupported type (bool, null, object, array); a string that
is not blank gives a non-empty identity, and when it has no decimal point that identity is
the trimmed string itself, numeric or not. -/
theorem toMMSI_absent (rt : GoRuntime) :
    (∀ s : String, (∀ c ∈ s.data, isSpace c = true) → toMMSI rt (.str s) = "") ∧
    toMMSI rt .null = "" ∧
    (∀ b : Bool, toMMSI rt (.bool b) = "") ∧
    (∀ items : List Any, toMMSI rt (.arr items) = "") ∧
    (∀ fields : List (String × Any), toMMSI rt (.obj fields) = "") ∧
    (∀ s : String, TrimSpace s ≠ "" → containsDot (TrimSpace s) = false →
      toMMSI rt (.str s) = TrimSpace s) ∧
    (∀ s : String, TrimSpace s ≠ "" → toMMSI rt (.str s) ≠ "") := by
  refine ⟨?_, rfl, fun _ => rfl, fun _ => rfl, fun _ => rfl, ?_, ?_⟩
  · intro s hs
    unfold toMMSI
    simp only [TrimSpace_blank s hs, if_true]
  · intro s hs hdot
    unfold toMMSI
    simp only [hs, if_false, hdot, Bool.false_eq_true]
  · intro s hs
    unfold toMMSI
    simp only [hs, if_false]
    split
    · split
      · exact FormatInt_ne_empty _
      · exact hs
    · exact hs

/-- Witness of C10 (amended): a string of blanks is absent, and " ab1 " gives "ab1". -/
theorem toMMSI_absent_witness :
    toMMSI testRuntime (.str "   ") = "" ∧ toMMSI testRuntime (.str " ab1 ") = "ab1" ∧
    toMMSI testRuntime (.str " 12.5 ") ≠ "" :=
  ⟨(toMMSI_absent testRuntime).1 "   " (by decide),
   (toMMSI_absent testRuntime).2.2.2.2.2.1 " ab1 " (by decide) (by decide),
   (toMMSI_absent testRuntime).2.2.2.2.2.2 " 12.5 " (by decide)⟩

/-! ## Timestamp coercion -/

theorem normalizeTimestamp_millis (t : Int) (h1 : 1000000000 < t) (h2 : t ≤ 1000000000000) :
    normalizeTimestamp (t * 1000) = t := by
  unfold normalizeTimestamp
  rw [if_neg (by omega), if_pos (by omega)]
  exact Int.mul_tdiv_cancel t (by decide)

theorem normalizeTimestamp_micros (t : Int) (h1 : 1000000000 < t) :
    normalizeTimestamp (t * 1000000) = t := by
  unfold normalizeTimestamp
  rw [if_pos (by omega)]
  exact Int.mul_tdiv_cancel t (by decide)

/-- Counterexample to C11 as stated: one second in milliseconds, the integer 1000, stays
1000, and one second in microseconds stays 1000000; neither is taken back to 1, because both
lie below the thresholds of the magnitude heuristic. -/
theorem toTimestamp_units_counterexample :
    (0 : Int) ≤ 1 ∧ (1 : Int) * 1000000 < 2 ^ 63 ∧
    toTimestamp testRuntime (.int (1 * 1000)) = 1000 ∧
    toTimestamp testRuntime (.int (1 * 1000)) ≠ 1 ∧
    toTimestamp testRuntime (.int (1 * 1000000)) = 1000000 ∧
    toTimestamp testRuntime (.int (1 * 1000000)) ≠ 1 := by
  decide

/-- C11 (amended): for every timestamp `t` in seconds above 10^9, `toTimestamp` applied to the
integer `t * 1000` (as `int`, `int64` or `json.Number`) returns `t` when `t` is at most
10^12, and applied to the integer `t * 1000000` it returns `t` when that product is
representable as an `int64`. -/
theorem toTimestamp_units (rt : GoRuntime) (t : Nat) (ht : 1000000000 < t) :
    (t ≤ 1000000000000 →
      toTimestamp rt (.int ((t : Int) * 1000)) = t ∧
      toTimestamp rt (.int64 ((t : Int) * 1000)) = t ∧
      toTimestamp rt (.number (Nat.repr (t * 1000))) = t) ∧
    (t * 1000000 < 2 ^ 63 →
      toTimestamp rt (.int ((t : Int) * 1000000)) = t ∧
      toTimestamp rt (.int64 ((t : Int) * 1000000)) = t ∧
      toTimestamp rt (.number (Nat.repr (t * 1000000))) = t) := by
  have hrepr : ∀ n : Nat, Nat.repr n = String.mk (Nat.toDigits 10 n) := fun _ => rfl
  constructor
  · intro h2
    have hm := normalizeTimestamp_millis (t : Int) (by omega) (by omega)
    refine ⟨hm, hm, ?_⟩
    have hp := ParseInt_toDigits (t * 1000) (by omega)
    rw [hrepr]
    unfold toTimestamp
    simp only [hp, Nat.cast_mul, Nat.cast_ofNat]
    exact hm
  · intro h2
    have hm := normalizeTimestamp_micros (t : Int) (by omega)
    refine ⟨hm, hm, ?_⟩
    have hp := ParseInt_toDigits (t * 1000000) h2
    rw [hrepr]
    unfold toTimestamp
    simp only [hp, Nat.cast_mul, Nat.cast_ofNat]
    exact hm

/-- Witness of C11 (amended): 1700000000 seconds in milliseconds and in microseconds. -/
theorem toTimestamp_units_witness :
    toTimestamp testRuntime (.int 1700000000000) = 1700000000 ∧
    toTimestamp testRuntime (.number "1700000000000") = 1700000000 ∧
    toTimestamp testRuntime (.int 1700000000000000) = 1700000000 ∧
    toTimestamp testRuntime (.number "1700000000000000") = 1700000000 :=
  ⟨((toTimestamp_units testRuntime 1700000000 (by decide)).1 (by decide)).1,
   ((toTimestamp_units testRuntime 1700000000 (by decide)).1 (by decide)).2.2,
   ((toTimestamp_units testRuntime 1700000000 (by decide)).2 (by decide)).1,
   ((toTimestamp_units testRuntime 1700000000 (by decide)).2 (by decide)).2.2⟩

/-! ## The payload tree walker -/

theorem walkFields_eq_walkItems (fields : List (String × Any)) :
    walkFields fields = walkItems (fields.map Prod.snd) := by
  induction fields with
  | nil => simp [walkFields, walkItems]
  | cons kv rest ih =>
    obtain ⟨k, c⟩ := kv
    simp [walkFields, walkItems, ih]

theorem objectAt_cons (v : Any) (i : Nat) (p : List Nat) :
    objectAt v (i :: p) = objectAtList (children v) (i :: p) := by
  simp only [objectAt, objectAtList, nodeAt]
  cases (children v).get? i <;> rfl

theorem objectAtList_cons_zero (c : Any) (rest : List Any) (p : List Nat) :
    objectAtList (c :: rest) (0 :: p) = objectAt c p := by
  simp [objectAtList]

theorem objectAtList_cons_shift (c : Any) (rest : List Any) (p : List Nat) :
    objectAtList (c :: rest) (shiftPath p) = objectAtList rest p := by
  cases p with
  | nil => rfl
  | cons i q => simp [shiftPath, objectAtList]

theorem shiftPath_injective : Function.Injective shiftPath := by
  intro a b h
  cases a with
  | nil =>
    cases b with
    | nil => rfl
    | cons j q => simp [shiftPath] at h
  | cons i p =>
    cases b with
    | nil => simp [shiftPath] at h
    | cons j q =>
      simp only [shiftPath, List.cons.injEq] at h
      obtain ⟨h1, h2⟩ := h
      have : i = j := by omega
      rw [this, h2]

theorem prefix_shiftPath_iff (a b : List Nat) (ha : a ≠ []) :
    shiftPath a <+: shiftPath b ↔ a <+: b := by
  cases a with
  | nil => exact absurd rfl ha
  | cons i p =>
    cases b with
    | nil => simp [shiftPath]
    | cons j q => simp [shiftPath, List.cons_prefix_cons]

theorem WalkListSpec_nil : WalkListSpec [] [] := by
  refine ⟨List.nodup_nil, ?_, ?_, List.Pairwise.nil⟩
  · intro p
    cases p <;> simp [objectAtList]
  · simp [walkItems]

theorem WalkListSpec_cons (c : Any) (rest : List Any) (pc pr : List (List Nat))
    (hc : WalkSpec c pc) (hr : WalkListSpec rest pr) :
    WalkListSpec (c :: rest) (pc.map (List.cons 0) ++ pr.map shiftPath) := by
  obtain ⟨hc1, hc2, hc3, hc4⟩ := hc
  obtain ⟨hr1, hr2, hr3, hr4⟩ := hr
  have hrne : ∀ p ∈ pr, p ≠ [] := by
    intro p hp e
    rw [e] at hp
    have := (hr2 []).1 hp
    simp [objectAtList] at this
  refine ⟨?_, ?_, ?_, ?_⟩
  · rw [List.nodup_append]
    refine ⟨hc1.map (List.cons_injective), hr1.map shiftPath_injective, ?_⟩
    intro p hp1 hp2
    obtain ⟨a, _, rfl⟩ := List.mem_map.1 hp1
    obtain ⟨b, hb, hab⟩ := List.mem_map.1 hp2
    cases b with
    | nil => exact hrne [] hb rfl
    | cons j q => simp [shiftPath] at hab
  · intro p
    rw [List.mem_append]
    cases p with
    | nil =>
      simp only [objectAtList, Option.isSome_none, Bool.false_eq_true, iff_false, not_or]
      constructor
      · intro h
        obtain ⟨a, _, ha⟩ := List.mem_map.1 h
        cases ha
      · intro h
        obtain ⟨b, hb, hab⟩ := List.mem_map.1 h
        cases b with
        | nil => exact hrne [] hb rfl
        | cons j q => simp [shiftPath] at hab
    | cons i q =>
      cases i with
      | zero =>
        rw [objectAtList_cons_zero, ← hc2 q]
        constructor
        · rintro (h | h)
          · obtain ⟨a, ha, hae⟩ := List.mem_map.1 h
            cases hae
            exact ha
          · obtain ⟨b, hb, hab⟩ := List.mem_map.1 h
            cases b with
            | nil => exact absurd rfl (hrne [] hb)
            | cons j r => simp [shiftPath] at hab
        · intro h
          exact Or.inl (List.mem_map.2 ⟨q, h, rfl⟩)
      | succ j =>
        have hs : (j + 1) :: q = shiftPath (j :: q) := rfl
        rw [hs, objectAtList_cons_shift, ← hr2 (j :: q)]
        constructor
        · rintro (h | h)
          · obtain ⟨a, ha, hae⟩ := List.mem_map.1 h
            simp [shiftPath] at hae
          · obtain ⟨b, hb, hab⟩ := List.mem_map.1 h
            rw [← shiftPath_injective hab]
            exact hb
        · intro h
          exact Or.inr (List.mem_map.2 ⟨j :: q, h, rfl⟩)
  · rw [List.filterMap_append, List.filterMap_map, List.filterMap_map]
    have e1 : (objectAtList (c :: rest) ∘ List.cons 0) = objectAt c := by
      funext p
      exact objectAtList_cons_zero c rest p
    have e2 : (objectAtList (c :: rest) ∘ shiftPath) = objectAtList rest := by
      funext p
      exact objectAtList_cons_shift c rest p
    rw [e1, e2, ← hc3, ← hr3]
    rfl
  · rw [List.pairwise_append]
    refine ⟨?_, ?_, ?_⟩
    · rw [List.pairwise_map]
      exact hc4.imp (fun {a b} h => by simpa [List.cons_prefix_cons] using h)
    · rw [List.pairwise_map]
      refine hr4.imp_of_mem ?_
      intro a b _ hb h
      rw [prefix_shiftPath_iff b a (hrne b hb)]
      exact h
    · intro a ha b hb hpre
      obtain ⟨a', _, rfl⟩ := List.mem_map.1 ha
      obtain ⟨b', hb', rfl⟩ := List.mem_map.1 hb
      cases b' with
      | nil => exact hrne [] hb' rfl
      | cons j q => simp [shiftPath, List.cons_prefix_cons] at hpre

theorem WalkSpec_of_children (v : Any) (pc : List (List Nat))
    (h : WalkListSpec (children v) pc) :
    ∃ paths, WalkSpec v paths := by
  obtain ⟨h1, h2, h3, h4⟩ := h
  have hne : ∀ p ∈ pc, p ≠ [] := by
    intro p hp e
    rw [e] at hp
    have := (h2 []).1 hp
    simp [objectAtList] at this
  have hfm : pc.filterMap (objectAt v) = pc.filterMap (objectAtList (children v)) := by
    apply List.filterMap_congr
    intro p hp
    cases p with
    | nil => exact absurd rfl (hne [] hp)
    | cons i q => exact objectAt_cons v i q
  cases v with
  | obj fields =>
    refine ⟨[] :: pc, ?_, ?_, ?_, ?_⟩
    · exact List.nodup_cons.2 ⟨fun hm => hne [] hm rfl, h1⟩
    · intro p
      cases p with
      | nil => simp [objectAt, nodeAt]
      | cons i q =>
        rw [objectAt_cons, ← h2]
        simp
    · rw [List.filterMap_cons]
      have : objectAt (Any.obj fields) [] = some fields := rfl
      rw [this, hfm, ← h3]
      simp [walkJSON, walkFields_eq_walkItems, children]
    · refine List.pairwise_cons.2 ⟨?_, h4⟩
      intro b hb hpre
      exact hne b hb (List.prefix_nil.1 hpre)
  | arr items =>
    refine ⟨pc, h1, ?_, ?_, h4⟩
    · intro p
      cases p with
      | nil =>
        simp only [objectAt, nodeAt]
        constructor
        · intro hm
          exact absurd rfl (hne [] hm)
        · intro hs
          simp at hs
      | cons i q => rw [objectAt_cons, ← h2]
    · rw [hfm, ← h3]
      simp [walkJSON, children]
  | null => exact ⟨[], List.nodup_nil, fun p => by cases p <;> simp [objectAt, nodeAt, children], by simp [walkJSON], List.Pairwise.nil⟩
  | bool b => exact ⟨[], List.nodup_nil, fun p => by cases p <;> simp [objectAt, nodeAt, children], by simp [walkJSON], List.Pairwise.nil⟩
  | str s => exact ⟨[], List.nodup_nil, fun p => by cases p <;> simp [objectAt, nodeAt, children], by simp [walkJSON], List.Pairwise.nil⟩
  | number n => exact ⟨[], List.nodup_nil, fun p => by cases p <;> simp [objectAt, nodeAt, children], by simp [walkJSON], List.Pairwise.nil⟩
  | float64 f => exact ⟨[], List.nodup_nil, fun p => by cases p <;> simp [objectAt, nodeAt, children], by simp [walkJSON], List.Pairwise.nil⟩
  | float32 f => exact ⟨[], List.nodup_nil, fun p => by cases p <;> simp [objectAt, nodeAt, children], by simp [walkJSON], List.Pairwise.nil⟩
  | int i => exact ⟨[], List.nodup_nil, fun p => by cases p <;> simp [objectAt, nodeAt, children], by simp [walkJSON], List.Pairwise.nil⟩
  | int64 i => exact ⟨[], List.nodup_nil, fun p => by cases p <;> simp [objectAt, nodeAt, children], by simp [walkJSON], List.Pairwise.nil⟩
  | int32 i => exact ⟨[], List.nodup_nil, fun p => by cases p <;> simp [objectAt, nodeAt, children], by simp [walkJSON], List.Pairwise.nil⟩

mutual
theorem walkJSON_spec : ∀ v : Any, ∃ paths, WalkSpec v paths
  | .obj fields => by
    obtain ⟨pc, h⟩ := walkFields_spec fields
    exact WalkSpec_of_children (.obj fields) pc h
  | .arr items => by
    obtain ⟨pc, h⟩ := walkItems_spec items
    exact WalkSpec_of_children (.arr items) pc h
  | .null => WalkSpec_of_children .null [] WalkListSpec_nil
  | .bool b => WalkSpec_of_children (.bool b) [] WalkListSpec_nil
  | .str s => WalkSpec_of_children (.str s) [] WalkListSpec_nil
  | .number n => WalkSpec_of_children (.number n) [] WalkListSpec_nil
  | .float64 f => WalkSpec_of_children (.float64 f) [] WalkListSpec_nil
  | .float32 f => WalkSpec_of_children (.float32 f) [] WalkListSpec_nil
  | .int i => WalkSpec_of_children (.int i) [] WalkListSpec_nil
  | .int64 i => WalkSpec_of_children (.int64 i) [] WalkListSpec_nil
  | .int32 i => WalkSpec_of_children (.int32 i) [] WalkListSpec_nil
theorem walkItems_spec : ∀ cs : List Any, ∃ paths, WalkListSpec cs paths
  | [] => ⟨[], WalkListSpec_nil⟩
  | c :: rest => by
    obtain ⟨pc, hc⟩ := walkJSON_spec c
    obtain ⟨pr, hr⟩ := walkItems_spec rest
    exact ⟨_, WalkListSpec_cons c rest pc pr hc hr⟩
theorem walkFields_spec : ∀ fields : List (String × Any),
    ∃ paths, WalkListSpec (fields.map Prod.snd) paths
  | [] => ⟨[], WalkListSpec_nil⟩
  | (_, c) :: rest => by
    obtain ⟨pc, hc⟩ := walkJSON_spec c
    obtain ⟨pr, hr⟩ := walkFields_spec rest
    exact ⟨_, WalkListSpec_cons c (rest.map Prod.snd) pc pr hc hr⟩
end
theorem mem_walkJSON_iff (v : Any) (item : GoMap Any) :
    item ∈ walkJSON v ↔ ∃ p, objectAt v p = some item := by
  obtain ⟨paths, _, h2, h3, _⟩ := walkJSON_spec v
  rw [h3, List.mem_filterMap]
  constructor
  · rintro ⟨p, _, hp⟩
    exact ⟨p, hp⟩
  · rintro ⟨p, hp⟩
    refine ⟨p, (h2 p).2 ?_, hp⟩
    rw [hp]
    rfl

/-- C15: `walkJSON` is a total function (it terminates on every JSON value), and its visits
are given by a list of paths into the value that holds no path twice and holds exactly the
paths of the object nodes (the root if it is an object and every object reachable through
object fields and array elements): the visitor is invoked on the nodes at these paths, in
this order, and a path never comes after a path that extends it, so an object is visited
before the objects nested inside it. -/
theorem walkJSON_visits (v : Any) :
    ∃ paths : List (List Nat),
      paths.Nodup ∧
      (∀ p, p ∈ paths ↔ (objectAt v p).isSome = true) ∧
      walkJSON v = paths.filterMap (objectAt v) ∧
      paths.Pairwise (fun p q => ¬ q <+: p) := by
  obtain ⟨paths, h⟩ := walkJSON_spec v
  exact ⟨paths, h⟩

/-! ## The vessel metadata extractor -/

theorem GoMap.mem_keys_set {V : Type} (m : GoMap V) (k k' : String) (v : V) :
    k' ∈ (m.set k v).keys ↔ k' = k ∨ k' ∈ m.keys := by
  rw [GoMap.keys_set]
  split
  · rename_i h
    constructor
    · exact Or.inr
    · rintro (e | e)
      · exact e ▸ h
      · exact e
  · simp only [List.mem_append, List.mem_singleton]
    exact Or.comm

theorem TrimSpace_empty : TrimSpace "" = "" := rfl

theorem getString_ne_empty_iff (item : GoMap Any) (keys : List String) :
    getString item keys ≠ "" ↔
      ∃ key ∈ keys, ∃ s, item.get key = some (.str s) ∧ TrimSpace s ≠ "" := by
  induction keys with
  | nil => simp [getString]
  | cons key keys ih =>
    have skip : getString item keys ≠ "" →
        ∃ k ∈ key :: keys, ∃ s, item.get k = some (.str s) ∧ TrimSpace s ≠ "" := by
      intro h
      obtain ⟨k, hk, s, hs⟩ := ih.1 h
      exact ⟨k, List.mem_cons_of_mem _ hk, s, hs⟩
    have back : (∃ k ∈ key :: keys, ∃ s, item.get k = some (.str s) ∧ TrimSpace s ≠ "") →
        (∀ s, item.get key = some (.str s) → TrimSpace s = "") →
        getString item keys ≠ "" := by
      rintro ⟨k, hk, s, hs1, hs2⟩ hkey
      rcases List.mem_cons.1 hk with e | e
      · rw [e] at hs1
        exact absurd (hkey s hs1) hs2
      · exact ih.2 ⟨k, e, s, hs1, hs2⟩
    rcases hget : item.get key with _ | raw
    · have e : getString item (key :: keys) = getString item keys := by
        simp [getString, hget]
      rw [e]
      exact ⟨skip, fun h => back h (fun s hs => by rw [hget] at hs; cases hs)⟩
    · by_cases hstr : ∃ s, raw = .str s
      · obtain ⟨s, rfl⟩ := hstr
        by_cases ht : TrimSpace s ≠ ""
        · have e : getString item (key :: keys) = s := by
            simp [getString, hget, ht]
          rw [e]
          constructor
          · intro _
            exact ⟨key, List.mem_cons_self _ _, s, hget, ht⟩
          · intro _ hs
            rw [hs] at ht
            exact ht TrimSpace_empty
        · have e : getString item (key :: keys) = getString item keys := by
            simp [getString, hget, ht]
          rw [e]
          refine ⟨skip, fun h => back h ?_⟩
          intro s' hs'
          rw [hget] at hs'
          cases hs'
          exact not_not.1 ht
      · have e : getString item (key :: keys) = getString item keys := by
          cases raw with
          | str s0 => exact absurd ⟨s0, rfl⟩ hstr
          | _ => simp [getString, hget]
        rw [e]
        refine ⟨skip, fun h => back h ?_⟩
        intro s' hs'
        rw [hget] at hs'
        cases hs'
        exact absurd ⟨s', rfl⟩ hstr

theorem getMMSI_single_eq_iff (rt : GoRuntime) (item : GoMap Any) (key k : String)
    (hk : k ≠ "") :
    getMMSI rt item [key] = k ↔ ∃ raw, item.get key = some raw ∧ toMMSI rt raw = k := by
  rcases hget : item.get key with _ | raw
  · have e : getMMSI rt item [key] = "" := by simp [getMMSI, hget]
    rw [e]
    constructor
    · intro h
      exact absurd h.symm hk
    · rintro ⟨raw, h, _⟩
      cases h
  · have e : getMMSI rt item [key] = toMMSI rt raw := by
      by_cases hnull : toMMSI rt raw = ""
      · cases raw <;> simp [getMMSI, hget, hnull]
      · cases raw <;> first | exact absurd rfl hnull | simp [getMMSI, hget, hnull]
    rw [e]
    constructor
    · intro h
      exact ⟨raw, rfl, h⟩
    · rintro ⟨raw', h, h2⟩
      cases h
      exact h2

theorem metadataVisit_WF (rt : GoRuntime) (m : GoMap VesselMetadata) (item : GoMap Any)
    (h : MetaWF m) : MetaWF (metadataVisit rt m item) := by
  unfold metadataVisit
  dsimp only
  split
  · exact h
  · rename_i hm
    split
    · exact h
    · refine ⟨GoMap.nodup_keys_set m _ _ h.1, ?_⟩
      intro kv hkv
      rcases GoMap.mem_set m _ _ hkv with e | e
      · rw [e]
        exact ⟨rfl, hm, rfl⟩
      · exact h.2 kv e

theorem metadataVisit_keys (rt : GoRuntime) (m : GoMap VesselMetadata) (item : GoMap Any)
    (k : String) :
    k ∈ (metadataVisit rt m item).keys ↔
      k ∈ m.keys ∨ (getMMSI rt item ["mmsi"] = k ∧ k ≠ "" ∧
        getString item ["name", "vesselName"] ≠ "") := by
  unfold metadataVisit
  dsimp only
  split
  · rename_i hm
    constructor
    · exact Or.inl
    · rintro (h | ⟨h1, h2, _⟩)
      · exact h
      · exact absurd (h1 ▸ hm) h2
  · rename_i hm
    split
    · rename_i hn
      constructor
      · exact Or.inl
      · rintro (h | ⟨_, _, h3⟩)
        · exact h
        · exact absurd hn h3
    · rename_i hn
      rw [GoMap.mem_keys_set]
      constructor
      · rintro (h | h)
        · exact Or.inr ⟨h.symm, h ▸ hm, hn⟩
        · exact Or.inl h
      · rintro (h | ⟨h1, _, _⟩)
        · exact Or.inr h
        · exact Or.inl h1.symm

theorem foldl_metadataVisit_WF (rt : GoRuntime) (items : List (GoMap Any))
    (m : GoMap VesselMetadata) (h : MetaWF m) :
    MetaWF (items.foldl (metadataVisit rt) m) := by
  induction items generalizing m with
  | nil => exact h
  | cons item rest ih => exact ih _ (metadataVisit_WF rt m item h)

theorem foldl_metadataVisit_keys (rt : GoRuntime) (items : List (GoMap Any))
    (m : GoMap VesselMetadata) (k : String) :
    k ∈ (items.foldl (metadataVisit rt) m).keys ↔
      k ∈ m.keys ∨ ∃ item ∈ items, getMMSI rt item ["mmsi"] = k ∧ k ≠ "" ∧
        getString item ["name", "vesselName"] ≠ "" := by
  induction items generalizing m with
  | nil => simp
  | cons item rest ih =>
    rw [List.foldl_cons, ih, metadataVisit_keys]
    constructor
    · rintro ((h | h) | ⟨it, hit, h⟩)
      · exact Or.inl h
      · exact Or.inr ⟨item, List.mem_cons_self _ _, h⟩
      · exact Or.inr ⟨it, List.mem_cons_of_mem _ hit, h⟩
    · rintro (h | ⟨it, hit, h⟩)
      · exact Or.inl (Or.inl h)
      · rcases List.mem_cons.1 hit with e | e
        · exact Or.inl (Or.inr (e ▸ h))
        · exact Or.inr ⟨it, e, h⟩

theorem MetaWF_nil : MetaWF [] :=
  ⟨List.nodup_nil, fun _ h => by cases h⟩

theorem Extract_MMSI_eq_keys (rt : GoRuntime) (payload : Any) :
    (ExtractVesselMetadata rt payload).map VesselMetadata.MMSI
      = ((walkJSON payload).foldl (metadataVisit rt) []).keys := by
  have wf := foldl_metadataVisit_WF rt (walkJSON payload) [] MetaWF_nil
  unfold ExtractVesselMetadata GoMap.values GoMap.keys
  rw [List.map_map]
  exact List.map_congr_left (fun kv hkv => (wf.2 kv hkv).1)

/-- C12: `ExtractVesselMetadata` returns at most one record per identity: the MMSIs of the
returned records are pairwise distinct and never empty, and an identity `m` occurs among
them exactly when some object node of the payload has an `mmsi` field that `toMMSI` maps to
`m` and a non-blank string under `name` or `vesselName`. -/
theorem extract_metadata_identities (rt : GoRuntime) (payload : Any) :
    ((ExtractVesselMetadata rt payload).map VesselMetadata.MMSI).Nodup ∧
    "" ∉ (ExtractVesselMetadata rt payload).map VesselMetadata.MMSI ∧
    ∀ m : String, m ≠ "" →
      (m ∈ (ExtractVesselMetadata rt payload).map VesselMetadata.MMSI ↔
        ∃ (p : List Nat) (item : GoMap Any), objectAt payload p = some item ∧
          (∃ raw, item.get "mmsi" = some raw ∧ toMMSI rt raw = m) ∧
          ∃ s, (item.get "name" = some (.str s) ∨ item.get "vesselName" = some (.str s)) ∧
            TrimSpace s ≠ "") := by
  have wf := foldl_metadataVisit_WF rt (walkJSON payload) [] MetaWF_nil
  rw [Extract_MMSI_eq_keys]
  refine ⟨wf.1, ?_, ?_⟩
  · intro h
    obtain ⟨kv, hkv, hk⟩ := List.mem_map.1 h
    exact (wf.2 kv hkv).2.1 hk
  · intro m hm
    rw [foldl_metadataVisit_keys]
    constructor
    · rintro (h | ⟨item, hitem, h1, _, h3⟩)
      · cases h
      · obtain ⟨p, hp⟩ := (mem_walkJSON_iff payload item).1 hitem
        obtain ⟨key, hkey, s, hs1, hs2⟩ := (getString_ne_empty_iff item _).1 h3
        refine ⟨p, item, hp, (getMMSI_single_eq_iff rt item "mmsi" m hm).1 h1, s, ?_, hs2⟩
        simp only [List.mem_cons, List.mem_singleton, List.not_mem_nil, or_false] at hkey
        rcases hkey with e | e
        · exact Or.inl (e ▸ hs1)
        · exact Or.inr (e ▸ hs1)
    · rintro ⟨p, item, hp, hraw, s, hs1, hs2⟩
      refine Or.inr ⟨item, (mem_walkJSON_iff payload item).2 ⟨p, hp⟩,
        (getMMSI_single_eq_iff rt item "mmsi" m hm).2 hraw, hm, ?_⟩
      rw [getString_ne_empty_iff]
      rcases hs1 with e | e
      · exact ⟨"name", by simp, s, e, hs2⟩
      · exact ⟨"vesselName", by simp, s, e, hs2⟩

/-- Witness of C12: the two vessel objects of `TestExtractVesselMetadata` have distinct
identities and give exactly two records. -/
theorem extract_metadata_identities_witness :
    (ExtractVesselMetadata testRuntime testVesselsPayload).map VesselMetadata.MMSI
      = ["230124000", "230123000"] ∧
    ("230124000" ∈ (ExtractVesselMetadata testRuntime testVesselsPayload).map
        VesselMetadata.MMSI ↔
      ∃ (p : List Nat) (item : GoMap Any), objectAt testVesselsPayload p = some item ∧
        (∃ raw, item.get "mmsi" = some raw ∧ toMMSI testRuntime raw = "230124000") ∧
        ∃ s, (item.get "name" = some (.str s) ∨ item.get "vesselName" = some (.str s)) ∧
          TrimSpace s ≠ "") :=
  ⟨by decide,
   (extract_metadata_identities testRuntime testVesselsPayload).2.2 "230124000" (by decide)⟩

theorem byteLen_ge_length (s : String) : s.data.length ≤ byteLen s := by
  unfold byteLen
  induction s.data with
  | nil => simp
  | cons c cs ih =>
    have := Char.utf8Size_pos c
    simp only [List.map_cons, List.sum_cons, List.length_cons]
    omega

theorem inferCountry_table (m : String) :
    (String.mk (m.data.take 3) = "230" → inferCountry m = "FI") ∧
    (String.mk (m.data.take 3) = "265" ∨ String.mk (m.data.take 3) = "266" →
      inferCountry m = "SE") ∧
    (String.mk (m.data.take 3) = "257" ∨ String.mk (m.data.take 3) = "258" ∨
      String.mk (m.data.take 3) = "259" → inferCountry m = "NO") ∧
    (String.mk (m.data.take 3) = "219" ∨ String.mk (m.data.take 3) = "220" →
      inferCountry m = "DK") ∧
    (String.mk (m.data.take 3) ∉ ["230", "265", "266", "257", "258", "259", "219", "220"] →
      inferCountry m = "Unknown") ∧
    (m.length < 3 → inferCountry m = "Unknown") := by
  have hlen : ∀ t : String, t.length = 3 → String.mk (m.data.take 3) = t → byteLen m ≥ 3 := by
    intro t ht he
    have h1 : (m.data.take 3).length = 3 := by
      have := congrArg String.length he
      rw [ht] at this
      exact this
    have h2 := byteLen_ge_length m
    rw [List.length_take] at h1
    omega
  have hother : String.mk (m.data.take 3) ∉
      ["230", "265", "266", "257", "258", "259", "219", "220"] → inferCountry m = "Unknown" := by
    intro h
    simp only [List.mem_cons, List.mem_singleton, List.not_mem_nil, or_false, not_or] at h
    obtain ⟨h1, h2, h3, h4, h5, h6, h7, h8⟩ := h
    unfold inferCountry
    split
    · simp only [h1, h2, h3, h4, h5, h6, h7, h8, or_self, if_false]
    · rfl
  refine ⟨?_, ?_, ?_, ?_, hother, ?_⟩
  · intro h
    have hb := hlen "230" rfl h
    unfold inferCountry
    rw [if_pos hb]
    simp only [h, if_true]
  · intro h
    have hb : byteLen m ≥ 3 := by
      rcases h with h | h
      · exact hlen "265" rfl h
      · exact hlen "266" rfl h
    unfold inferCountry
    rw [if_pos hb]
    rcases h with h | h <;> simp only [h] <;> decide
  · intro h
    have hb : byteLen m ≥ 3 := by
      rcases h with h | h | h
      · exact hlen "257" rfl h
      · exact hlen "258" rfl h
      · exact hlen "259" rfl h
    unfold inferCountry
    rw [if_pos hb]
    rcases h with h | h | h <;> simp only [h] <;> decide
  · intro h
    have hb : byteLen m ≥ 3 := by
      rcases h with h | h
      · exact hlen "219" rfl h
      · exact hlen "220" rfl h
    unfold inferCountry
    rw [if_pos hb]
    rcases h with h | h <;> simp only [h] <;> decide
  · intro h
    apply hother
    intro hmem
    have h3 : (String.mk (m.data.take 3)).length = 3 := by
      simp only [List.mem_cons, List.mem_singleton, List.not_mem_nil, or_false] at hmem
      rcases hmem with e | e | e | e | e | e | e | e <;> rw [e] <;> rfl
    have h4 : (String.mk (m.data.take 3)).length = (m.data.take 3).length := rfl
    have h5 : m.length = m.data.length := rfl
    rw [h4, List.length_take] at h3
    omega

/-- C13: for every record returned by `ExtractVesselMetadata` the country is determined by
the first three characters of its MMSI through the fixed table: "230" gives "FI", "265" or
"266" gives "SE", "257", "258" or "259" gives "NO", "219" or "220" gives "DK", and any other
prefix, or an MMSI shorter than three characters, gives "Unknown". -/
theorem extract_metadata_country (rt : GoRuntime) (payload : Any) (r : VesselMetadata)
    (hr : r ∈ ExtractVesselMetadata rt payload) :
    (String.mk (r.MMSI.data.take 3) = "230" → r.Country = "FI") ∧
    (String.mk (r.MMSI.data.take 3) = "265" ∨ String.mk (r.MMSI.data.take 3) = "266" →
      r.Country = "SE") ∧
    (String.mk (r.MMSI.data.take 3) = "257" ∨ String.mk (r.MMSI.data.take 3) = "258" ∨
      String.mk (r.MMSI.data.take 3) = "259" → r.Country = "NO") ∧
    (String.mk (r.MMSI.data.take 3) = "219" ∨ String.mk (r.MMSI.data.take 3) = "220" →
      r.Country = "DK") ∧
    (String.mk (r.MMSI.data.take 3) ∉
        ["230", "265", "266", "257", "258", "259", "219", "220"] →
      r.Country = "Unknown") ∧
    (r.MMSI.length < 3 → r.Country = "Unknown") := by
  have wf := foldl_metadataVisit_WF rt (walkJSON payload) [] MetaWF_nil
  obtain ⟨kv, hkv, rfl⟩ := List.mem_map.1 hr
  obtain ⟨h1, _, h3⟩ := wf.2 kv hkv
  rw [h3, h1]
  exact inferCountry_table kv.1

/-- Witness of C13: the records of `TestExtractVesselMetadata` carry the country "FI" of the
prefix 230. -/
theorem extract_metadata_country_witness :
    (ExtractVesselMetadata testRuntime testVesselsPayload).map (fun r => (r.MMSI, r.Country))
      = [("230124000", "FI"), ("230123000", "FI")] ∧
    VesselMetadata.Country { MMSI := "230124000", Name := "Otso", Country := "FI" } = "FI" :=
  ⟨by decide,
   (extract_metadata_country testRuntime testVesselsPayload
      { MMSI := "230124000", Name := "Otso", Country := "FI" } (by decide)).1 (by decide)⟩

/-! ## The allow-list of the configuration -/

theorem mem_setAdd (out : List String) (k n : String) :
    n ∈ setAdd out k ↔ n = k ∨ n ∈ out := by
  unfold setAdd
  split
  · rename_i h
    constructor
    · exact Or.inr
    · rintro (e | e)
      · exact e ▸ h
      · exact e
  · simp only [List.mem_append, List.mem_singleton]
    exact Or.comm

theorem nodup_setAdd (out : List String) (k : String) (h : out.Nodup) :
    (setAdd out k).Nodup := by
  unfold setAdd
  split
  · exact h
  · rename_i hk
    exact List.Nodup.append h (List.nodup_singleton k) (by simpa using hk)

theorem foldl_targets_mem (rt : GoRuntime) (items : List String) (out : List String)
    (n : String) :
    n ∈ items.foldl
        (fun out item =>
          if NormalizeName rt item = "" then out else setAdd out (NormalizeName rt item)) out
      ↔ n ∈ out ∨ (n ≠ "" ∧ ∃ item ∈ items, n = NormalizeName rt item) := by
  induction items generalizing out with
  | nil => simp
  | cons item rest ih =>
    rw [List.foldl_cons, ih]
    by_cases hn : NormalizeName rt item = ""
    · rw [if_pos hn]
      constructor
      · rintro (h | ⟨h1, it, hit, h2⟩)
        · exact Or.inl h
        · exact Or.inr ⟨h1, it, List.mem_cons_of_mem _ hit, h2⟩
      · rintro (h | ⟨h1, it, hit, h2⟩)
        · exact Or.inl h
        · rcases List.mem_cons.1 hit with e | e
          · rw [e] at h2
            exact absurd (h2.trans hn) h1
          · exact Or.inr ⟨h1, it, e, h2⟩
    · rw [if_neg hn, mem_setAdd]
      constructor
      · rintro ((h | h) | ⟨h1, it, hit, h2⟩)
        · exact Or.inr ⟨h ▸ hn, item, List.mem_cons_self _ _, h⟩
        · exact Or.inl h
        · exact Or.inr ⟨h1, it, List.mem_cons_of_mem _ hit, h2⟩
      · rintro (h | ⟨h1, it, hit, h2⟩)
        · exact Or.inl (Or.inr h)
        · rcases List.mem_cons.1 hit with e | e
          · exact Or.inl (Or.inl (e ▸ h2))
          · exact Or.inr ⟨h1, it, e, h2⟩

theorem foldl_targets_nodup (rt : GoRuntime) (items : List String) (out : List String)
    (h : out.Nodup) :
    (items.foldl
        (fun out item =>
          if NormalizeName rt item = "" then out else setAdd out (NormalizeName rt item))
        out).Nodup := by
  induction items generalizing out with
  | nil => exact h
  | cons item rest ih =>
    rw [List.foldl_cons]
    apply ih
    split
    · exact h
    · exact nodup_setAdd out _ h

/-- C16: `ParseTargetNames(s)` is exactly the set of the non-empty normalized items of `s`:
its keys are pairwise distinct, and a name `n` is a key if and only if `n` is not empty and
is `NormalizeName(item)` for some item of `s` split on commas; the empty string gives the
empty set and " Otso, KONTIO , urho " gives the set of OTSO, KONTIO and URHO. -/
theorem parseTargetNames_spec (rt : GoRuntime) :
    (∀ s n : String, n ∈ ParseTargetNames rt s ↔
      n ≠ "" ∧ ∃ item ∈ Split s, n = NormalizeName rt item) ∧
    (∀ s : String, (ParseTargetNames rt s).Nodup) ∧
    ParseTargetNames rt "" = [] ∧
    ParseTargetNames rt " Otso, KONTIO , urho " = ["OTSO", "KONTIO", "URHO"] := by
  refine ⟨?_, ?_, rfl, rfl⟩
  · intro s n
    unfold ParseTargetNames
    rw [foldl_targets_mem]
    simp
  · intro s
    exact foldl_targets_nodup rt (Split s) [] List.nodup_nil

/-- Witness of C16: the blank item of "OTSO,,KONTIO" is dropped, and KONTIO is a key as the
normalized form of the item " kontio". -/
theorem parseTargetNames_spec_witness :
    ParseTargetNames testRuntime "OTSO,,KONTIO" = ["OTSO", "KONTIO"] ∧
    "KONTIO" ∈ ParseTargetNames testRuntime "otso, kontio" :=
  ⟨by decide,
   ((parseTargetNames_spec testRuntime).1 "otso, kontio" "KONTIO").2
     ⟨by decide, " kontio", by decide, by decide⟩⟩

/-! ## The snapshot cache and its readers -/

theorem String_append_ne_empty (a b : String) (h : a ≠ "") : a ++ b ≠ "" := by
  intro e
  have h1 : (a ++ b).data = a.data ++ b.data := String.data_append a b
  have h2 : (a ++ b).data = [] := congrArg String.data e
  rw [h1] at h2
  have h3 : a.data = [] := (List.append_eq_nil.1 h2).1
  apply h
  cases a
  simp only at h3
  rw [h3]

theorem fetchPositions_error_ne_empty (rt : GoRuntime)
    (vesselsFetch locationsFetch : Except String Any) (targets : List String) (err : String)
    (h : fetchPositions rt vesselsFetch locationsFetch targets = .error err) : err ≠ "" := by
  unfold fetchPositions at h
  cases vesselsFetch with
  | error e =>
    simp only [Except.error.injEq] at h
    rw [← h]
    exact String_append_ne_empty _ _ (by decide)
  | ok vp =>
    cases locationsFetch with
    | error e =>
      simp only [Except.error.injEq] at h
      rw [← h]
      exact String_append_ne_empty _ _ (by decide)
    | ok lp =>
      simp only at h
      split at h
      · simp only [Except.error.injEq] at h
        rw [← h]
        decide
      · cases h

/-- C18: `Refresh` as a transition on the snapshot.  After a failing refresh (the outcome of
`fetchPositions` is an error) the position list is the one of the previous snapshot, the
error field is not empty and the refresh instant is the time of the failing attempt; after a
successful refresh the position list is the new result, the error field is empty and the
refresh instant is the time of the attempt. -/
theorem refresh_transition (rt : GoRuntime) (vesselsFetch locationsFetch : Except String Any)
    (targets : List String) (previous : Snapshot) (now duration : Int) :
    (∀ err, fetchPositions rt vesselsFetch locationsFetch targets = .error err →
      (Refresh previous (.error err) now duration).Positions = previous.Positions ∧
      (Refresh previous (.error err) now duration).LastRefreshError ≠ "" ∧
      (Refresh previous (.error err) now duration).LastRefresh = now) ∧
    (∀ positions, fetchPositions rt vesselsFetch locationsFetch targets = .ok positions →
      (Refresh previous (.ok positions) now duration).Positions = positions ∧
      (Refresh previous (.ok positions) now duration).LastRefreshError = "" ∧
      (Refresh previous (.ok positions) now duration).LastRefresh = now) := by
  constructor
  · intro err h
    exact ⟨rfl, fetchPositions_error_ne_empty rt vesselsFetch locationsFetch targets err h, rfl⟩
  · intro positions _
    exact ⟨rfl, rfl, rfl⟩

/-- Witness of C18: a successful refresh from the test payloads at time 5, then a failing
one (the vessels fetch fails) at time 9: the Otso position is kept, the error is recorded and
the refresh instant is 9. -/
theorem refresh_transition_witness :
    (Refresh
        (Refresh zeroSnapshot
          (fetchPositions testRuntime (.ok testVesselsPayload) (.ok testLocationsPayload)
            ["OTSO"]) 5 1)
        (fetchPositions testRuntime (.error "timeout") (.ok testLocationsPayload) ["OTSO"])
        9 1).Positions.map IcebreakerPosition.MMSI = ["230124000"] ∧
    (Refresh zeroSnapshot (.error "fetch vessels: timeout") 9 1).Positions
      = zeroSnapshot.Positions ∧
    (Refresh zeroSnapshot (.error "fetch vessels: timeout") 9 1).LastRefreshError ≠ "" ∧
    (Refresh zeroSnapshot (.error "fetch vessels: timeout") 9 1).LastRefresh = 9 :=
  ⟨by decide,
   (refresh_transition testRuntime (.error "timeout") (.ok testLocationsPayload) ["OTSO"]
      zeroSnapshot 9 1).1 "fetch vessels: timeout" rfl⟩

/-- C19: `HealthHandler` reports ready (status 200, body the line "ok") if and only if the
snapshot's `LastRefresh` is not zero and its `LastRefreshError` is empty; otherwise it
reports status 503 with the line "not ready"; and `MetricsHandler` reports the up indicator
as 0 exactly when `LastRefreshError` is not empty, and as 1 otherwise. -/
theorem health_and_up (s : Snapshot) :
    (HealthHandler s = (200, "ok\n") ↔ s.LastRefresh ≠ 0 ∧ s.LastRefreshError = "") ∧
    (HealthHandler s = (503, "not ready\n") ↔ ¬ (s.LastRefresh ≠ 0 ∧ s.LastRefreshError = "")) ∧
    (metricsUp s = 0 ↔ s.LastRefreshError ≠ "") ∧
    (metricsUp s = 1 ↔ s.LastRefreshError = "") := by
  unfold HealthHandler metricsUp
  by_cases h1 : s.LastRefresh = 0 <;> by_cases h2 : s.LastRefreshError = "" <;>
    simp [h1, h2]

/-! ## Label escaping -/

theorem EscapeLabel_data (s : String) : (EscapeLabel s).data = s.data.flatMap escapeChar := by
  unfold EscapeLabel replaceAllChar
  simp only [List.flatMap_assoc]
  congr 1
  funext c
  unfold escapeChar
  by_cases h1 : c = backslash
  · subst h1
    decide
  · by_cases h2 : c = lineFeed
    · subst h2
      decide
    · by_cases h3 : c = dquote
      · subst h3
        decide
      · simp [h1, h2, h3]

theorem trailingBackslashes_snoc (l : List Char) (x : Char) :
    trailingBackslashes (l ++ [x]) = if x = backslash then trailingBackslashes l + 1 else 0 := by
  unfold trailingBackslashes
  rw [List.reverse_append, List.reverse_singleton, List.singleton_append, List.takeWhile_cons]
  by_cases h : x = backslash
  · simp [h]
  · simp [h]

theorem snoc_eq_split (l pre post : List Char) (x q : Char)
    (h : l ++ [x] = pre ++ q :: post) :
    (post = [] ∧ x = q ∧ pre = l) ∨ ∃ post', post = post' ++ [x] ∧ l = pre ++ q :: post' := by
  rcases List.eq_nil_or_concat post with e | ⟨post', y, e⟩
  · subst e
    have h' : l ++ [x] = pre ++ [q] := h
    obtain ⟨h1, h2⟩ := List.append_inj' h' rfl
    exact Or.inl ⟨rfl, by simpa using h2, h1.symm⟩
  · subst e
    have h' : l ++ [x] = (pre ++ q :: post') ++ [y] := by
      rw [h]; simp
    obtain ⟨h1, h2⟩ := List.append_inj' h' rfl
    have : x = y := by simpa using h2
    exact Or.inr ⟨post', by rw [this, List.concat_eq_append], h1⟩

theorem Escaped_snoc (l : List Char) (x : Char) (h : Escaped l) (hx : x ≠ lineFeed)
    (hq : x = dquote → trailingBackslashes l % 2 = 1) : Escaped (l ++ [x]) := by
  refine ⟨?_, ?_⟩
  · intro hm
    rcases List.mem_append.1 hm with e | e
    · exact h.1 e
    · exact hx (List.mem_singleton.1 e).symm
  · intro pre post hs
    rcases snoc_eq_split l pre post x dquote hs with ⟨_, h2, h3⟩ | ⟨post', _, h2⟩
    · rw [h3]
      exact hq h2
    · exact h.2 pre post' h2

theorem Escaped_escapeChar (l : List Char) (c : Char) (h : Escaped l)
    (he : trailingBackslashes l % 2 = 0) :
    Escaped (l ++ escapeChar c) ∧ trailingBackslashes (l ++ escapeChar c) % 2 = 0 := by
  have hb1 : backslash ≠ lineFeed := by decide
  have hb2 : backslash ≠ dquote := by decide
  have hn1 : 'n' ≠ lineFeed := by decide
  have hn2 : 'n' ≠ dquote := by decide
  have hn3 : 'n' ≠ backslash := by decide
  have hd1 : dquote ≠ lineFeed := by decide
  have hd3 : dquote ≠ backslash := by decide
  have two : ∀ x y : Char, l ++ [x, y] = (l ++ [x]) ++ [y] := fun x y => by simp
  have hstep := Escaped_snoc l backslash h hb1 (fun e => absurd e hb2)
  have htb : trailingBackslashes (l ++ [backslash]) = trailingBackslashes l + 1 := by
    rw [trailingBackslashes_snoc, if_pos rfl]
  unfold escapeChar
  by_cases h1 : c = backslash
  · rw [if_pos h1, two]
    refine ⟨Escaped_snoc _ backslash hstep hb1 (fun e => absurd e hb2), ?_⟩
    rw [trailingBackslashes_snoc, if_pos rfl, htb]
    omega
  · rw [if_neg h1]
    by_cases h2 : c = lineFeed
    · rw [if_pos h2, two]
      refine ⟨Escaped_snoc _ 'n' hstep hn1 (fun e => absurd e hn2), ?_⟩
      rw [trailingBackslashes_snoc, if_neg hn3]
    · rw [if_neg h2]
      by_cases h3 : c = dquote
      · rw [if_pos h3, two]
        refine ⟨Escaped_snoc _ dquote hstep hd1 (fun _ => by rw [htb]; omega), ?_⟩
        rw [trailingBackslashes_snoc, if_neg hd3]
      · rw [if_neg h3]
        refine ⟨Escaped_snoc l c h h2 (fun e => absurd e h3), ?_⟩
        rw [trailingBackslashes_snoc, if_neg h1]

theorem Escaped_flatMap (cs : List Char) (l : List Char) (h : Escaped l)
    (he : trailingBackslashes l % 2 = 0) : Escaped (l ++ cs.flatMap escapeChar) := by
  induction cs generalizing l with
  | nil => simpa using h
  | cons c rest ih =>
    rw [List.flatMap_cons, ← List.append_assoc]
    obtain ⟨h1, h2⟩ := Escaped_escapeChar l c h he
    exact ih _ h1 h2

/-- C17: `EscapeLabel(s)` contains no line-feed character, and every double-quote character
in it is immediately preceded by a run of backslashes of odd length, so that no double quote
ends the label value early. -/
theorem escapeLabel_safe (s : String) :
    lineFeed ∉ (EscapeLabel s).data ∧
    ∀ pre post : List Char, (EscapeLabel s).data = pre ++ dquote :: post →
      trailingBackslashes pre % 2 = 1 := by
  have h := Escaped_flatMap s.data [] ⟨by simp, fun pre post e => by simp at e⟩ rfl
  rw [List.nil_append, ← EscapeLabel_data] at h
  exact h
/-- Witness of C17: in the escaped form of `a`, backslash, double quote the double quote
follows three backslashes. -/
theorem escapeLabel_safe_witness :
    (EscapeLabel (String.mk ['a', backslash, dquote])).data
      = ['a', backslash, backslash, backslash, dquote] ∧
    trailingBackslashes ['a', backslash, backslash, backslash] % 2 = 1 :=
  ⟨by decide,
   (escapeLabel_safe (String.mk ['a', backslash, dquote])).2
     ['a', backslash, backslash, backslash] [] (by decide)⟩

/-! ## Reconciliation: the winner among equal timestamps -/

theorem filter_valid_snoc (L : List LocationRecord) (x : LocationRecord) :
    (L ++ [x]).filter (fun l => decide (validCoords l))
      = if validCoords x then L.filter (fun l => decide (validCoords l)) ++ [x]
        else L.filter (fun l => decide (validCoords l)) := by
  rw [List.filter_append]
  by_cases h : validCoords x
  · rw [if_pos h, List.filter_cons_of_pos (by simpa using h)]
    rfl
  · rw [if_neg h, List.filter_cons_of_neg (by simpa using h)]
    simp

/-- With the vessel known and no position held at the start, the position held after the
loop is the candidate of the first observation with valid coordinates that attains the
greatest timestamp, and there is none exactly when no observation has valid coordinates. -/
theorem foldl_keyStep_firstLatest (rt : GoRuntime) (targets : List String)
    (v : VesselMetadata) (L : List LocationRecord) :
    ((L.foldl (keyStep rt targets) { vessel := some v, best := none }).best = none ↔
      L.filter (fun l => decide (validCoords l)) = []) ∧
    ∀ p, (L.foldl (keyStep rt targets) { vessel := some v, best := none }).best = some p →
      ∃ o, FirstLatest (L.filter (fun l => decide (validCoords l))) o ∧ p = mkCandidate v o := by
  induction L using List.reverseRecOn with
  | nil =>
    refine ⟨⟨fun _ => rfl, fun _ => rfl⟩, ?_⟩
    intro p hp
    cases hp
  | append_singleton L x ih =>
    obtain ⟨ih1, ih2⟩ := ih
    have hv := foldl_keyStep_vessel_some rt targets L { vessel := some v, best := none } v rfl
    rw [List.foldl_append, List.foldl_cons, List.foldl_nil, filter_valid_snoc]
    by_cases hx : validCoords x
    · rw [if_pos hx, keyStep_some rt targets _ x v hx hv]
      have hiff : ∀ (q : IcebreakerPosition) (A : List LocationRecord),
          ((some q : Option IcebreakerPosition) = none ↔ A ++ [x] = []) :=
        fun q A => ⟨fun h => Option.noConfusion h, fun h => absurd h (by simp)⟩
      have hnil : ∀ a ∈ ([] : List LocationRecord), a.Timestamp < x.Timestamp :=
        fun a ha => absurd ha (List.not_mem_nil a)
      have hnil' : ∀ a ∈ ([] : List LocationRecord), a.Timestamp ≤ x.Timestamp :=
        fun a ha => absurd ha (List.not_mem_nil a)
      unfold keyRecord
      dsimp only
      rcases hb : (L.foldl (keyStep rt targets) { vessel := some v, best := none }).best
        with _ | cur
      · have hA := ih1.1 hb
        refine ⟨hiff _ _, ?_⟩
        intro p hp
        simp only [Option.some.injEq] at hp
        refine ⟨x, ⟨[], [], ?_, hnil, hnil'⟩, hp.symm⟩
        rw [hA]
      · obtain ⟨o, ⟨pre, post, hA, hpre, hpost⟩, hcur⟩ := ih2 cur hb
        have hts : cur.Timestamp = o.Timestamp := by rw [hcur]; rfl
        dsimp only
        by_cases hgt : (mkCandidate v x).Timestamp > cur.Timestamp
        · rw [if_pos hgt]
          refine ⟨hiff _ _, ?_⟩
          intro p hp
          simp only [Option.some.injEq] at hp
          have hgt' : o.Timestamp < x.Timestamp := by
            rw [← hts]
            exact hgt
          refine ⟨x, ⟨_, [], rfl, ?_, hnil'⟩, hp.symm⟩
          intro a ha
          rw [hA] at ha
          rcases List.mem_append.1 ha with h | h
          · exact lt_trans (hpre a h) hgt'
          · rcases List.mem_cons.1 h with h | h
            · rw [h]
              exact hgt'
            · exact lt_of_le_of_lt (hpost a h) hgt'
        · rw [if_neg hgt, hb]
          refine ⟨hiff _ _, ?_⟩
          intro p hp
          simp only [Option.some.injEq] at hp
          have hle : x.Timestamp ≤ o.Timestamp := by
            rw [← hts]
            exact not_lt.1 hgt
          have hA' : List.filter (fun l => decide (validCoords l)) L ++ [x]
              = pre ++ o :: (post ++ [x]) := by
            rw [hA]
            simp
          refine ⟨o, ⟨pre, post ++ [x], hA', hpre, ?_⟩, hp ▸ hcur⟩
          intro a ha
          rcases List.mem_append.1 ha with h | h
          · exact hpost a h
          · rw [List.mem_singleton.1 h]
            exact hle
    · rw [if_neg hx, keyStep_invalid rt targets _ x hx]
      exact ⟨ih1, ih2⟩

/-- Without a known vessel and without a position at the start, the position held after the
loop is the candidate of the first observation that attains the greatest timestamp among the
observations with valid coordinates from the first allow-listed name on. -/
theorem foldl_keyStep_firstLatest_fallback (rt : GoRuntime) (targets : List String)
    (L : List LocationRecord) (p : IcebreakerPosition)
    (hp : (L.foldl (keyStep rt targets) { vessel := none, best := none }).best = some p) :
    ∃ o v, FirstLatest
        ((L.filter (fun l => decide (validCoords l))).dropWhile
          (fun loc => decide (NormalizeName rt (TrimSpace loc.Name) ∉ targets))) o ∧
      p = mkCandidate v o := by
  induction L with
  | nil => cases hp
  | cons x rest ih =>
    rw [List.foldl_cons] at hp
    by_cases hx : validCoords x
    · rw [List.filter_cons_of_pos (by simpa using hx)]
      by_cases ht : NormalizeName rt (TrimSpace x.Name) ∈ targets
      · rw [List.dropWhile_cons_of_neg (by simpa using ht)]
        rw [keyStep_none_allowed rt targets _ x hx rfl ht,
          ← keyStep_some rt targets { vessel := some (fallbackVessel x), best := none } x
            (fallbackVessel x) hx rfl, ← List.foldl_cons] at hp
        obtain ⟨o, ho, hpo⟩ :=
          (foldl_keyStep_firstLatest rt targets (fallbackVessel x) (x :: rest)).2 p hp
        rw [List.filter_cons_of_pos (by simpa using hx)] at ho
        exact ⟨o, fallbackVessel x, ho, hpo⟩
      · rw [List.dropWhile_cons_of_pos (by simpa using ht)]
        rw [keyStep_none_rejected rt targets _ x rfl ht] at hp
        exact ih hp
    · rw [List.filter_cons_of_neg (by simpa using hx)]
      rw [keyStep_invalid rt targets _ x hx] at hp
      exact ih hp

/-- C20: equal timestamps keep the incumbent.  For every position that
`SelectIcebreakerPositions` exports, the latitude, longitude and timestamp are those of the
first observation in the location list, among the accepted observations of that identity,
that attains the greatest timestamp: every accepted observation before it is strictly older,
none after it is newer. -/
theorem select_first_latest (rt : GoRuntime) (vessels : List VesselMetadata)
    (locations : List LocationRecord) (targets : List String) (p : IcebreakerPosition)
    (hp : p ∈ SelectIcebreakerPositions rt vessels locations targets) :
    ∃ pre o post,
      acceptedObs rt vessels locations targets p.MMSI = pre ++ o :: post ∧
      (∀ a ∈ pre, a.Timestamp < o.Timestamp) ∧
      (∀ a ∈ post, a.Timestamp ≤ o.Timestamp) ∧
      p.Latitude = o.Latitude ∧ p.Longitude = o.Longitude ∧ p.Timestamp = o.Timestamp := by
  obtain ⟨_, hbest⟩ := Select_mem_key rt vessels locations targets p hp
  have hobs : locations.filter
        (fun loc => decide (loc.MMSI = p.MMSI) && decide (validCoords loc))
      = (locations.filter (fun loc => decide (loc.MMSI = p.MMSI))).filter
          (fun l => decide (validCoords l)) := by
    rw [List.filter_filter]
    congr 1
    funext loc
    exact Bool.and_comm _ _
  unfold acceptedObs
  dsimp only
  rw [hobs]
  rcases hsel : (selectVessels rt targets vessels).get p.MMSI with _ | v
  · rw [hsel] at hbest
    obtain ⟨o, v, ⟨pre, post, hA, h1, h2⟩, hpo⟩ :=
      foldl_keyStep_firstLatest_fallback rt targets _ p hbest
    exact ⟨pre, o, post, hA, h1, h2, by rw [hpo]; rfl, by rw [hpo]; rfl, by rw [hpo]; rfl⟩
  · rw [hsel] at hbest
    obtain ⟨o, ⟨pre, post, hA, h1, h2⟩, hpo⟩ :=
      (foldl_keyStep_firstLatest rt targets v _).2 p hbest
    exact ⟨pre, o, post, hA, h1, h2, by rw [hpo]; rfl, by rw [hpo]; rfl, by rw [hpo]; rfl⟩

/-- Witness of C20: of two Otso observations with the same timestamp the first one is
exported. -/
theorem select_first_latest_witness :
    SelectIcebreakerPositions testRuntime testMetas tieLocations ["OTSO"]
      = [{ Name := "Otso", MMSI := "230124000", Country := "", Latitude := f60,
           Longitude := f25, Timestamp := 100 }] ∧
    ∃ pre o post,
      acceptedObs testRuntime testMetas tieLocations ["OTSO"] "230124000" = pre ++ o :: post ∧
      (∀ a ∈ pre, a.Timestamp < o.Timestamp) ∧
      (∀ a ∈ post, a.Timestamp ≤ o.Timestamp) ∧
      f60 = o.Latitude ∧ f25 = o.Longitude ∧ (100 : Int) = o.Timestamp :=
  ⟨by decide,
   select_first_latest testRuntime testMetas tieLocations ["OTSO"]
    { Name := "Otso", MMSI := "230124000", Country := "", Latitude := f60,
      Longitude := f25, Timestamp := 100 } (by decide)⟩

/-! ## The location extractor: lookups depend on the fields only -/

theorem GoMap.get_perm {V : Type} {l₁ l₂ : GoMap V} (h : l₁.Perm l₂) (hn : l₁.keys.Nodup)
    (k : String) : GoMap.get l₁ k = GoMap.get l₂ k := by
  have hn2 : l₂.keys.Nodup := ((h.map Prod.fst).nodup_iff).1 hn
  rcases hg : GoMap.get l₁ k with _ | v
  · rcases hg2 : GoMap.get l₂ k with _ | w
    · rfl
    · have hm := GoMap.mem_of_get l₂ hg2
      have := GoMap.get_of_mem l₁ hn (h.mem_iff.2 hm)
      rw [hg] at this
      cases this
  · have hm := GoMap.mem_of_get l₁ hg
    exact (GoMap.get_of_mem l₂ hn2 (h.mem_iff.1 hm)).symm

theorem getString_congr (a b : GoMap Any) (keys : List String)
    (h : ∀ k ∈ keys, GoMap.get a k = GoMap.get b k) : getString a keys = getString b keys := by
  induction keys with
  | nil => rfl
  | cons key keys ih =>
    unfold getString
    rw [h key (List.mem_cons_self _ _), ih (fun k hk => h k (List.mem_cons_of_mem _ hk))]

theorem getNumber_congr (rt : GoRuntime) (a b : GoMap Any) (keys : List String)
    (h : ∀ k ∈ keys, GoMap.get a k = GoMap.get b k) :
    getNumber rt a keys = getNumber rt b keys := by
  induction keys with
  | nil => rfl
  | cons key keys ih =>
    unfold getNumber
    rw [h key (List.mem_cons_self _ _), ih (fun k hk => h k (List.mem_cons_of_mem _ hk))]

theorem getMMSI_congr (rt : GoRuntime) (a b : GoMap Any) (keys : List String)
    (h : ∀ k ∈ keys, GoMap.get a k = GoMap.get b k) :
    getMMSI rt a keys = getMMSI rt b keys := by
  induction keys with
  | nil => rfl
  | cons key keys ih =>
    unfold getMMSI
    rw [h key (List.mem_cons_self _ _), ih (fun k hk => h k (List.mem_cons_of_mem _ hk))]

theorem getTimestamp_congr (rt : GoRuntime) (a b : GoMap Any) (keys : List String)
    (h : ∀ k ∈ keys, GoMap.get a k = GoMap.get b k) :
    getTimestamp rt a keys = getTimestamp rt b keys := by
  induction keys with
  | nil => rfl
  | cons key keys ih =>
    unfold getTimestamp
    rw [h key (List.mem_cons_self _ _), ih (fun k hk => h k (List.mem_cons_of_mem _ hk))]

theorem parseGeoJSONLocation_congr (rt : GoRuntime) (a b : GoMap Any)
    (h : ∀ k, GoMap.get a k = GoMap.get b k) :
    parseGeoJSONLocation rt a = parseGeoJSONLocation rt b := by
  unfold parseGeoJSONLocation
  rw [h "geometry", h "properties", getMMSI_congr rt a b _ (fun k _ => h k),
    getString_congr a b _ (fun k _ => h k), getTimestamp_congr rt a b _ (fun k _ => h k)]

theorem parseFlatLocation_congr (rt : GoRuntime) (a b : GoMap Any)
    (h : ∀ k, GoMap.get a k = GoMap.get b k) :
    parseFlatLocation rt a = parseFlatLocation rt b := by
  unfold parseFlatLocation
  rw [getNumber_congr rt a b ["lat", "latitude"] (fun k _ => h k),
    getNumber_congr rt a b ["lon", "lng", "longitude", "long"] (fun k _ => h k),
    getMMSI_congr rt a b _ (fun k _ => h k),
    getString_congr a b _ (fun k _ => h k), getTimestamp_congr rt a b _ (fun k _ => h k)]

theorem locationVisit_congr (rt : GoRuntime) (a b : GoMap Any)
    (h : ∀ k, GoMap.get a k = GoMap.get b k) : locationVisit rt a = locationVisit rt b := by
  unfold locationVisit
  rw [parseGeoJSONLocation_congr rt a b h, parseFlatLocation_congr rt a b h]

theorem walkJSON_scalar (v : Any) (h : isScalar v = true) : walkJSON v = [] := by
  cases v <;> first | rfl | exact Bool.noConfusion h

theorem isScalar_of_toMMSI (rt : GoRuntime) (v : Any) (h : toMMSI rt v ≠ "") :
    isScalar v = true := by
  cases v <;> first | rfl | exact absurd rfl h

theorem isScalar_of_toFloat64 (rt : GoRuntime) (v : Any) (x : Float64)
    (h : toFloat64 rt v = some x) : isScalar v = true := by
  cases v <;> first | rfl | exact Option.noConfusion h

theorem mem_walkItems_iff (cs : List Any) (item : GoMap Any) :
    item ∈ walkItems cs ↔ ∃ c ∈ cs, item ∈ walkJSON c := by
  induction cs with
  | nil => simp [walkItems]
  | cons c rest ih => simp [walkItems, ih]

theorem walkFields_scalars (fields : GoMap Any) (h : ∀ kv ∈ fields, isScalar kv.2 = true) :
    walkFields fields = [] := by
  rw [walkFields_eq_walkItems, List.eq_nil_iff_forall_not_mem]
  intro item hitem
  obtain ⟨c, hc, hci⟩ := (mem_walkItems_iff _ item).1 hitem
  obtain ⟨kv, hkv, rfl⟩ := List.mem_map.1 hc
  rw [walkJSON_scalar kv.2 (h kv hkv)] at hci
  cases hci

/-! ## The location extractor: the two shapes -/

theorem getNumber_first (rt : GoRuntime) (item : GoMap Any) (key : String) (keys : List String)
    (raw : Any) (v : Float64) (hget : item.get key = some raw)
    (h : toFloat64 rt raw = some v) : getNumber rt item (key :: keys) = some v := by
  cases raw <;> first | exact Option.noConfusion h | simp [getNumber, hget, h]

theorem getMMSI_first (rt : GoRuntime) (item : GoMap Any) (key : String) (raw : Any)
    (hget : item.get key = some raw) (h : toMMSI rt raw ≠ "") :
    getMMSI rt item [key] = toMMSI rt raw :=
  (getMMSI_single_eq_iff rt item key (toMMSI rt raw) h).2 ⟨raw, hget, rfl⟩

/-- The record that `parseGeoJSONLocation` builds from an object whose `geometry` holds the
coordinates and whose `properties` hold the identity, when the object itself has no name and
no timestamp. -/
theorem parseGeoJSONLocation_record (rt : GoRuntime) (item geometry properties : GoMap Any)
    (lon lat : Any) (x y : Float64) (m : String)
    (hgeo : item.get "geometry" = some (.obj geometry))
    (hcoord : GoMap.get geometry "coordinates" = some (.arr [lon, lat]))
    (hlon : toFloat64 rt lon = some x) (hlat : toFloat64 rt lat = some y)
    (hprop : item.get "properties" = some (.obj properties))
    (hm : getMMSI rt properties ["mmsi"] = m) (hne : m ≠ "")
    (hname : getString item ["name", "vesselName"] = "")
    (hts : getTimestamp rt item ["timestamp", "time", "locUpdateTimestamp"] = 0) :
    parseGeoJSONLocation rt item
      = some { Name := TrimSpace (getString properties ["name", "vesselName"]), MMSI := m,
               Latitude := y, Longitude := x,
               Timestamp := getTimestamp rt properties
                 ["timestamp", "time", "locUpdateTimestamp"] } := by
  unfold parseGeoJSONLocation
  simp only [hgeo, hcoord, hlon, hlat, hprop, hm, hne, if_false, hname, hts]
  congr 2
  · split
    · rename_i h
      rw [h]
    · rfl
  · split
    · rename_i h
      rw [h]
    · rfl

/-- The record that `parseFlatLocation` builds from an object with coordinates and an
identity. -/
theorem parseFlatLocation_record (rt : GoRuntime) (item : GoMap Any) (x y : Float64)
    (m : String) (hlat : getNumber rt item ["lat", "latitude"] = some y)
    (hlon : getNumber rt item ["lon", "lng", "longitude", "long"] = some x)
    (hm : getMMSI rt item ["mmsi"] = m) (hne : m ≠ "") :
    parseFlatLocation rt item
      = some { Name := TrimSpace (getString item ["name", "vesselName"]), MMSI := m,
               Latitude := y, Longitude := x,
               Timestamp := getTimestamp rt item
                 ["timestamp", "time", "locUpdateTimestamp"] } := by
  unfold parseFlatLocation
  simp only [hlat, hlon, hm, hne, if_false]

/-- An object without `geometry` and without a latitude gives no observation. -/
theorem locationVisit_none (rt : GoRuntime) (item : GoMap Any)
    (hgeo : item.get "geometry" = none) (hlat : item.get "lat" = none)
    (hlatitude : item.get "latitude" = none) : locationVisit rt item = none := by
  have h1 : parseGeoJSONLocation rt item = none := by
    unfold parseGeoJSONLocation
    simp only [hgeo]
  have h2 : getNumber rt item ["lat", "latitude"] = none := by
    simp [getNumber, hlat, hlatitude]
  unfold locationVisit parseFlatLocation
  simp only [h1, h2]

/-- C14: shape-agnostic equivalence.  For every identity value that is not absent, every
scalar name and timestamp value and every numeric `lon`, `lat`, `ExtractLocations` applied to
the geospatial-feature-shaped object with `properties` holding `mmsi`, `name`, `timestamp`
and `geometry` holding `coordinates: [lon, lat]` returns exactly one observation, and it is
the single observation that `ExtractLocations` returns for the flat object with the fields
`mmsi`, `name`, `timestamp`, `lat`, `lon`; its longitude is `coordinates[0]` and its latitude
`coordinates[1]`.  The fields of each object may come in any order. -/
theorem extract_locations_shapes (rt : GoRuntime) (id nm ts lon lat : Any) (x y : Float64)
    (G P F : GoMap Any) (hid : toMMSI rt id ≠ "") (hnm : isScalar nm = true)
    (hts : isScalar ts = true) (hlon : toFloat64 rt lon = some x)
    (hlat : toFloat64 rt lat = some y)
    (hG : G.Perm [("properties", .obj P),
                  ("geometry", .obj [("coordinates", .arr [lon, lat])])])
    (hP : P.Perm [("mmsi", id), ("name", nm), ("timestamp", ts)])
    (hF : F.Perm [("mmsi", id), ("name", nm), ("timestamp", ts), ("lat", lat), ("lon", lon)]) :
    ∃ o, ExtractLocations rt (.obj G) = [o] ∧ ExtractLocations rt (.obj F) = [o] ∧
      o.MMSI = toMMSI rt id ∧ o.Longitude = x ∧ o.Latitude = y := by
  have sid := isScalar_of_toMMSI rt id hid
  have slon := isScalar_of_toFloat64 rt lon x hlon
  have slat := isScalar_of_toFloat64 rt lat y hlat
  have gG : ∀ k, GoMap.get G k = GoMap.get
      [("properties", Any.obj P), ("geometry", Any.obj [("coordinates", Any.arr [lon, lat])])]
      k :=
    fun k => (GoMap.get_perm hG.symm (by simp [GoMap.keys]) k).symm
  have gP : ∀ k, GoMap.get P k = GoMap.get [("mmsi", id), ("name", nm), ("timestamp", ts)] k :=
    fun k => (GoMap.get_perm hP.symm (by simp [GoMap.keys]) k).symm
  have gF : ∀ k, GoMap.get F k = GoMap.get
      [("mmsi", id), ("name", nm), ("timestamp", ts), ("lat", lat), ("lon", lon)] k :=
    fun k => (GoMap.get_perm hF.symm (by simp [GoMap.keys]) k).symm
  -- the geospatial-feature-shaped object gives the record
  have hgeo : locationVisit rt G
      = some { Name := TrimSpace (getString P ["name", "vesselName"]), MMSI := toMMSI rt id,
               Latitude := y, Longitude := x,
               Timestamp := getTimestamp rt P ["timestamp", "time", "locUpdateTimestamp"] } := by
    unfold locationVisit
    rw [parseGeoJSONLocation_record rt G [("coordinates", Any.arr [lon, lat])] P lon lat x y
      (toMMSI rt id) (by rw [gG]; rfl) rfl hlon hlat (by rw [gG]; rfl)
      (getMMSI_first rt P "mmsi" id (by rw [gP]; rfl) hid) hid
      (by rw [getString_congr G _ _ (fun k _ => gG k)]; rfl)
      (by rw [getTimestamp_congr rt G _ _ (fun k _ => gG k)]; rfl)]
  -- the flat object gives the same record
  have hnames : getString F ["name", "vesselName"] = getString P ["name", "vesselName"] := by
    apply getString_congr
    intro k hk
    rw [gF, gP]
    simp only [List.mem_cons, List.mem_singleton, List.not_mem_nil, or_false] at hk
    rcases hk with e | e <;> rw [e] <;> rfl
  have htimes : getTimestamp rt F ["timestamp", "time", "locUpdateTimestamp"]
      = getTimestamp rt P ["timestamp", "time", "locUpdateTimestamp"] := by
    apply getTimestamp_congr
    intro k hk
    rw [gF, gP]
    simp only [List.mem_cons, List.mem_singleton, List.not_mem_nil, or_false] at hk
    rcases hk with e | e | e <;> rw [e] <;> rfl
  have hflat : locationVisit rt F
      = some { Name := TrimSpace (getString P ["name", "vesselName"]), MMSI := toMMSI rt id,
               Latitude := y, Longitude := x,
               Timestamp := getTimestamp rt P ["timestamp", "time", "locUpdateTimestamp"] } := by
    have h1 : parseGeoJSONLocation rt F = none := by
      unfold parseGeoJSONLocation
      have : F.get "geometry" = none := by rw [gF]; rfl
      simp only [this]
    unfold locationVisit
    rw [h1]
    dsimp only
    rw [parseFlatLocation_record rt F x y (toMMSI rt id)
      (getNumber_first rt F "lat" _ lat y (by rw [gF]; rfl) hlat)
      (getNumber_first rt F "lon" _ lon x (by rw [gF]; rfl) hlon)
      (getMMSI_first rt F "mmsi" id (by rw [gF]; rfl) hid) hid, hnames, htimes]
  -- no other object of either payload gives an observation
  have hPfields : walkFields P = [] := by
    apply walkFields_scalars
    intro kv hkv
    have := hP.mem_iff.1 hkv
    simp only [List.mem_cons, List.mem_singleton, List.not_mem_nil, or_false] at this
    rcases this with e | e | e <;> rw [e]
    · exact sid
    · exact hnm
    · exact hts
  have hFfields : walkFields F = [] := by
    apply walkFields_scalars
    intro kv hkv
    have := hF.mem_iff.1 hkv
    simp only [List.mem_cons, List.mem_singleton, List.not_mem_nil, or_false] at this
    rcases this with e | e | e | e | e <;> rw [e]
    · exact sid
    · exact hnm
    · exact hts
    · exact slat
    · exact slon
  have hGfields : (walkFields G).filterMap (locationVisit rt) = [] := by
    rw [List.filterMap_eq_nil_iff]
    intro item hitem
    rw [walkFields_eq_walkItems] at hitem
    obtain ⟨c, hc, hci⟩ := (mem_walkItems_iff _ item).1 hitem
    obtain ⟨kv, hkv, rfl⟩ := List.mem_map.1 hc
    have := hG.mem_iff.1 hkv
    simp only [List.mem_cons, List.mem_singleton, List.not_mem_nil, or_false] at this
    rcases this with e | e
    · rw [e] at hci
      have hw : walkJSON (Any.obj P) = [P] := by
        show P :: walkFields P = [P]
        rw [hPfields]
      rw [hw] at hci
      rw [List.mem_singleton.1 hci]
      exact locationVisit_none rt P (by rw [gP]; rfl) (by rw [gP]; rfl) (by rw [gP]; rfl)
    · rw [e] at hci
      have hw : walkJSON (Any.obj [("coordinates", Any.arr [lon, lat])])
          = [[("coordinates", Any.arr [lon, lat])]] := by
        simp [walkJSON, walkFields, walkItems, walkJSON_scalar lon slon,
          walkJSON_scalar lat slat]
      rw [hw] at hci
      rw [List.mem_singleton.1 hci]
      exact locationVisit_none rt _ rfl rfl rfl
  refine ⟨{ Name := TrimSpace (getString P ["name", "vesselName"]), MMSI := toMMSI rt id,
             Latitude := y, Longitude := x,
             Timestamp := getTimestamp rt P ["timestamp", "time", "locUpdateTimestamp"] },
    ?_, ?_, rfl, rfl, rfl⟩
  · show (G :: walkFields G).filterMap (locationVisit rt) = _
    rw [List.filterMap_cons_some hgeo, hGfields]
  · show (F :: walkFields F).filterMap (locationVisit rt) = _
    rw [List.filterMap_cons_some hflat, hFfields]
    rfl

/-- Witness of C14: the Otso feature of `TestExtractLocations` and the flat object with the
same data give the same single observation. -/
theorem extract_locations_shapes_witness :
    ∃ o,
      ExtractLocations testRuntime
          (.obj [("properties", .obj [("mmsi", .int 230124000), ("name", .str "Otso"),
                                      ("timestamp", .int 1700000000)]),
                 ("geometry", .obj [("coordinates", .arr [.float64 f2491, .float64 f6017])])])
        = [o] ∧
      ExtractLocations testRuntime
          (.obj [("mmsi", .int 230124000), ("name", .str "Otso"),
                 ("timestamp", .int 1700000000), ("lat", .float64 f6017),
                 ("lon", .float64 f2491)])
        = [o] ∧
      o.MMSI = toMMSI testRuntime (.int 230124000) ∧ o.Longitude = f2491 ∧
      o.Latitude = f6017 :=
  extract_locations_shapes testRuntime (.int 230124000) (.str "Otso") (.int 1700000000)
    (.float64 f2491) (.float64 f6017) f2491 f6017 _ _ _ (by decide) rfl rfl rfl rfl
    (List.Perm.refl _) (List.Perm.refl _) (List.Perm.refl _)

/-! ## The magnitude heuristic -/

theorem normalizeTimestamp_small (ts : Int) (h : ts ≤ 1000000000000) :
    normalizeTimestamp ts = ts := by
  unfold normalizeTimestamp
  rw [if_neg (by omega), if_neg (by omega)]

/-- C22: the magnitude heuristic recovers seconds exactly on a bounded range: for every
integer `t` with 10^9 < t ≤ 10^12, `normalizeTimestamp(1000 * t) = t`; for every integer `t`
with 10^9 < t and 1000000 * t ≤ 2^63 - 1, `normalizeTimestamp(1000000 * t) = t`; and for
every `ts` ≤ 10^12, zero and negative values included, `normalizeTimestamp(ts) = ts`. -/
theorem normalizeTimestamp_range :
    (∀ t : Int, 1000000000 < t → t ≤ 1000000000000 → normalizeTimestamp (1000 * t) = t) ∧
    (∀ t : Int, 1000000000 < t → 1000000 * t ≤ 2 ^ 63 - 1 →
      normalizeTimestamp (1000000 * t) = t) ∧
    (∀ ts : Int, ts ≤ 1000000000000 → normalizeTimestamp ts = ts) := by
  refine ⟨?_, ?_, normalizeTimestamp_small⟩
  · intro t h1 h2
    rw [Int.mul_comm]
    exact normalizeTimestamp_millis t h1 h2
  · intro t h1 _
    rw [Int.mul_comm]
    exact normalizeTimestamp_micros t h1

/-- Witness of C22: 1700000000 seconds in milliseconds and microseconds, and the values 0
and -5. -/
theorem normalizeTimestamp_range_witness :
    normalizeTimestamp (1000 * 1700000000) = 1700000000 ∧
    normalizeTimestamp (1000000 * 1700000000) = 1700000000 ∧
    normalizeTimestamp 0 = 0 ∧ normalizeTimestamp (-5) = -5 :=
  ⟨normalizeTimestamp_range.1 1700000000 (by decide) (by decide),
   normalizeTimestamp_range.2.1 1700000000 (by decide) (by decide),
   normalizeTimestamp_range.2.2 0 (by decide),
   normalizeTimestamp_range.2.2 (-5) (by decide)⟩

/-! ## The timestamp field -/

theorem getTimestamp_cons_skip (rt : GoRuntime) (item : GoMap Any) (key : String)
    (keys : List String) (h : ∀ r, item.get key = some r → toTimestamp rt r ≤ 0) :
    getTimestamp rt item (key :: keys) = getTimestamp rt item keys := by
  rcases hget : item.get key with _ | raw
  · simp [getTimestamp, hget]
  · have hle : ¬ toTimestamp rt raw > 0 := not_lt.2 (h raw hget)
    cases raw <;> simp [getTimestamp, hget, hle]

theorem getTimestamp_cons_hit (rt : GoRuntime) (item : GoMap Any) (key : String)
    (keys : List String) (raw : Any) (hget : item.get key = some raw)
    (h : 0 < toTimestamp rt raw) :
    getTimestamp rt item (key :: keys) = toTimestamp rt raw := by
  have hgt : toTimestamp rt raw > 0 := h
  cases raw with
  | null => exact absurd h (lt_irrefl (0 : Int))
  | _ => simp [getTimestamp, hget, hgt]

/-- The result of `getTimestamp` is the timestamp of the first key whose field is present
with a positive `toTimestamp`, and 0 when there is no such key. -/
theorem getTimestamp_spec (rt : GoRuntime) (item : GoMap Any) (keys : List String) :
    (∃ pre key post raw, keys = pre ++ key :: post ∧ item.get key = some raw ∧
      0 < toTimestamp rt raw ∧
      (∀ k ∈ pre, ∀ r, item.get k = some r → toTimestamp rt r ≤ 0) ∧
      getTimestamp rt item keys = toTimestamp rt raw) ∨
    ((∀ k ∈ keys, ∀ r, item.get k = some r → toTimestamp rt r ≤ 0) ∧
      getTimestamp rt item keys = 0) := by
  induction keys with
  | nil => exact Or.inr ⟨fun k hk => absurd hk (List.not_mem_nil k), rfl⟩
  | cons key keys ih =>
    by_cases hit : ∃ raw, item.get key = some raw ∧ 0 < toTimestamp rt raw
    · obtain ⟨raw, hget, hpos⟩ := hit
      exact Or.inl ⟨[], key, keys, raw, rfl, hget, hpos,
        fun k hk => absurd hk (List.not_mem_nil k),
        getTimestamp_cons_hit rt item key keys raw hget hpos⟩
    · have hskip : ∀ r, item.get key = some r → toTimestamp rt r ≤ 0 :=
        fun r hr => not_lt.1 (fun hpos => hit ⟨r, hr, hpos⟩)
      rw [getTimestamp_cons_skip rt item key keys hskip]
      rcases ih with ⟨pre, k, post, raw, hk, hget, hpos, hpre, hres⟩ | ⟨hall, hres⟩
      · refine Or.inl ⟨key :: pre, k, post, raw, by rw [hk]; rfl, hget, hpos, ?_, hres⟩
        intro k' hk' r hr
        rcases List.mem_cons.1 hk' with e | e
        · rw [e] at hr
          exact hskip r hr
        · exact hpre k' e r hr
      · refine Or.inr ⟨?_, hres⟩
        intro k' hk' r hr
        rcases List.mem_cons.1 hk' with e | e
        · rw [e] at hr
          exact hskip r hr
        · exact hall k' e r hr

theorem parseFlatLocation_timestamp (rt : GoRuntime) (item : GoMap Any) (loc : LocationRecord)
    (h : parseFlatLocation rt item = some loc) :
    loc.Timestamp = getTimestamp rt item timestampKeys := by
  unfold parseFlatLocation at h
  split at h
  · dsimp only at h
    split at h
    · cases h
    · simp only [Option.some.injEq] at h
      rw [← h]
      rfl
  · cases h

theorem getTimestamp_nil (rt : GoRuntime) (keys : List String) :
    getTimestamp rt [] keys = 0 := by
  induction keys with
  | nil => rfl
  | cons key keys ih => exact (getTimestamp_cons_skip rt [] key keys (fun r h => by cases h)).trans ih

theorem parseGeoJSONLocation_timestamp (rt : GoRuntime) (item : GoMap Any)
    (loc : LocationRecord) (h : parseGeoJSONLocation rt item = some loc) :
    (∀ properties : GoMap Any, item.get "properties" = some (.obj properties) →
      loc.Timestamp =
        if getTimestamp rt properties timestampKeys = 0 then getTimestamp rt item timestampKeys
        else getTimestamp rt properties timestampKeys) ∧
    ((∀ properties : GoMap Any, item.get "properties" ≠ some (.obj properties)) →
      loc.Timestamp = getTimestamp rt item timestampKeys) := by
  have hprops : ∀ q : Option Any,
      (∀ p : GoMap Any, q = some (.obj p) →
        (match q with | some (.obj properties) => properties | _ => ([] : GoMap Any)) = p) ∧
      ((∀ p : GoMap Any, q ≠ some (.obj p)) →
        (match q with | some (.obj properties) => properties | _ => ([] : GoMap Any)) = []) := by
    intro q
    constructor
    · intro p hp
      subst hp
      rfl
    · intro hn
      cases q with
      | none => rfl
      | some v =>
        cases v with
        | obj p => exact absurd rfl (hn p)
        | _ => rfl
  have hkey : ∃ P : GoMap Any,
      (∀ p : GoMap Any, item.get "properties" = some (.obj p) → P = p) ∧
      ((∀ p : GoMap Any, item.get "properties" ≠ some (.obj p)) → P = []) ∧
      loc.Timestamp =
        if getTimestamp rt P timestampKeys = 0 then getTimestamp rt item timestampKeys
        else getTimestamp rt P timestampKeys := by
    unfold parseGeoJSONLocation at h
    split at h
    · split at h
      · split at h
        · dsimp only at h
          rw [Option.ite_none_left_eq_some] at h
          obtain ⟨_, h2⟩ := h
          simp only [Option.some.injEq] at h2
          refine ⟨_, (hprops (item.get "properties")).1, (hprops (item.get "properties")).2, ?_⟩
          rw [← h2]
          rfl
        · cases h
      · cases h
    · cases h
  obtain ⟨P, hP1, hP2, hts⟩ := hkey
  refine ⟨fun p hp => ?_, fun hn => ?_⟩
  · rw [← hP1 p hp]
    exact hts
  · rw [hP2 hn, getTimestamp_nil, if_pos rfl] at hts
    exact hts

/-- Counterexample to C21 as stated: the field `timestamp` is present with the non-null
value "abc", whose `toTimestamp` is 0, yet the timestamp read is that of the later field
`time`, because a field whose value gives no positive timestamp is passed over. -/
theorem timestamp_first_present_counterexample :
    mixedTimestamps.get "timestamp" = some (.str "abc") ∧
    toTimestamp testRuntime (.str "abc") = 0 ∧
    getTimestamp testRuntime mixedTimestamps timestampKeys = 1700000000 ∧
    getTimestamp testRuntime mixedTimestamps timestampKeys
      ≠ toTimestamp testRuntime (.str "abc") ∧
    (parseFlatLocation testRuntime mixedTimestamps).map LocationRecord.Timestamp
      = some 1700000000 :=
  ⟨rfl, by decide, by decide, by decide, by decide⟩

/-- C21 (amended): the timestamp that `parseFlatLocation` and `parseGeoJSONLocation` read
through `getTimestamp` is taken from the first field among `timestamp`, `time`,
`locUpdateTimestamp` (in that order) that is present with a value whose `toTimestamp` is
positive: the result is `toTimestamp` of that value, every earlier field being absent or
without a positive timestamp, and it is 0 when no field has a positive timestamp.
`parseFlatLocation` stores this result for the object.  `parseGeoJSONLocation` stores, when
the field `properties` of the object is an object, the result for `properties` and, when that
is 0, the result for the object itself; when `properties` is absent or not an object, it
stores the result for the object itself. -/
theorem timestamp_first_positive (rt : GoRuntime) (item : GoMap Any) :
    ((∃ pre key post raw, timestampKeys = pre ++ key :: post ∧ item.get key = some raw ∧
        0 < toTimestamp rt raw ∧
        (∀ k ∈ pre, ∀ r, item.get k = some r → toTimestamp rt r ≤ 0) ∧
        getTimestamp rt item timestampKeys = toTimestamp rt raw) ∨
      ((∀ k ∈ timestampKeys, ∀ r, item.get k = some r → toTimestamp rt r ≤ 0) ∧
        getTimestamp rt item timestampKeys = 0)) ∧
    (∀ loc, parseFlatLocation rt item = some loc →
      loc.Timestamp = getTimestamp rt item timestampKeys) ∧
    (∀ loc, parseGeoJSONLocation rt item = some loc →
      (∀ properties : GoMap Any, item.get "properties" = some (.obj properties) →
        loc.Timestamp =
          if getTimestamp rt properties timestampKeys = 0 then
            getTimestamp rt item timestampKeys
          else getTimestamp rt properties timestampKeys) ∧
      ((∀ properties : GoMap Any, item.get "properties" ≠ some (.obj properties)) →
        loc.Timestamp = getTimestamp rt item timestampKeys)) :=
  ⟨getTimestamp_spec rt item timestampKeys,
   fun loc h => parseFlatLocation_timestamp rt item loc h,
   fun loc h => parseGeoJSONLocation_timestamp rt item loc h⟩

/-- Witness of C21 (amended): the flat object with an unparseable `timestamp` and a `time`
of 1700000000 gives an observation with the timestamp of `time`; the GeoJSON feature of
`TestExtractLocations` gives an observation with the timestamp 1700000000 of its
`properties`. -/
theorem timestamp_first_positive_witness :
    getTimestamp testRuntime mixedTimestamps timestampKeys = 1700000000 ∧
    LocationRecord.Timestamp
        { Name := "", MMSI := "230124000", Latitude := f6017, Longitude := f2491,
          Timestamp := 1700000000 }
      = getTimestamp testRuntime mixedTimestamps timestampKeys ∧
    parseGeoJSONLocation testRuntime testFeature
      = some { Name := "Otso", MMSI := "230124000", Latitude := f6017, Longitude := f2491,
               Timestamp := 1700000000 } ∧
    getTimestamp testRuntime
        [("mmsi", .int 230124000), ("name", .str "Otso"), ("timestamp", .int 1700000000)]
        timestampKeys = 1700000000 ∧
    LocationRecord.Timestamp
        { Name := "Otso", MMSI := "230124000", Latitude := f6017, Longitude := f2491,
          Timestamp := 1700000000 }
      = (if getTimestamp testRuntime
            [("mmsi", .int 230124000), ("name", .str "Otso"), ("timestamp", .int 1700000000)]
            timestampKeys = 0 then
          getTimestamp testRuntime testFeature timestampKeys
        else
          getTimestamp testRuntime
            [("mmsi", .int 230124000), ("name", .str "Otso"), ("timestamp", .int 1700000000)]
            timestampKeys) ∧
    LocationRecord.Timestamp
        { Name := "", MMSI := "230124000", Latitude := f6017, Longitude := f2491,
          Timestamp := 1700000005 }
      = getTimestamp testRuntime bareFeature timestampKeys :=
  ⟨by decide,
   (timestamp_first_positive testRuntime mixedTimestamps).2.1
     { Name := "", MMSI := "230124000", Latitude := f6017, Longitude := f2491,
       Timestamp := 1700000000 } (by decide),
   by decide,
   by decide,
   ((timestamp_first_positive testRuntime testFeature).2.2
     { Name := "Otso", MMSI := "230124000", Latitude := f6017, Longitude := f2491,
       Timestamp := 1700000000 } (by decide)).1
     [("mmsi", .int 230124000), ("name", .str "Otso"), ("timestamp", .int 1700000000)] rfl,
   ((timestamp_first_positive testRuntime bareFeature).2.2
     { Name := "", MMSI := "230124000", Latitude := f6017, Longitude := f2491,
       Timestamp := 1700000005 } (by decide)).2
     (fun _ h => Option.noConfusion h)⟩

/-! ## The snapshot cache: reachable snapshots -/

theorem fetchPositions_ok_ne_nil (rt : GoRuntime)
    (vesselsFetch locationsFetch : Except String Any) (targets : List String)
    (positions : List IcebreakerPosition)
    (h : fetchPositions rt vesselsFetch locationsFetch targets = .ok positions) :
    positions ≠ [] := by
  unfold fetchPositions at h
  cases vesselsFetch with
  | error e => cases h
  | ok vp =>
    cases locationsFetch with
    | error e => cases h
    | ok lp =>
      simp only at h
      split at h
      · cases h
      · rename_i hlen
        simp only [Except.ok.injEq] at h
        rw [← h]
        intro e
        exact hlen (by rw [e]; rfl)

/-- The invariant of the snapshot cache: a snapshot with a refresh instant and without an
error holds positions. -/
theorem Reachable_invariant (rt : GoRuntime) (targets : List String) (s : Snapshot)
    (h : Reachable rt targets s) :
    s.LastRefresh ≠ 0 → s.LastRefreshError = "" → s.Positions ≠ [] := by
  induction h with
  | zero =>
    intro h0 _
    exact absurd rfl h0
  | refresh s vf lf now duration _ _ =>
    intro _ herr
    rcases hout : fetchPositions rt vf lf targets with e | ps
    · rw [hout] at herr
      exact absurd herr (fetchPositions_error_ne_empty rt vf lf targets e hout)
    · exact fetchPositions_ok_ne_nil rt vf lf targets ps hout

/-- C23: in every snapshot reachable from the zero snapshot by any sequence of `Refresh`
transitions, each driven by an outcome of `fetchPositions`, if `LastRefresh` is set and
`LastRefreshError` is empty (so that `HealthHandler` reports ready) then the position list is
not empty; and a successful refresh never installs an empty position list. -/
theorem reachable_ready_has_positions (rt : GoRuntime) (targets : List String) (s : Snapshot)
    (h : Reachable rt targets s) :
    (s.LastRefresh ≠ 0 → s.LastRefreshError = "" → s.Positions ≠ []) ∧
    (HealthHandler s = (200, "ok\n") → s.Positions ≠ []) ∧
    ∀ (vesselsFetch locationsFetch : Except String Any) (now duration : Int)
      (positions : List IcebreakerPosition),
      fetchPositions rt vesselsFetch locationsFetch targets = .ok positions →
      (Refresh s (.ok positions) now duration).Positions ≠ [] := by
  have hinv := Reachable_invariant rt targets s h
  refine ⟨hinv, ?_, ?_⟩
  · intro hh
    unfold HealthHandler at hh
    by_cases hc : s.LastRefresh = 0 ∨ s.LastRefreshError ≠ ""
    · rw [if_pos hc] at hh
      exact absurd (congrArg Prod.fst hh) (by decide)
    · rw [not_or, not_not] at hc
      exact hinv hc.1 hc.2
  · intro vf lf now duration positions hok
    exact fetchPositions_ok_ne_nil rt vf lf targets positions hok

/-- Witness of C23: the snapshot after a successful refresh from the test payloads at time 5
is reachable, ready, and holds the Otso position. -/
theorem reachable_ready_has_positions_witness :
    Reachable testRuntime ["OTSO"]
      (Refresh zeroSnapshot
        (fetchPositions testRuntime (.ok testVesselsPayload) (.ok testLocationsPayload)
          ["OTSO"]) 5 1) ∧
    (Refresh zeroSnapshot
        (fetchPositions testRuntime (.ok testVesselsPayload) (.ok testLocationsPayload)
          ["OTSO"]) 5 1).Positions ≠ [] :=
  ⟨Reachable.refresh zeroSnapshot _ _ 5 1 Reachable.zero,
   (reachable_ready_has_positions testRuntime ["OTSO"] _
      (Reachable.refresh zeroSnapshot (.ok testVesselsPayload) (.ok testLocationsPayload) 5 1
        Reachable.zero)).1 (by decide) (by decide)⟩

end Icebreaker
